import Mathlib

/-!
# NeoVM value model, serialization codec and executor

Shallow embedding of `vm/neovm/types/neovm_value.go` together with the parts of
`common` (byte sinks and sources, big-integer byte conversion) and of
`vm/neovm/types` (`IntValue`, `MapValue`) that the value model calls, and of
`vm/neovm/executor.go` together with the stacks, the execution context and the
opcode constants that the executor calls.

Bytes are `Fin 256`, Go `int64` and `*big.Int` payloads are `Int`, a Go
`string` map key is the list of its bytes, and a Go `map[string]VmValue` is an
association list with pairwise distinct keys whose order stands for one
possible iteration order of the Go map.

The codec works on values written out as trees (`types.VmValue`). Equality of
values and the executor work on values with pointers (`types.RefValue`): an
array, a struct or a map is the address of a cell in a store, so that two
values can share one container and a container can be changed in place.

The namespaces `kbucket` and `shard_stake` embed `Bucket` of
`p2pserver/dht/kbucket/bucket.go` and `isUserStakePeerEmpty` of
`smartcontract/service/native/shard_stake/method.go`.
-/

/-- One octet. -/
abbrev Byte := Fin 256

/-- Truncating conversion of a natural number to a byte, as Go `byte(n)`. -/
def byteOf (n : Nat) : Byte := ⟨n % 256, Nat.mod_lt n (by decide)⟩

/-- Little-endian value of a byte string. -/
def leNat : List Byte → Nat
  | [] => 0
  | b :: bs => b.val + 256 * leNat bs

/-- Little-endian bytes of `n`, exactly `w` of them (higher bytes are dropped). -/
def leBytes : Nat → Nat → List Byte
  | 0, _ => []
  | w + 1, n => byteOf n :: leBytes w (n / 256)

namespace errors

/-- Modelled from the spec: the error values that the value model and the
executor return, those of package `errors` (`TypeMismatch`,
`SizeLimitExceeded`, `InvalidValue`, `IndexOutOfBound`, `StackUnderflow`,
`StackOverflow`, `MapKeyNotFound`, `MalformedInstruction`), those of
deserialization (`UnexpectedEndOfInput`, `IrregularData`, the unknown tag),
the formatted error of `REMOVE`, the end of the code and a malformed public
key. -/
inductive VmError where
  | ERR_BAD_TYPE
  | ERR_OVER_MAX_ITEM_SIZE
  | ERR_INT_TOO_LARGE
  | ErrUnexpectedEOF
  | ErrIrregularData
  | ErrUnsupportType
  | ERR_INDEX_OUT_OF_BOUND
  | ERR_FAULT
  | ERR_OVER_MAX_ARRAY_SIZE
  | ERR_BAD_VALUE
  | ERR_MAP_NOT_EXIST
  | ERR_OVER_STACK_LEN
  | ERR_UNDER_STACK_LEN
  | ERR_DIV_MOD_BY_ZERO
  | ERR_SHIFT_BY_NEG
  | ErrRemoveIndex
  | ErrEOF
  | ErrPublicKey
  deriving DecidableEq, Repr

end errors

namespace constants

/-- Modelled from the spec: the protocol constants of package `constants`
("`ByteArray` length ≤ a fixed maximum (protocol constant)", "the protocol's
maximum integer bit-length"). The spec leaves their values open, so they are
parameters of the model. -/
structure Limits where
  MAX_BYTEARRAY_SIZE : Nat
  MAX_INT_SIZE : Nat
  deriving DecidableEq, Repr

end constants

namespace common

/-- Modelled from the spec: `common.BigIntToNeoBytes` on a non-zero integer,
"little-endian two's-complement representation with the shortest encoding that
round-trips (sign-extension trimmed)": low byte first, stopping at the first
byte from which the rest is pure sign extension. The first argument bounds the
number of bytes produced. -/
def neoBytesAux : Nat → Int → List Byte
  | 0, _ => []
  | fuel + 1, n =>
    if -128 ≤ n ∧ n < 128 then [byteOf (n % 256).toNat]
    else byteOf (n % 256).toNat :: neoBytesAux fuel (n / 256)

/-- Modelled from the spec: `common.BigIntToNeoBytes`, the shortest
little-endian two's-complement encoding; zero is the empty byte string. -/
def BigIntToNeoBytes (data : Int) : List Byte :=
  if data = 0 then [] else neoBytesAux data.natAbs data

/-- Modelled from the spec: `common.BigIntFromNeoBytes`, the integer whose
little-endian two's-complement representation is the given byte string (the
top bit of the last byte is the sign); the empty string is zero. -/
def BigIntFromNeoBytes : List Byte → Int
  | [] => 0
  | [b] => if b.val < 128 then (b.val : Int) else (b.val : Int) - 256
  | b :: b2 :: bs => (b.val : Int) + 256 * BigIntFromNeoBytes (b2 :: bs)

/-- The integer that a byte string denotes as a little-endian two's-complement
number: its little-endian value, less `256 ^ length` when the top bit of the
last byte is set. -/
def twosComplement (bs : List Byte) : Int :=
  match bs.getLast? with
  | none => 0
  | some top =>
    if top.val < 128 then (leNat bs : Int) else (leNat bs : Int) - 256 ^ bs.length

/-- Modelled from the spec: `common.ZeroCopySink`, the growing output buffer. -/
abbrev ZeroCopySink := List Byte

/-- Modelled from the spec: `ZeroCopySink.WriteByte`. -/
def ZeroCopySink.WriteByte (sink : ZeroCopySink) (c : Byte) : ZeroCopySink :=
  sink ++ [c]

/-- Modelled from the spec: `ZeroCopySink.WriteBool`, "1 byte (0/1)". -/
def ZeroCopySink.WriteBool (sink : ZeroCopySink) (data : Bool) : ZeroCopySink :=
  sink ++ [if data then 1 else 0]

/-- Modelled from the spec: the size in bytes of the "variable-length unsigned"
integer encoding of `data`. -/
def getVarUintSize (data : Nat) : Nat :=
  if data < 0xFD then 1
  else if data ≤ 0xFFFF then 3
  else if data ≤ 0xFFFFFFFF then 5
  else 9

/-- Modelled from the spec: `ZeroCopySink.WriteVarUint`, the "variable-length
unsigned" integer of the wire format: one byte below `0xFD`, otherwise a marker
byte `0xFD`, `0xFE` or `0xFF` followed by the value in 2, 4 or 8 little-endian
bytes. The argument is a Go `uint64`. -/
def ZeroCopySink.WriteVarUint (sink : ZeroCopySink) (data : Nat) : ZeroCopySink :=
  if data < 0xFD then sink ++ [byteOf data]
  else if data ≤ 0xFFFF then sink ++ (0xFD : Byte) :: leBytes 2 data
  else if data ≤ 0xFFFFFFFF then sink ++ (0xFE : Byte) :: leBytes 4 data
  else sink ++ (0xFF : Byte) :: leBytes 8 data

/-- Modelled from the spec: `ZeroCopySink.WriteVarBytes`, "length-prefixed raw
bytes (variable-length unsigned length prefix)". -/
def ZeroCopySink.WriteVarBytes (sink : ZeroCopySink) (data : List Byte) : ZeroCopySink :=
  ZeroCopySink.WriteVarUint sink (data.length % 2 ^ 64) ++ data

/-- Modelled from the spec: `common.ZeroCopySource`, represented by the bytes
that have not been read yet. -/
abbrev ZeroCopySource := List Byte

/-- Modelled from the spec: `ZeroCopySource.NextByte`; `none` is end of input. -/
def ZeroCopySource.NextByte (source : ZeroCopySource) : Option (Byte × ZeroCopySource) :=
  match source with
  | [] => none
  | b :: rest => some (b, rest)

/-- Modelled from the spec: `ZeroCopySource.NextBytes`; `none` when fewer than
`n` bytes are left. -/
def ZeroCopySource.NextBytes (source : ZeroCopySource) (n : Nat) :
    Option (List Byte × ZeroCopySource) :=
  if source.length < n then none else some (source.take n, source.drop n)

/-- Modelled from the spec: `ZeroCopySource.NextBool`, returning the value and
the irregular flag (a byte other than 0 and 1); `none` is end of input. -/
def ZeroCopySource.NextBool (source : ZeroCopySource) :
    Option (Bool × Bool × ZeroCopySource) :=
  match source with
  | [] => none
  | b :: rest =>
    if b.val = 0 then some (false, false, rest)
    else if b.val = 1 then some (true, false, rest)
    else some (true, true, rest)

/-- Modelled from the spec: `ZeroCopySource.NextVarUint`, returning the value
and the irregular flag (the value was not written in its shortest form);
`none` is end of input. -/
def ZeroCopySource.NextVarUint (source : ZeroCopySource) :
    Option (Nat × Bool × ZeroCopySource) :=
  match source with
  | [] => none
  | fb :: rest =>
    if fb.val = 0xFD then
      match ZeroCopySource.NextBytes rest 2 with
      | none => none
      | some (bs, r) => some (leNat bs, decide (3 ≠ getVarUintSize (leNat bs)), r)
    else if fb.val = 0xFE then
      match ZeroCopySource.NextBytes rest 4 with
      | none => none
      | some (bs, r) => some (leNat bs, decide (5 ≠ getVarUintSize (leNat bs)), r)
    else if fb.val = 0xFF then
      match ZeroCopySource.NextBytes rest 8 with
      | none => none
      | some (bs, r) => some (leNat bs, decide (9 ≠ getVarUintSize (leNat bs)), r)
    else some (fb.val, decide (1 ≠ getVarUintSize fb.val), rest)

/-- Modelled from the spec: `ZeroCopySource.NextVarBytes`, a variable-length
count followed by that many bytes, with the irregular flag of the count. -/
def ZeroCopySource.NextVarBytes (source : ZeroCopySource) :
    Option (List Byte × Bool × ZeroCopySource) :=
  match ZeroCopySource.NextVarUint source with
  | none => none
  | some (count, irregular, r) =>
    match ZeroCopySource.NextBytes r count with
    | none => none
    | some (data, r2) => some (data, irregular, r2)

end common

namespace types

open errors constants common

/-- Modelled from the spec: `types.IntValue`, the numeric abstraction that is
a 64-bit integer "when representable, else `BigInteger`"; the constructor is
the `isbig` flag of the Go struct. -/
inductive IntValue where
  | small (integer : Int)
  | big (bigint : Int)
  deriving DecidableEq, Repr

/-- The `isbig` field of an `IntValue`. -/
def IntValue.isbig : IntValue → Bool
  | .small _ => false
  | .big _ => true

/-- Range of a Go `int64` (`big.Int.IsInt64`). -/
def IsInt64 (n : Int) : Bool := decide (-(2 : Int) ^ 63 ≤ n ∧ n < (2 : Int) ^ 63)

/-- Modelled from the spec: `types.IntValFromInt`. -/
def IntValFromInt (val : Int) : IntValue := .small val

/-- Modelled from the spec: `types.IntValFromBigInt`. A magnitude that needs
more than `MAX_INT_SIZE` bytes is rejected; a value in the 64-bit range takes
the small representation, any other the big one. -/
def IntValFromBigInt (lim : Limits) (val : Int) : Except VmError IntValue :=
  if 256 ^ lim.MAX_INT_SIZE ≤ val.natAbs then .error .ERR_INT_TOO_LARGE
  else if IsInt64 val then .ok (.small val)
  else .ok (.big val)

/-- Modelled from the spec: `types.IntValFromNeoBytes`, a byte string
"interpreted as little-endian two's-complement". -/
def IntValFromNeoBytes (lim : Limits) (val : List Byte) : Except VmError IntValue :=
  IntValFromBigInt lim (BigIntFromNeoBytes val)

/-- The value of `neovm_value.go`. The constructors are the `valType` tags in
their declaration order; each carries the one field of the Go struct that the
tag selects. `array` and `map` carry the contents their pointers refer to, a
map as the list of its entries; an Interop handle is `none` for the nil
interface and otherwise the identity of the host object. -/
inductive VmValue where
  | bool (integer : Int)
  | integer (integer : Int)
  | bigint (bigInt : Int)
  | bytearray (byteArray : List Byte)
  | interop (interop : Option Nat)
  | array (data : List VmValue)
  | struct (data : List VmValue)
  | map (data : List (List Byte × VmValue))

/-- Modelled from the spec: the tag `ByteArray` of the codec table. The
declarations of the six tags are not among the sources; their values are the
ones in the expected encodings of `TestSerialize`. -/
def ByteArrayType : Byte := 0x00

/-- Modelled from the spec: the tag `Boolean` of the codec table. -/
def BooleanType : Byte := 0x01

/-- Modelled from the spec: the tag `Integer` of the codec table. -/
def IntegerType : Byte := 0x02

/-- Modelled from the spec: the tag `Array` of the codec table. -/
def ArrayType : Byte := 0x80

/-- Modelled from the spec: the tag `Struct` of the codec table. -/
def StructType : Byte := 0x81

/-- Modelled from the spec: the tag `Map` of the codec table. -/
def MapType : Byte := 0x82

/-- The Go zero value `VmValue{}`: `valType` 0 is `boolType`, `integer` is 0. -/
def VmValue.zero : VmValue := .bool 0

/-- The constructor `VmValueFromInt64`. -/
def VmValueFromInt64 (val : Int) : VmValue := .integer val

/-- The constructor `VmValueFromBytes`, which rejects a byte string longer
than `MAX_BYTEARRAY_SIZE`. -/
def VmValueFromBytes (lim : Limits) (val : List Byte) : Except VmError VmValue :=
  if val.length > lim.MAX_BYTEARRAY_SIZE then .error .ERR_OVER_MAX_ITEM_SIZE
  else .ok (.bytearray val)

/-- The constructor `VmValueFromBool`: the `integer` field is 1 or 0. -/
def VmValueFromBool (val : Bool) : VmValue :=
  if val then .bool 1 else .bool 0

/-- The constructor `VmValueFromIntValue`. -/
def VmValueFromIntValue (val : IntValue) : VmValue :=
  match val with
  | .big bigint => .bigint bigint
  | .small integer => .integer integer

/-- The constructor `VmValueFromUint64`: a 64-bit integer up to
`math.MaxInt64`, a big integer above. -/
def VmValueFromUint64 (val : Nat) : VmValue :=
  if val ≤ 2 ^ 63 - 1 then VmValueFromInt64 val else .bigint val

/-- The constructor `VmValueFromBigInt`. -/
def VmValueFromBigInt (lim : Limits) (val : Int) : Except VmError VmValue :=
  match IntValFromBigInt lim val with
  | .error e => .error e
  | .ok value => .ok (VmValueFromIntValue value)

/-- The constructor `VmValueFromArrayVal`. -/
def VmValueFromArrayVal (array : List VmValue) : VmValue := .array array

/-- The constructor `VmValueFromStructVal`. -/
def VmValueFromStructVal (val : List VmValue) : VmValue := .struct val

/-- The constructor `VmValueFromInteropValue`. -/
def VmValueFromInteropValue (val : Option Nat) : VmValue := .interop val

/-- The constructor `VmValueFromMapValue`. -/
def VmValueFromMapValue (val : List (List Byte × VmValue)) : VmValue := .map val

/-- The method `VmValue.AsBytes`. -/
def VmValue.AsBytes (self : VmValue) : Except VmError (List Byte) :=
  match self with
  | .integer i => .ok (BigIntToNeoBytes i)
  | .bool i => .ok (BigIntToNeoBytes i)
  | .bigint b => .ok (BigIntToNeoBytes b)
  | .bytearray bs => .ok bs
  | .array _ => .error .ERR_BAD_TYPE
  | .map _ => .error .ERR_BAD_TYPE
  | .struct _ => .error .ERR_BAD_TYPE
  | .interop _ => .error .ERR_BAD_TYPE

/-- The method `VmValue.AsIntValue`. -/
def VmValue.AsIntValue (lim : Limits) (self : VmValue) : Except VmError IntValue :=
  match self with
  | .integer i => .ok (IntValFromInt i)
  | .bool i => .ok (IntValFromInt i)
  | .bigint b => IntValFromBigInt lim b
  | .bytearray bs => IntValFromNeoBytes lim bs
  | .array _ => .error .ERR_BAD_TYPE
  | .map _ => .error .ERR_BAD_TYPE
  | .struct _ => .error .ERR_BAD_TYPE
  | .interop _ => .error .ERR_BAD_TYPE

/-- The method `VmValue.AsBool`. -/
def VmValue.AsBool (self : VmValue) : Except VmError Bool :=
  match self with
  | .integer i => .ok (decide (i ≠ 0))
  | .bool i => .ok (decide (i ≠ 0))
  | .bigint b => .ok (decide (Int.sign b ≠ 0))
  | .bytearray bs => .ok (bs.any (fun b => decide (b ≠ 0)))
  | .struct _ => .ok true
  | .map _ => .ok true
  | .array _ => .error .ERR_BAD_TYPE
  | .interop h => .ok (decide (h ≠ none))

/-- The method `VmValue.GetMapKey`: the bytes of `AsBytes` as a Go string. -/
def VmValue.GetMapKey (self : VmValue) : Except VmError (List Byte) :=
  match self.AsBytes with
  | .error e => .error e
  | .ok val => .ok val

/-- Modelled from the spec: the assignment `Data[skey] = value` of the Go map
inside `MapValue.Set`: an entry with that key is replaced in place, a new key
is added. -/
def MapValue.assign (data : List (List Byte × VmValue)) (skey : List Byte) (value : VmValue) :
    List (List Byte × VmValue) :=
  match data with
  | [] => [(skey, value)]
  | (k, v) :: rest =>
    if k = skey then (skey, value) :: rest else (k, v) :: MapValue.assign rest skey value

/-- Modelled from the spec: `MapValue.Set`, a "key→Value mapping keyed by the
canonical byte encoding of a Value": the key is `GetMapKey` of the key value,
which fails for values that have no byte encoding. -/
def MapValue.Set (data : List (List Byte × VmValue)) (key value : VmValue) :
    Except VmError (List (List Byte × VmValue)) :=
  match key.GetMapKey with
  | .error e => .error e
  | .ok skey => .ok (MapValue.assign data skey value)

/-- A sequence of `Set` calls on one map, in list order, stopping at the first
error. -/
def MapValue.SetAll (data : List (List Byte × VmValue)) :
    List (VmValue × VmValue) → Except VmError (List (List Byte × VmValue))
  | [] => .ok data
  | (key, value) :: rest =>
    match MapValue.Set data key value with
    | .error e => .error e
    | .ok data2 => MapValue.SetAll data2 rest

/-- The Go map read `Data[key]`. -/
def MapValue.lookup {α : Type} (data : List (List Byte × α)) (key : List Byte) : Option α :=
  match data with
  | [] => none
  | (k, v) :: rest => if k = key then some v else MapValue.lookup rest key

/-- Go `sort.Strings`: ascending byte-wise lexicographic order. -/
def sortStrings (keys : List (List Byte)) : List (List Byte) :=
  keys.insertionSort (fun a b => a ≤ b)

/-- The `case bytearrayType` branch of `Serialize`: the tag and the
length-prefixed bytes. -/
def serializeByteArray (byteArray : List Byte) (sink : ZeroCopySink) :
    Option VmError × ZeroCopySink :=
  (none, (sink.WriteByte ByteArrayType).WriteVarBytes byteArray)

/-- The loop `for _, key := range unsortKey` of the `mapType` case of
`Serialize`. `data` holds, for every entry of the Go map, its key and the
`Serialize` method of its value, so that `Data[key].Serialize(sink)` is a
lookup followed by a call. `keyVal` is the ByteArray built by
`VmValueFromBytes`, so `keyVal.Serialize` is the `bytearrayType` branch; a key
that is not in the map reads as the Go zero value, a Boolean `false`. -/
def serializeMapLoop (lim : Limits)
    (data : List (List Byte × (ZeroCopySink → Option VmError × ZeroCopySink))) :
    List (List Byte) → ZeroCopySink → Option VmError × ZeroCopySink
  | [], sink => (none, sink)
  | key :: rest, sink =>
    match VmValueFromBytes lim key with
    | .error e => (some e, sink)
    | .ok _ =>
      match serializeByteArray key sink with
      | (some e, sink) => (some e, sink)
      | (none, sink) =>
        match (match MapValue.lookup data key with
               | some value => value sink
               | none => (none, (sink.WriteByte BooleanType).WriteBool false)) with
        | (some e, sink) => (some e, sink)
        | (none, sink) => serializeMapLoop lim data rest sink

mutual
/-- The method `VmValue.Serialize`: the sink before the call is mapped to the
returned error and the sink after the call. -/
def VmValue.Serialize (lim : Limits) : VmValue → ZeroCopySink → Option VmError × ZeroCopySink
  | .bool i, sink =>
    match (VmValue.bool i).AsBool with
    | .error e => (some e, sink.WriteByte BooleanType)
    | .ok boo => (none, (sink.WriteByte BooleanType).WriteBool boo)
  | .bytearray byteArray, sink => serializeByteArray byteArray sink
  | .bigint bigInt, sink =>
    (none, (sink.WriteByte IntegerType).WriteVarBytes (BigIntToNeoBytes bigInt))
  | .integer integer, sink =>
    (none, (sink.WriteByte IntegerType).WriteVarBytes (BigIntToNeoBytes integer))
  | .array data, sink =>
    serializeItems lim data ((sink.WriteByte ArrayType).WriteVarUint (data.length % 2 ^ 64))
  | .map data, sink =>
    serializeMapLoop lim (serializeValues lim data) (sortStrings (data.map Prod.fst))
      ((sink.WriteByte MapType).WriteVarUint (data.length % 2 ^ 64))
  | .struct data, sink =>
    serializeItems lim data ((sink.WriteByte StructType).WriteVarUint (data.length % 2 ^ 64))
  | .interop _, sink => (some .ErrUnsupportType, sink)
/-- The element loops of the `arrayType` and `structType` cases of `Serialize`. -/
def serializeItems (lim : Limits) : List VmValue → ZeroCopySink → Option VmError × ZeroCopySink
  | [], sink => (none, sink)
  | item :: rest, sink =>
    match VmValue.Serialize lim item sink with
    | (some e, sink) => (some e, sink)
    | (none, sink) => serializeItems lim rest sink
/-- The entries of a Go map, each value replaced by its `Serialize` method. -/
def serializeValues (lim : Limits) : List (List Byte × VmValue) →
    List (List Byte × (ZeroCopySink → Option VmError × ZeroCopySink))
  | [] => []
  | (k, v) :: rest => (k, fun sink => VmValue.Serialize lim v sink) :: serializeValues lim rest
end

/-- Modelled from the spec: `ArrayValue.Append` and `StructValue.Append`, which
add one element at the end of the "ordered sequence of Value". -/
def Append (data : List VmValue) (item : VmValue) : List VmValue := data ++ [item]

/-- The Go conversion `int(l)` of a `uint64` used as a loop bound: a value of
`2^63` or more is negative, so the loop body never runs. -/
def loopCount (l : Nat) : Nat := if l < 2 ^ 63 then l else 0

/-- The statement `mapValue.Set(*keyValue, *v)` of `Deserialize`, which drops
the error that `Set` returns. -/
def MapValue.SetIgnoreErr (data : List (List Byte × VmValue)) (key value : VmValue) :
    List (List Byte × VmValue) :=
  match MapValue.Set data key value with
  | .error _ => data
  | .ok data2 => data2

mutual
/-- The method `VmValue.Deserialize` with a bound on the number of nested
calls: `none` when the bound is reached, otherwise the receiver after the call
together with the returned error or, on success, the source after the call. -/
def VmValue.DeserializeFuel (lim : Limits) :
    Nat → VmValue → ZeroCopySource → Option (VmValue × Except VmError ZeroCopySource)
  | 0, _, _ => none
  | fuel + 1, self, source =>
    match source.NextByte with
    | none => some (self, .error .ErrUnexpectedEOF)
    | some (t, source) =>
      if t = BooleanType then
        match source.NextBool with
        | none => some (self, .error .ErrUnexpectedEOF)
        | some (b, irregular, source) =>
          if irregular then some (self, .error .ErrIrregularData)
          else some (VmValueFromBool b, .ok source)
      else if t = ByteArrayType then
        match source.NextVarBytes with
        | none => some (self, .error .ErrUnexpectedEOF)
        | some (data, irregular, source) =>
          if irregular then some (self, .error .ErrIrregularData)
          else
            match VmValueFromBytes lim data with
            | .error e => some (self, .error e)
            | .ok value => some (value, .ok source)
      else if t = IntegerType then
        match source.NextVarBytes with
        | none => some (self, .error .ErrUnexpectedEOF)
        | some (data, irregular, source) =>
          if irregular then some (self, .error .ErrIrregularData)
          else
            match VmValueFromBigInt lim (BigIntFromNeoBytes data) with
            | .error e => some (self, .error e)
            | .ok value => some (value, .ok source)
      else if t = ArrayType then
        match source.NextVarUint with
        | none => some (self, .error .ErrUnexpectedEOF)
        | some (l, irregular, source) =>
          if irregular then some (self, .error .ErrIrregularData)
          else
            match deserializeItems lim fuel (loopCount l) source [] with
            | none => none
            | some (.error e) => some (self, .error e)
            | some (.ok (arr, source)) => some (VmValueFromArrayVal arr, .ok source)
      else if t = MapType then
        match source.NextVarUint with
        | none => some (self, .error .ErrUnexpectedEOF)
        | some (l, irregular, source) =>
          if irregular then some (self, .error .ErrIrregularData)
          else
            match deserializeEntries lim fuel (loopCount l) source [] with
            | none => none
            | some (.error e) => some (self, .error e)
            | some (.ok (mapValue, source)) => some (VmValueFromMapValue mapValue, .ok source)
      else if t = StructType then
        match source.NextVarUint with
        | none => some (self, .error .ErrUnexpectedEOF)
        | some (l, irregular, source) =>
          if irregular then some (self, .error .ErrIrregularData)
          else
            match deserializeItems lim fuel (loopCount l) source [] with
            | none => none
            | some (.error e) => some (self, .error e)
            | some (.ok (structValue, source)) =>
              some (VmValueFromStructVal structValue, .ok source)
      else some (self, .error .ErrUnsupportType)
/-- The element loops of the `ArrayType` and `StructType` cases: `n` more
elements are decoded into fresh zero values and appended to `arr`. -/
def deserializeItems (lim : Limits) :
    Nat → Nat → ZeroCopySource → List VmValue →
      Option (Except VmError (List VmValue × ZeroCopySource))
  | _, 0, source, arr => some (.ok (arr, source))
  | 0, _ + 1, _, _ => none
  | fuel + 1, n + 1, source, arr =>
    match VmValue.DeserializeFuel lim fuel VmValue.zero source with
    | none => none
    | some (_, .error e) => some (.error e)
    | some (v, .ok source) => deserializeItems lim fuel n source (Append arr v)
/-- The entry loop of the `MapType` case: `n` more key/value pairs are decoded
and stored with `Set`. -/
def deserializeEntries (lim : Limits) :
    Nat → Nat → ZeroCopySource → List (List Byte × VmValue) →
      Option (Except VmError (List (List Byte × VmValue) × ZeroCopySource))
  | _, 0, source, mapValue => some (.ok (mapValue, source))
  | 0, _ + 1, _, _ => none
  | fuel + 1, n + 1, source, mapValue =>
    match VmValue.DeserializeFuel lim fuel VmValue.zero source with
    | none => none
    | some (_, .error e) => some (.error e)
    | some (keyValue, .ok source) =>
      match VmValue.DeserializeFuel lim fuel VmValue.zero source with
      | none => none
      | some (_, .error e) => some (.error e)
      | some (v, .ok source) =>
        deserializeEntries lim fuel n source (MapValue.SetIgnoreErr mapValue keyValue v)
end

/-- The method `VmValue.Deserialize`. Every nested call reads at least the tag
byte, so one more call than there are unread bytes is never reached. -/
def VmValue.Deserialize (lim : Limits) (self : VmValue) (source : ZeroCopySource) :
    Option (VmValue × Except VmError ZeroCopySource) :=
  VmValue.DeserializeFuel lim (source.length + 1) self source

/-- The type `NeoVmValueType` with its eight `valType` tags. -/
inductive NeoVmValueType where
  | boolType
  | integerType
  | bigintType
  | bytearrayType
  | interopType
  | arrayType
  | structType
  | mapType
  deriving DecidableEq, Repr

/-- The `valType` field of a value. -/
def VmValue.valType : VmValue → NeoVmValueType
  | .bool _ => .boolType
  | .integer _ => .integerType
  | .bigint _ => .bigintType
  | .bytearray _ => .bytearrayType
  | .interop _ => .interopType
  | .array _ => .arrayType
  | .struct _ => .structType
  | .map _ => .mapType

/-- The bytes that `WriteVarUint` appends: the variable-length unsigned
integer encoding of `n`. -/
def varUintBytes (n : Nat) : List Byte := ZeroCopySink.WriteVarUint [] n

/-- The bytes that `WriteVarBytes` appends: the length-prefixed byte string. -/
def varBytes (bs : List Byte) : List Byte := ZeroCopySink.WriteVarBytes [] bs

/-- The bytes that `Serialize` appends to an empty sink. -/
def VmValue.encoding (lim : Limits) (v : VmValue) : List Byte :=
  (VmValue.Serialize lim v []).2

/-- Limits under which the test vectors of `neovm_value_test.go` are
evaluated; the vectors need no more than 4 bytes per ByteArray and 9 bytes per
integer. -/
def testLimits : Limits := ⟨1024 * 1024, 32⟩

/-- The byte string `"test"`. -/
def bytesTest : List Byte := [0x74, 0x65, 0x73, 0x74]

/-- The byte string `"key"`. -/
def bytesKey : List Byte := [0x6b, 0x65, 0x79]

/-- The four elements that `generateStructValue` and `generateArrayValue`
append: `"test"`, `true`, the big integer 1000 and the `uint64` 100. -/
def generateItems : Except VmError (List VmValue) :=
  match VmValueFromBytes testLimits bytesTest with
  | .error e => .error e
  | .ok bsValue =>
    match VmValueFromBigInt testLimits 1000 with
    | .error e => .error e
    | .ok biginValue =>
      .ok (Append (Append (Append (Append [] bsValue) (VmValueFromBool true)) biginValue)
        (VmValueFromUint64 100))

/-- The test helper `generateStructValue`. -/
def generateStructValue : Except VmError VmValue :=
  match generateItems with
  | .error e => .error e
  | .ok s => .ok (VmValueFromStructVal s)

/-- The test helper `generateArrayValue`. -/
def generateArrayValue : Except VmError VmValue :=
  match generateItems with
  | .error e => .error e
  | .ok arr => .ok (VmValueFromArrayVal arr)

/-- The test helper `generateMapValue`: `"test"` maps to the array, 1000 to the
struct and 100 to `true`, set in that order. -/
def generateMapValue : Except VmError VmValue :=
  match VmValueFromBytes testLimits bytesTest, VmValueFromBigInt testLimits 1000,
    generateArrayValue, generateStructValue with
  | .ok bsValue, .ok biginValue, .ok arrValue, .ok structValue =>
    match MapValue.Set [] bsValue arrValue with
    | .error e => .error e
    | .ok m1 =>
      match MapValue.Set m1 biginValue structValue with
      | .error e => .error e
      | .ok m2 =>
        match MapValue.Set m2 (VmValueFromUint64 100) (VmValueFromBool true) with
        | .error e => .error e
        | .ok m3 => .ok (VmValueFromMapValue m3)
  | _, _, _, _ => .error .ERR_BAD_TYPE

mutual
/-- The serializable values: a Boolean holding 0 or 1, a 64-bit integer and a
big integer outside the 64-bit range, both within the integer size limit, a
ByteArray within the size limit, and Arrays, Structs and Maps of such values
(Map keys being distinct byte strings within the ByteArray limit); no Interop.
Lengths are Go `int`s, below `2^63`. -/
def VmValue.serializable (lim : Limits) : VmValue → Bool
  | .bool i => decide (i = 0 ∨ i = 1)
  | .integer i => IsInt64 i && decide (i.natAbs < 256 ^ lim.MAX_INT_SIZE)
  | .bigint b => !IsInt64 b && decide (b.natAbs < 256 ^ lim.MAX_INT_SIZE)
  | .bytearray bs => decide (bs.length ≤ lim.MAX_BYTEARRAY_SIZE) && decide (bs.length < 2 ^ 63)
  | .interop _ => false
  | .array data => decide (data.length < 2 ^ 63) && serializableList lim data
  | .struct data => decide (data.length < 2 ^ 63) && serializableList lim data
  | .map data =>
    decide (data.length < 2 ^ 63) && decide (data.map Prod.fst).Nodup &&
      serializableEntries lim data
/-- Every element of the list is serializable. -/
def serializableList (lim : Limits) : List VmValue → Bool
  | [] => true
  | v :: rest => VmValue.serializable lim v && serializableList lim rest
/-- Every key fits a ByteArray and every value is serializable. -/
def serializableEntries (lim : Limits) : List (List Byte × VmValue) → Bool
  | [] => true
  | (k, v) :: rest =>
    decide (k.length ≤ lim.MAX_BYTEARRAY_SIZE) && decide (k.length < 2 ^ 63) &&
      VmValue.serializable lim v && serializableEntries lim rest
end

mutual
/-- Two values have the same variant and the same contents: equal payloads for
the primitive variants, element-wise for Arrays and Structs, and for Maps the
same number of entries with every key of the first bound in the second to a
value of the same contents (the order of the entries of a Go map is not part
of its contents). -/
def VmValue.sameContents : VmValue → VmValue → Bool
  | .bool i, .bool j => decide (i = j)
  | .integer i, .integer j => decide (i = j)
  | .bigint i, .bigint j => decide (i = j)
  | .bytearray a, .bytearray b => decide (a = b)
  | .interop a, .interop b => decide (a = b)
  | .array xs, .array ys => sameList xs ys
  | .struct xs, .struct ys => sameList xs ys
  | .map m1, .map m2 => decide (m1.length = m2.length) && sameEntries m1 m2
  | _, _ => false
/-- Element-wise `sameContents` of two lists of equal length. -/
def sameList : List VmValue → List VmValue → Bool
  | [], [] => true
  | x :: xs, y :: ys => VmValue.sameContents x y && sameList xs ys
  | _, _ => false
/-- Every entry of the first list has its key bound in the second list to a
value of the same contents. -/
def sameEntries : List (List Byte × VmValue) → List (List Byte × VmValue) → Bool
  | [], _ => true
  | (k, v) :: rest, m2 =>
    (match MapValue.lookup m2 k with
      | some w => VmValue.sameContents v w
      | none => false) && sameEntries rest m2
end

mutual
/-- The value that `Deserialize` rebuilds from the encoding of a serializable
value: the same value with the entries of every Map in ascending key order,
the order in which they were written and are set again. -/
def VmValue.decoded : VmValue → VmValue
  | .bool i => .bool i
  | .integer i => .integer i
  | .bigint i => .bigint i
  | .bytearray bs => .bytearray bs
  | .interop h => .interop h
  | .array data => .array (decodedList data)
  | .struct data => .struct (decodedList data)
  | .map data =>
    .map ((sortStrings (data.map Prod.fst)).map
      (fun k => (k, (MapValue.lookup (decodedEntries data) k).getD VmValue.zero)))
/-- The elements of a list, each replaced by its decoded form. -/
def decodedList : List VmValue → List VmValue
  | [] => []
  | v :: rest => VmValue.decoded v :: decodedList rest
/-- The entries of a map, each value replaced by its decoded form. -/
def decodedEntries : List (List Byte × VmValue) → List (List Byte × VmValue)
  | [] => []
  | (k, v) :: rest => (k, VmValue.decoded v) :: decodedEntries rest
end

/-- The round trip of one value: `Serialize` succeeds on it, and decoding its
encoding, whatever the receiver and whatever bytes follow, succeeds with some
bound on nested calls, yields the decoded form and leaves exactly the bytes
that follow. -/
def RoundTrips (lim : Limits) (v : VmValue) : Prop :=
  (VmValue.Serialize lim v []).1 = none ∧
  ∀ (self : VmValue) (rest : List Byte), ∃ fuel,
    VmValue.DeserializeFuel lim fuel self (v.encoding lim ++ rest) = some (v.decoded, .ok rest)

/-- What a call of `Deserialize` on receiver `self` and source `s` is shown to
satisfy: it returns, an error leaves the receiver as it was, and a success has
read at least one byte. -/
def DecodeOk (self : VmValue) (s : ZeroCopySource)
    (o : Option (VmValue × Except VmError ZeroCopySource)) : Prop :=
  ∃ r, o = some r ∧ (∀ e, r.2 = .error e → r.1 = self) ∧
    (∀ s2, r.2 = .ok s2 → s2.length < s.length)

/-- What a decoding loop on source `s` is shown to satisfy: it returns, and a
success has not moved the source backwards. -/
def LoopOk {α : Type} (s : ZeroCopySource)
    (o : Option (Except VmError (α × ZeroCopySource))) : Prop :=
  ∃ r, o = some r ∧ (∀ a s2, r = .ok (a, s2) → s2.length ≤ s.length)

end types

namespace types

open errors constants common

/-- The value of `neovm_value.go` with its pointers kept as pointers: an Array
is the address of its `ArrayValue`, a Map the address of its `MapValue`, and a
Struct the address of the backing array of `StructValue.Data`, which every
copy of the Go struct shares. This is the form in which the executor holds
values and in which `Equals` compares them; `VmValue` is the same value with
the contents written out. The `byteArray` field is a Go slice, which is
either nil or a sequence of bytes: `nilbytes` is the ByteArray whose slice is
nil, as `VmValueFromBytes(nil)` builds it, and `bytearray []` the one whose
slice is empty but not nil, as `VmValueFromBytes([]byte{})` builds it. The two
have the same bytes and differ only for `reflect.DeepEqual`. -/
inductive RefValue where
  | bool (integer : Int)
  | integer (integer : Int)
  | bigint (bigInt : Int)
  | bytearray (byteArray : List Byte)
  | nilbytes
  | interop (interop : Option Nat)
  | array (array : Nat)
  | struct (structval : Nat)
  | map (mapval : Nat)
  deriving DecidableEq, Repr

/-- What an address refers to: the `Data` slice of an `ArrayValue` or of a
`StructValue`, or the `Data` map of a `MapValue`. -/
inductive Cell where
  | list (data : List RefValue)
  | map (data : List (List Byte × RefValue))
  deriving DecidableEq, Repr

/-- The Go heap as far as values reach into it: the cells in allocation
order, the address of a cell being its index. -/
abbrev Store := List Cell

/-- A fresh cell: the store after the allocation and the new address, which
differs from every address in use. -/
def Store.alloc (st : Store) (c : Cell) : Store × Nat := (st ++ [c], st.length)

/-- The `Data` slice at an address; `none` when the address holds no slice. -/
def Store.list? (st : Store) (p : Nat) : Option (List RefValue) :=
  match st.get? p with
  | some (.list data) => some data
  | _ => none

/-- The `Data` map at an address; `none` when the address holds no map. -/
def Store.map? (st : Store) (p : Nat) : Option (List (List Byte × RefValue)) :=
  match st.get? p with
  | some (.map data) => some data
  | _ => none

/-- The `valType` field of a value. -/
def RefValue.valType : RefValue → NeoVmValueType
  | .bool _ => .boolType
  | .integer _ => .integerType
  | .bigint _ => .bigintType
  | .bytearray _ => .bytearrayType
  | .nilbytes => .bytearrayType
  | .interop _ => .interopType
  | .array _ => .arrayType
  | .struct _ => .structType
  | .map _ => .mapType

/-- The method `VmValue.AsBytes` on a value with pointers. -/
def RefValue.AsBytes (self : RefValue) : Except VmError (List Byte) :=
  match self with
  | .integer i => .ok (BigIntToNeoBytes i)
  | .bool i => .ok (BigIntToNeoBytes i)
  | .bigint b => .ok (BigIntToNeoBytes b)
  | .bytearray bs => .ok bs
  | .nilbytes => .ok []
  | .array _ => .error .ERR_BAD_TYPE
  | .map _ => .error .ERR_BAD_TYPE
  | .struct _ => .error .ERR_BAD_TYPE
  | .interop _ => .error .ERR_BAD_TYPE

/-- The method `VmValue.AsIntValue` on a value with pointers. -/
def RefValue.AsIntValue (lim : Limits) (self : RefValue) : Except VmError IntValue :=
  match self with
  | .integer i => .ok (IntValFromInt i)
  | .bool i => .ok (IntValFromInt i)
  | .bigint b => IntValFromBigInt lim b
  | .bytearray bs => IntValFromNeoBytes lim bs
  | .nilbytes => IntValFromNeoBytes lim []
  | .array _ => .error .ERR_BAD_TYPE
  | .map _ => .error .ERR_BAD_TYPE
  | .struct _ => .error .ERR_BAD_TYPE
  | .interop _ => .error .ERR_BAD_TYPE

/-- The method `VmValue.AsInt64`. For a big value outside the 64-bit range the
source returns `0, err` with `err` the nil error of `AsIntValue`, which is the
number 0 without an error. -/
def RefValue.AsInt64 (lim : Limits) (self : RefValue) : Except VmError Int :=
  match self.AsIntValue lim with
  | .error err => .error err
  | .ok (.big b) => if IsInt64 b = false then .ok 0 else .ok b
  | .ok (.small i) => .ok i

/-- The method `VmValue.AsBool` on a value with pointers. -/
def RefValue.AsBool (self : RefValue) : Except VmError Bool :=
  match self with
  | .integer i => .ok (decide (i ≠ 0))
  | .bool i => .ok (decide (i ≠ 0))
  | .bigint b => .ok (decide (Int.sign b ≠ 0))
  | .bytearray bs => .ok (bs.any (fun b => decide (b ≠ 0)))
  | .nilbytes => .ok false
  | .struct _ => .ok true
  | .map _ => .ok true
  | .array _ => .error .ERR_BAD_TYPE
  | .interop h => .ok (decide (h ≠ none))

/-- The method `VmValue.AsMapValue`: the map pointer. -/
def RefValue.AsMapValue (self : RefValue) : Except VmError Nat :=
  match self with
  | .map p => .ok p
  | _ => .error .ERR_BAD_TYPE

/-- The method `VmValue.AsStructValue`: the struct with its shared slice. -/
def RefValue.AsStructValue (self : RefValue) : Except VmError Nat :=
  match self with
  | .struct p => .ok p
  | _ => .error .ERR_BAD_TYPE

/-- The method `VmValue.AsArrayValue`: the array pointer. -/
def RefValue.AsArrayValue (self : RefValue) : Except VmError Nat :=
  match self with
  | .array p => .ok p
  | _ => .error .ERR_BAD_TYPE

/-- The method `VmValue.AsInteropValue`. -/
def RefValue.AsInteropValue (self : RefValue) : Except VmError (Option Nat) :=
  match self with
  | .interop h => .ok h
  | _ => .error .ERR_BAD_TYPE

/-- The method `VmValue.GetMapKey` on a value with pointers. -/
def RefValue.GetMapKey (self : RefValue) : Except VmError (List Byte) :=
  match self.AsBytes with
  | .error e => .error e
  | .ok val => .ok val

/-- Modelled from the spec: `InteropValue.Equals`, "host-defined identity": the
same host object on both sides; a nil handle equals nothing, as
`TestVmValue_Equals` has it for two nil handles. -/
def InteropValue.Equals (self other : Option Nat) : Bool :=
  match self, other with
  | some a, some b => decide (a = b)
  | _, _ => false

/-- The conjunction of two answers of `reflect.DeepEqual`, either of which
may be left open (`none`): a difference settles the answer, whatever else is
left open. -/
def deepAnd : Option Bool → Option Bool → Option Bool
  | some false, _ => some false
  | _, some false => some false
  | some true, some true => some true
  | _, _ => none

/-- Go `reflect.DeepEqual` on the elements of two slices of the same length,
`f` comparing two elements. -/
def deepEqualList (f : RefValue → RefValue → Option Bool) :
    List RefValue → List RefValue → Option Bool
  | [], [] => some true
  | x :: xs, y :: ys => deepAnd (f x y) (deepEqualList f xs ys)
  | _, _ => some false

/-- Go `reflect.DeepEqual` on the entries of two maps of the same length:
every key of the first is a key of the second, with a deeply equal value. -/
def deepEqualEntries (f : RefValue → RefValue → Option Bool)
    (other : List (List Byte × RefValue)) : List (List Byte × RefValue) → Option Bool
  | [] => some true
  | (k, v) :: rest =>
    deepAnd
      (match MapValue.lookup other k with
       | some w => f v w
       | none => some false)
      (deepEqualEntries f other rest)

/-- Go `reflect.DeepEqual` on two slices of values, `same` telling whether
the two are one slice. Slices of different lengths differ. Two empty slices
are deeply equal when both are nil or neither is; the model does not record
that of a `Data` slice, so the answer is left open unless the two are one
slice. Otherwise the elements are compared in turn. -/
def deepEqualSlice (f : RefValue → RefValue → Option Bool) (same : Bool)
    (xs ys : List RefValue) : Option Bool :=
  if xs.length ≠ ys.length then some false
  else if same then some true
  else if xs = [] then none
  else deepEqualList f xs ys

/-- Go `reflect.DeepEqual` on two values of type `VmValue`, field by field:
values of different `valType` differ; the `integer` fields are compared as
numbers; the `byteArray` fields as slices, a nil slice being different from an
empty one; the `bigInt` fields by the numbers they point to, the answer being
left open for two zeros, whose `big.Int` may or may not hold a nil slice; the
`array` and `mapval` pointers are equal when they are the same pointer or
point to deeply equal contents; the `structval` fields are compared as slices.
The answer is `none` where it is left open: where the nil-ness of an empty
slice or map decides, for two host objects, for an address without a cell, and
when the given depth does not reach the end (as in a container that contains
itself). -/
def deepValueEqual (st : Store) : Nat → RefValue → RefValue → Option Bool
  | _, .bool i, .bool j => some (decide (i = j))
  | _, .integer i, .integer j => some (decide (i = j))
  | _, .bigint i, .bigint j =>
    if i = 0 ∧ j = 0 then none else some (decide (i = j))
  | _, .bytearray a, .bytearray b => some (decide (a = b))
  | _, .nilbytes, .nilbytes => some true
  | _, .nilbytes, .bytearray _ => some false
  | _, .bytearray _, .nilbytes => some false
  | _, .interop none, .interop none => some true
  | _, .interop none, .interop (some _) => some false
  | _, .interop (some _), .interop none => some false
  | _, .interop (some _), .interop (some _) => none
  | 0, .array _, .array _ => none
  | 0, .struct _, .struct _ => none
  | 0, .map _, .map _ => none
  | fuel + 1, .array p, .array q =>
    match st.list? p, st.list? q with
    | some xs, some ys => deepEqualSlice (deepValueEqual st fuel) (decide (p = q)) xs ys
    | _, _ => none
  | fuel + 1, .struct p, .struct q =>
    match st.list? p, st.list? q with
    | some xs, some ys => deepEqualSlice (deepValueEqual st fuel) (decide (p = q)) xs ys
    | _, _ => none
  | fuel + 1, .map p, .map q =>
    match st.map? p, st.map? q with
    | some m1, some m2 =>
      if m1.length ≠ m2.length then some false
      else if p = q then some true
      else if m1 = [] then none
      else deepEqualEntries (deepValueEqual st fuel) m2 m1
    | _, _ => none
  | _, _, _ => some false

/-- Go `reflect.DeepEqual` on the `structval` fields of two Struct values,
which are the `Data` slices at the two addresses. -/
def deepEqualStruct (st : Store) (fuel : Nat) (self other : Nat) : Option Bool :=
  deepValueEqual st fuel (.struct self) (.struct other)

/-- Whether a value is a primitive on which the model settles
`reflect.DeepEqual` by the payload alone: a Boolean, an Integer, a ByteArray,
nil or not, or a BigInteger other than zero. -/
def RefValue.isScalar : RefValue → Bool
  | .bool _ => true
  | .integer _ => true
  | .bigint b => decide (b ≠ 0)
  | .bytearray _ => true
  | .nilbytes => true
  | _ => false

/-- The method `VmValue.Equals`. The store is the heap that the pointers of
both values point into; the result is `none` when the model leaves the answer
of `DeepEqual` on two Structs open, and in the `default: panic` case. -/
def RefValue.Equals (st : Store) (fuel : Nat) (self other : RefValue) : Option Bool :=
  match self.AsBytes, other.AsBytes with
  | .ok v1, .ok v2 => some (decide (v1 = v2))
  | _, _ =>
    if self.valType ≠ other.valType then some false
    else
      match self, other with
      | .map p, .map q => some (decide (p = q))
      | .struct p, .struct q => deepEqualStruct st fuel p q
      | .array p, .array q => some (decide (p = q))
      | .interop a, .interop b => some (InteropValue.Equals a b)
      | _, _ => none

/-- A store with two Structs built separately, at addresses 1 and 3, as the
two calls of `generateStructValue` in `TestVmValue_Equals` build them, each
holding in addition an Array of its own (addresses 0 and 2) that holds 100. -/
def twoStructsStore : Store :=
  [.list [.integer 100],
   .list [.bytearray bytesTest, .bool 1, .integer 1000, .integer 100, .array 0],
   .list [.integer 100],
   .list [.bytearray bytesTest, .bool 1, .integer 1000, .integer 100, .array 2]]

end types

namespace types

open errors constants common

/-- The integer that an `IntValue` holds. -/
def IntValue.toInt : IntValue → Int
  | .small integer => integer
  | .big bigint => bigint

/-- Modelled from the spec: an integer as an `IntValue` without a size check,
"`SmallInteger` when representable, else `BigInteger`". -/
def IntValue.ofInt (n : Int) : IntValue :=
  if IsInt64 n then .small n else .big n

/-- Modelled from the spec: `IntValue.Cmp`, the sign of the difference. -/
def IntValue.Cmp (self other : IntValue) : Int :=
  if self.toInt < other.toInt then -1 else if self.toInt = other.toInt then 0 else 1

/-- Modelled from the spec: `IntValue.Not`, the bitwise complement. -/
def IntValue.Not (self : IntValue) : IntValue := IntValue.ofInt (-self.toInt - 1)

/-- Modelled from the spec: `IntValue.Abs`. -/
def IntValue.Abs (self : IntValue) : IntValue := IntValue.ofInt (self.toInt.natAbs)

/-- Modelled from the spec: `IntValue.Add`; as for all arithmetic, the result
takes the small representation when it fits and is rejected when it exceeds
the integer size limit. -/
def IntValue.Add (lim : Limits) (self other : IntValue) : Except VmError IntValue :=
  IntValFromBigInt lim (self.toInt + other.toInt)

/-- Modelled from the spec: `IntValue.Sub`. -/
def IntValue.Sub (lim : Limits) (self other : IntValue) : Except VmError IntValue :=
  IntValFromBigInt lim (self.toInt - other.toInt)

/-- Modelled from the spec: `IntValue.Mul`. -/
def IntValue.Mul (lim : Limits) (self other : IntValue) : Except VmError IntValue :=
  IntValFromBigInt lim (self.toInt * other.toInt)

/-- Modelled from the spec: `IntValue.Div`, the integer quotient, rounded
towards zero as Go rounds it; "division and modulo by zero are faults". -/
def IntValue.Div (lim : Limits) (self other : IntValue) : Except VmError IntValue :=
  if other.toInt = 0 then .error .ERR_DIV_MOD_BY_ZERO
  else IntValFromBigInt lim (Int.tdiv self.toInt other.toInt)

/-- Modelled from the spec: `IntValue.Mod`, the remainder of the division
rounded towards zero. -/
def IntValue.Mod (lim : Limits) (self other : IntValue) : Except VmError IntValue :=
  if other.toInt = 0 then .error .ERR_DIV_MOD_BY_ZERO
  else IntValFromBigInt lim (Int.tmod self.toInt other.toInt)

/-- Modelled from the spec: `IntValue.Max`, the greater operand. -/
def IntValue.Max (self other : IntValue) : Except VmError IntValue :=
  if self.toInt < other.toInt then .ok other else .ok self

/-- Modelled from the spec: `IntValue.Min`, the lesser operand. -/
def IntValue.Min (self other : IntValue) : Except VmError IntValue :=
  if self.toInt < other.toInt then .ok self else .ok other

/-- Modelled from the spec: `IntValue.And`, bitwise on two's complement. -/
def IntValue.And (lim : Limits) (self other : IntValue) : Except VmError IntValue :=
  IntValFromBigInt lim (Int.land self.toInt other.toInt)

/-- Modelled from the spec: `IntValue.Or`, bitwise on two's complement. -/
def IntValue.Or (lim : Limits) (self other : IntValue) : Except VmError IntValue :=
  IntValFromBigInt lim (Int.lor self.toInt other.toInt)

/-- Modelled from the spec: `IntValue.Xor`, bitwise on two's complement. -/
def IntValue.Xor (lim : Limits) (self other : IntValue) : Except VmError IntValue :=
  IntValFromBigInt lim (Int.xor self.toInt other.toInt)

/-- Modelled from the spec: `IntValue.Lsh`; "shift amounts and results must
respect the protocol's maximum integer bit-length, faulting rather than
producing unbounded-size integers". -/
def IntValue.Lsh (lim : Limits) (self other : IntValue) : Except VmError IntValue :=
  if other.toInt < 0 then .error .ERR_SHIFT_BY_NEG
  else if other.toInt > lim.MAX_INT_SIZE * 8 then .error .ERR_INT_TOO_LARGE
  else IntValFromBigInt lim (self.toInt * 2 ^ other.toInt.toNat)

/-- Modelled from the spec: `IntValue.Rsh`, the arithmetic shift. -/
def IntValue.Rsh (lim : Limits) (self other : IntValue) : Except VmError IntValue :=
  if other.toInt < 0 then .error .ERR_SHIFT_BY_NEG
  else if other.toInt > lim.MAX_INT_SIZE * 8 then .error .ERR_INT_TOO_LARGE
  else IntValFromBigInt lim (self.toInt / 2 ^ other.toInt.toNat)

/-- The constructor `VmValueFromInt64` for a value with pointers. -/
def RefValue.FromInt64 (val : Int) : RefValue := .integer val

/-- The constructor `VmValueFromBool` for a value with pointers. -/
def RefValue.FromBool (val : Bool) : RefValue :=
  if val then .bool 1 else .bool 0

/-- The constructor `VmValueFromBytes` for a value with pointers, on a slice
that is not nil; on the nil slice, which is within every size limit, the
constructor gives `nilbytes`. -/
def RefValue.FromBytes (lim : Limits) (val : List Byte) : Except VmError RefValue :=
  if val.length > lim.MAX_BYTEARRAY_SIZE then .error .ERR_OVER_MAX_ITEM_SIZE
  else .ok (.bytearray val)

/-- The constructor `VmValueFromIntValue` for a value with pointers. -/
def RefValue.FromIntValue (val : IntValue) : RefValue :=
  match val with
  | .big b => .bigint b
  | .small i => .integer i

/-- Modelled from the spec: the assignment `Data[skey] = value` of the Go map
inside `MapValue.Set`, on a map of values with pointers. -/
def MapRef.assign (data : List (List Byte × RefValue)) (skey : List Byte) (value : RefValue) :
    List (List Byte × RefValue) :=
  match data with
  | [] => [(skey, value)]
  | (k, v) :: rest =>
    if k = skey then (skey, value) :: rest else (k, v) :: MapRef.assign rest skey value

/-- Modelled from the spec: `MapValue.Set` on a map of values with pointers;
"missing map key is ... an insert for `SETITEM`". -/
def MapRef.Set (data : List (List Byte × RefValue)) (key value : RefValue) :
    Except VmError (List (List Byte × RefValue)) :=
  match key.GetMapKey with
  | .error e => .error e
  | .ok skey => .ok (MapRef.assign data skey value)

/-- Modelled from the spec: `MapValue.Get`, the value under the key of `key`
and whether there is one; an error for a key value without byte encoding. -/
def MapRef.Get (data : List (List Byte × RefValue)) (key : RefValue) :
    Except VmError (Option RefValue) :=
  match key.GetMapKey with
  | .error e => .error e
  | .ok skey => .ok (MapValue.lookup data skey)

/-- Modelled from the spec: `MapValue.Remove`, the Go `delete(Data, skey)`. -/
def MapRef.Remove (data : List (List Byte × RefValue)) (key : RefValue) :
    Except VmError (List (List Byte × RefValue)) :=
  match key.GetMapKey with
  | .error e => .error e
  | .ok skey => .ok (data.filter (fun e => decide (e.1 ≠ skey)))

/-- Modelled from the spec: `MapValue.GetMapSortedKey`, the keys "in a
canonical sorted order (over their byte encoding)". -/
def MapRef.GetMapSortedKey (data : List (List Byte × RefValue)) : List (List Byte) :=
  sortStrings (data.map Prod.fst)

/-- Modelled from the spec: `MapValue.GetValues`, the values in the order of
the sorted keys, "to guarantee deterministic iteration across nodes". -/
def MapRef.GetValues (data : List (List Byte × RefValue)) : List RefValue :=
  (MapRef.GetMapSortedKey data).filterMap (fun k => MapValue.lookup data k)

/-- Modelled from the spec: `ArrayValue.RemoveAt` read as counting positions
from zero, as `PICKITEM` and `SETITEM` count them: `RemoveAt(k)` removes
`Data[k]` for `0 ≤ k < len(Data)` and fails otherwise. The function is not
among the sources and the spec leaves its convention open; this is one of the
two readings. -/
def ArrayValue.RemoveAtZeroBased (data : List RefValue) (index : Int) :
    Except VmError (List RefValue) :=
  if index < 0 ∨ index ≥ data.length then .error .ERR_INDEX_OUT_OF_BOUND
  else .ok (data.eraseIdx index.toNat)

/-- Modelled from the spec: `ArrayValue.RemoveAt` read as counting positions
from one, the reading under which the call `RemoveAt(i + 1)` of `REMOVE`
removes the element at index `i`: `RemoveAt(k)` removes `Data[k-1]` for
`1 ≤ k ≤ len(Data)` and fails otherwise. This is the other reading. -/
def ArrayValue.RemoveAtOneBased (data : List RefValue) (index : Int) :
    Except VmError (List RefValue) :=
  if index < 1 ∨ index > data.length then .error .ERR_INDEX_OUT_OF_BOUND
  else .ok (data.eraseIdx (index.toNat - 1))

end types

namespace neovm

open types errors constants common

/-! The opcode constants are declared in `opcode.go`, which is not among the
sources. Their values are those of the NEO instruction set that the source
follows: it gives `APPCALL` as `0x67` and `SYSCALL` as `0x68` in a comment,
pushes `opcode - PUSH1 + 1` for `PUSHM1` and `PUSH1` .. `PUSH16`, and treats
`PUSHBYTES1` .. `PUSHBYTES75` as the number of bytes to push. -/

/-- Modelled from the spec: the opcode `PUSH0`. -/
def PUSH0 : Byte := 0x00

/-- Modelled from the spec: the opcode `PUSHBYTES1`. -/
def PUSHBYTES1 : Byte := 0x01

/-- Modelled from the spec: the opcode `PUSHBYTES75`. -/
def PUSHBYTES75 : Byte := 0x4B

/-- Modelled from the spec: the opcode `PUSHDATA1`. -/
def PUSHDATA1 : Byte := 0x4C

/-- Modelled from the spec: the opcode `PUSHDATA2`. -/
def PUSHDATA2 : Byte := 0x4D

/-- Modelled from the spec: the opcode `PUSHDATA4`. -/
def PUSHDATA4 : Byte := 0x4E

/-- Modelled from the spec: the opcode `PUSHM1`. -/
def PUSHM1 : Byte := 0x4F

/-- Modelled from the spec: the opcode `PUSH1`. -/
def PUSH1 : Byte := 0x51

/-- Modelled from the spec: the opcode `PUSH2`. -/
def PUSH2 : Byte := 0x52

/-- Modelled from the spec: the opcode `PUSH3`. -/
def PUSH3 : Byte := 0x53

/-- Modelled from the spec: the opcode `PUSH4`. -/
def PUSH4 : Byte := 0x54

/-- Modelled from the spec: the opcode `PUSH5`. -/
def PUSH5 : Byte := 0x55

/-- Modelled from the spec: the opcode `PUSH6`. -/
def PUSH6 : Byte := 0x56

/-- Modelled from the spec: the opcode `PUSH7`. -/
def PUSH7 : Byte := 0x57

/-- Modelled from the spec: the opcode `PUSH8`. -/
def PUSH8 : Byte := 0x58

/-- Modelled from the spec: the opcode `PUSH9`. -/
def PUSH9 : Byte := 0x59

/-- Modelled from the spec: the opcode `PUSH10`. -/
def PUSH10 : Byte := 0x5A

/-- Modelled from the spec: the opcode `PUSH11`. -/
def PUSH11 : Byte := 0x5B

/-- Modelled from the spec: the opcode `PUSH12`. -/
def PUSH12 : Byte := 0x5C

/-- Modelled from the spec: the opcode `PUSH13`. -/
def PUSH13 : Byte := 0x5D

/-- Modelled from the spec: the opcode `PUSH14`. -/
def PUSH14 : Byte := 0x5E

/-- Modelled from the spec: the opcode `PUSH15`. -/
def PUSH15 : Byte := 0x5F

/-- Modelled from the spec: the opcode `PUSH16`. -/
def PUSH16 : Byte := 0x60

/-- Modelled from the spec: the opcode `NOP`. -/
def NOP : Byte := 0x61

/-- Modelled from the spec: the opcode `JMP`. -/
def JMP : Byte := 0x62

/-- Modelled from the spec: the opcode `JMPIF`. -/
def JMPIF : Byte := 0x63

/-- Modelled from the spec: the opcode `JMPIFNOT`. -/
def JMPIFNOT : Byte := 0x64

/-- Modelled from the spec: the opcode `CALL`. -/
def CALL : Byte := 0x65

/-- Modelled from the spec: the opcode `RET`. -/
def RET : Byte := 0x66

/-- Modelled from the spec: the opcode `APPCALL`. -/
def APPCALL : Byte := 0x67

/-- Modelled from the spec: the opcode `SYSCALL`. -/
def SYSCALL : Byte := 0x68

/-- Modelled from the spec: the opcode `DUPFROMALTSTACK`. -/
def DUPFROMALTSTACK : Byte := 0x6A

/-- Modelled from the spec: the opcode `TOALTSTACK`. -/
def TOALTSTACK : Byte := 0x6B

/-- Modelled from the spec: the opcode `FROMALTSTACK`. -/
def FROMALTSTACK : Byte := 0x6C

/-- Modelled from the spec: the opcode `XDROP`. -/
def XDROP : Byte := 0x6D

/-- Modelled from the spec: the opcode `XSWAP`. -/
def XSWAP : Byte := 0x72

/-- Modelled from the spec: the opcode `XTUCK`. -/
def XTUCK : Byte := 0x73

/-- Modelled from the spec: the opcode `DEPTH`. -/
def DEPTH : Byte := 0x74

/-- Modelled from the spec: the opcode `DROP`. -/
def DROP : Byte := 0x75

/-- Modelled from the spec: the opcode `DUP`. -/
def DUP : Byte := 0x76

/-- Modelled from the spec: the opcode `NIP`. -/
def NIP : Byte := 0x77

/-- Modelled from the spec: the opcode `OVER`. -/
def OVER : Byte := 0x78

/-- Modelled from the spec: the opcode `PICK`. -/
def PICK : Byte := 0x79

/-- Modelled from the spec: the opcode `ROLL`. -/
def ROLL : Byte := 0x7A

/-- Modelled from the spec: the opcode `ROT`. -/
def ROT : Byte := 0x7B

/-- Modelled from the spec: the opcode `SWAP`. -/
def SWAP : Byte := 0x7C

/-- Modelled from the spec: the opcode `TUCK`. -/
def TUCK : Byte := 0x7D

/-- Modelled from the spec: the opcode `CAT`. -/
def CAT : Byte := 0x7E

/-- Modelled from the spec: the opcode `SUBSTR`. -/
def SUBSTR : Byte := 0x7F

/-- Modelled from the spec: the opcode `LEFT`. -/
def LEFT : Byte := 0x80

/-- Modelled from the spec: the opcode `RIGHT`. -/
def RIGHT : Byte := 0x81

/-- Modelled from the spec: the opcode `SIZE`. -/
def SIZE : Byte := 0x82

/-- Modelled from the spec: the opcode `INVERT`. -/
def INVERT : Byte := 0x83

/-- Modelled from the spec: the opcode `AND`. -/
def AND : Byte := 0x84

/-- Modelled from the spec: the opcode `OR`. -/
def OR : Byte := 0x85

/-- Modelled from the spec: the opcode `XOR`. -/
def XOR : Byte := 0x86

/-- Modelled from the spec: the opcode `EQUAL`. -/
def EQUAL : Byte := 0x87

/-- Modelled from the spec: the opcode `INC`. -/
def INC : Byte := 0x8B

/-- Modelled from the spec: the opcode `DEC`. -/
def DEC : Byte := 0x8C

/-- Modelled from the spec: the opcode `SIGN`. -/
def SIGN : Byte := 0x8D

/-- Modelled from the spec: the opcode `NEGATE`. -/
def NEGATE : Byte := 0x8F

/-- Modelled from the spec: the opcode `ABS`. -/
def ABS : Byte := 0x90

/-- Modelled from the spec: the opcode `NOT`. -/
def NOT : Byte := 0x91

/-- Modelled from the spec: the opcode `NZ`. -/
def NZ : Byte := 0x92

/-- Modelled from the spec: the opcode `ADD`. -/
def ADD : Byte := 0x93

/-- Modelled from the spec: the opcode `SUB`. -/
def SUB : Byte := 0x94

/-- Modelled from the spec: the opcode `MUL`. -/
def MUL : Byte := 0x95

/-- Modelled from the spec: the opcode `DIV`. -/
def DIV : Byte := 0x96

/-- Modelled from the spec: the opcode `MOD`. -/
def MOD : Byte := 0x97

/-- Modelled from the spec: the opcode `SHL`. -/
def SHL : Byte := 0x98

/-- Modelled from the spec: the opcode `SHR`. -/
def SHR : Byte := 0x99

/-- Modelled from the spec: the opcode `BOOLAND`. -/
def BOOLAND : Byte := 0x9A

/-- Modelled from the spec: the opcode `BOOLOR`. -/
def BOOLOR : Byte := 0x9B

/-- Modelled from the spec: the opcode `NUMEQUAL`. -/
def NUMEQUAL : Byte := 0x9C

/-- Modelled from the spec: the opcode `NUMNOTEQUAL`. -/
def NUMNOTEQUAL : Byte := 0x9E

/-- Modelled from the spec: the opcode `LT`. -/
def LT : Byte := 0x9F

/-- Modelled from the spec: the opcode `GT`. -/
def GT : Byte := 0xA0

/-- Modelled from the spec: the opcode `LTE`. -/
def LTE : Byte := 0xA1

/-- Modelled from the spec: the opcode `GTE`. -/
def GTE : Byte := 0xA2

/-- Modelled from the spec: the opcode `MIN`. -/
def MIN : Byte := 0xA3

/-- Modelled from the spec: the opcode `MAX`. -/
def MAX : Byte := 0xA4

/-- Modelled from the spec: the opcode `WITHIN`. -/
def WITHIN : Byte := 0xA5

/-- Modelled from the spec: the opcode `SHA1`. -/
def SHA1 : Byte := 0xA7

/-- Modelled from the spec: the opcode `SHA256`. -/
def SHA256 : Byte := 0xA8

/-- Modelled from the spec: the opcode `HASH160`. -/
def HASH160 : Byte := 0xA9

/-- Modelled from the spec: the opcode `HASH256`. -/
def HASH256 : Byte := 0xAA

/-- Modelled from the spec: the opcode `VERIFY`. -/
def VERIFY : Byte := 0xAD

/-- Modelled from the spec: the opcode `ARRAYSIZE`. -/
def ARRAYSIZE : Byte := 0xC0

/-- Modelled from the spec: the opcode `PACK`. -/
def PACK : Byte := 0xC1

/-- Modelled from the spec: the opcode `UNPACK`. -/
def UNPACK : Byte := 0xC2

/-- Modelled from the spec: the opcode `PICKITEM`. -/
def PICKITEM : Byte := 0xC3

/-- Modelled from the spec: the opcode `SETITEM`. -/
def SETITEM : Byte := 0xC4

/-- Modelled from the spec: the opcode `NEWARRAY`. -/
def NEWARRAY : Byte := 0xC5

/-- Modelled from the spec: the opcode `NEWSTRUCT`. -/
def NEWSTRUCT : Byte := 0xC6

/-- Modelled from the spec: the opcode `NEWMAP`. -/
def NEWMAP : Byte := 0xC7

/-- Modelled from the spec: the opcode `APPEND`. -/
def APPEND : Byte := 0xC8

/-- Modelled from the spec: the opcode `REVERSE`. -/
def REVERSE : Byte := 0xC9

/-- Modelled from the spec: the opcode `REMOVE`. -/
def REMOVE : Byte := 0xCA

/-- Modelled from the spec: the opcode `HASKEY`. -/
def HASKEY : Byte := 0xCB

/-- Modelled from the spec: the opcode `KEYS`. -/
def KEYS : Byte := 0xCC

/-- Modelled from the spec: the opcode `VALUES`. -/
def VALUES : Byte := 0xCD

/-- Modelled from the spec: the opcode `THROW`. -/
def THROW : Byte := 0xF0

/-- Modelled from the spec: the opcode `THROWIFNOT`. -/
def THROWIFNOT : Byte := 0xF1

/-- Modelled from the spec: `VMState`, the states `Running` (`NONE`), `Halt`,
`Fault` and `Break` of the interpreter. -/
inductive VMState where
  | NONE
  | HALT
  | FAULT
  | BREAK
  deriving DecidableEq, Repr

/-- Modelled from the spec: the expression `State & (^BREAK)`, "clear `Break`
on entry". -/
def VMState.clearBreak : VMState → VMState
  | .BREAK => .NONE
  | s => s

/-- Modelled from the spec: the constants of the executor and the services it
calls from outside the repository. The spec leaves the stack limit and the
array size limit open ("a fixed protocol constant"); the hash functions and
the signature scheme are external collaborators. `RemoveAt` is the method
`ArrayValue.RemoveAt`, which is not among the sources and whose index
convention the spec leaves open: the data of an array and a position give the
data without one element, or an error. -/
structure Config where
  lim : Limits
  STACK_LIMIT : Nat
  MAX_ARRAY_SIZE : Int
  RemoveAt : List RefValue → Int → Except VmError (List RefValue)
  sha1 : List Byte → List Byte
  sha256 : List Byte → List Byte
  ripemd160 : List Byte → List Byte
  DeserializePublicKey : List Byte → Option Nat
  Verify : Nat → List Byte → List Byte → Bool

/-- Modelled from the spec: `ExecutionContext`, "the code buffer, an
instruction pointer, and a cursor for reading immediate operands"; the
instruction pointer is the position of the cursor. -/
structure ExecutionContext where
  Code : List Byte
  InstructionPointer : Nat
  deriving DecidableEq, Repr

/-- Modelled from the spec: `NewExecutionContext`. -/
def NewExecutionContext (code : List Byte) : ExecutionContext := ⟨code, 0⟩

/-- Modelled from the spec: `ExecutionContext.GetInstructionPointer`. -/
def ExecutionContext.GetInstructionPointer (context : ExecutionContext) : Int :=
  context.InstructionPointer

/-- Modelled from the spec: `ExecutionContext.SetInstructionPointer`; a
negative offset is refused and leaves the pointer where it was. -/
def ExecutionContext.SetInstructionPointer (context : ExecutionContext) (offset : Int) :
    ExecutionContext :=
  if offset < 0 then context else { context with InstructionPointer := offset.toNat }

/-- Modelled from the spec: `ExecutionContext.Clone`, a context "sharing the
code buffer, independent instruction pointer". -/
def ExecutionContext.Clone (context : ExecutionContext) : ExecutionContext :=
  ⟨context.Code, context.InstructionPointer⟩

/-- The code bytes from the instruction pointer on. -/
def ExecutionContext.rest (context : ExecutionContext) : List Byte :=
  context.Code.drop context.InstructionPointer

/-- Modelled from the spec: `OpReader.ReadBytes`, "that many bytes" from the
cursor. It returns the bytes and an error; when fewer bytes are left the
error is set, no bytes are returned and the cursor stays. -/
def ExecutionContext.ReadBytes (context : ExecutionContext) (count : Nat) :
    List Byte × Option VmError × ExecutionContext :=
  if context.rest.length < count then ([], some .ErrEOF, context)
  else (context.rest.take count, none,
    { context with InstructionPointer := context.InstructionPointer + count })

/-- Modelled from the spec: `ExecutionContext.ReadOpCode`, "fetch one opcode";
`none` is the end of the code. -/
def ExecutionContext.ReadOpCode (context : ExecutionContext) : Option (Byte × ExecutionContext) :=
  match context.rest with
  | [] => none
  | b :: _ => some (b, { context with InstructionPointer := context.InstructionPointer + 1 })

/-- Modelled from the spec: `OpReader.ReadByte`. -/
def ExecutionContext.ReadByte (context : ExecutionContext) :
    Except VmError (Nat × ExecutionContext) :=
  match context.ReadBytes 1 with
  | (_, some e, _) => .error e
  | (bs, none, c) => .ok (leNat bs, c)

/-- Modelled from the spec: `OpReader.ReadUint16`, a little-endian "fixed-width
integer". -/
def ExecutionContext.ReadUint16 (context : ExecutionContext) :
    Except VmError (Nat × ExecutionContext) :=
  match context.ReadBytes 2 with
  | (_, some e, _) => .error e
  | (bs, none, c) => .ok (leNat bs, c)

/-- Modelled from the spec: `OpReader.ReadUint32`. -/
def ExecutionContext.ReadUint32 (context : ExecutionContext) :
    Except VmError (Nat × ExecutionContext) :=
  match context.ReadBytes 4 with
  | (_, some e, _) => .error e
  | (bs, none, c) => .ok (leNat bs, c)

/-- Modelled from the spec: `OpReader.ReadInt16`, the "signed 16-bit relative
operand", little-endian two's complement. -/
def ExecutionContext.ReadInt16 (context : ExecutionContext) :
    Except VmError (Int × ExecutionContext) :=
  match context.ReadBytes 2 with
  | (_, some e, _) => .error e
  | (bs, none, c) =>
    .ok (if leNat bs < 2 ^ 15 then (leNat bs : Int) else (leNat bs : Int) - 2 ^ 16, c)

/-- Modelled from the spec: `ValueStack`, "a bounded, order-preserving
sequence of Values addressed from the top (index 0 = top)"; the head of the
list is the top of the stack. -/
structure ValueStack where
  data : List RefValue
  limit : Nat
  deriving DecidableEq, Repr

/-- Modelled from the spec: `NewValueStack`. -/
def NewValueStack (limit : Nat) : ValueStack := ⟨[], limit⟩

/-- A stack operation: the stack before is mapped to the returned value or
error and the stack after. -/
def StackM (α : Type) : Type := ValueStack → Except VmError α × ValueStack

/-- Sequencing of stack operations: the first error is returned, with the
stack as it is at that point. -/
def StackM.bind {α β : Type} (x : StackM α) (f : α → StackM β) : StackM β :=
  fun s =>
    match x s with
    | (.ok a, s2) => f a s2
    | (.error e, s2) => (.error e, s2)

instance : Monad StackM where
  pure a := fun s => (.ok a, s)
  bind := StackM.bind

/-- A conversion that fails inside a stack operation. -/
def StackM.lift {α : Type} (r : Except VmError α) : StackM α := fun s => (r, s)

/-- Modelled from the spec: `ValueStack.Count`. -/
def ValueStack.Count (self : ValueStack) : Nat := self.data.length

/-- Modelled from the spec: `ValueStack.Push`, which fails with
`StackOverflow(limit)`; "every push checks" the limit. The value is stored as
it is handed over, a Struct with the address of its elements; whether the
`Push` of the sources clones a Struct on the way, the sources at hand do not
show. -/
def ValueStack.Push (t : RefValue) : StackM Unit := fun self =>
  if self.data.length ≥ self.limit then (.error .ERR_OVER_STACK_LEN, self)
  else (.ok (), { self with data := t :: self.data })

/-- Modelled from the spec: `ValueStack.Pop`, which fails with
`StackUnderflow`. -/
def ValueStack.Pop : StackM RefValue := fun self =>
  match self.data with
  | [] => (.error .ERR_UNDER_STACK_LEN, self)
  | t :: rest => (.ok t, { self with data := rest })

/-- Modelled from the spec: `ValueStack.Peek`, "read without removing, n is
zero-based from top". -/
def ValueStack.Peek (index : Int) : StackM RefValue := fun self =>
  if index < 0 ∨ index ≥ self.data.length then (.error .ERR_INDEX_OUT_OF_BOUND, self)
  else
    match self.data.get? index.toNat with
    | some t => (.ok t, self)
    | none => (.error .ERR_INDEX_OUT_OF_BOUND, self)

/-- Modelled from the spec: `ValueStack.Remove`, "remove and return the
element at depth n". -/
def ValueStack.Remove (index : Int) : StackM RefValue := fun self =>
  if index < 0 ∨ index ≥ self.data.length then (.error .ERR_INDEX_OUT_OF_BOUND, self)
  else
    match self.data.get? index.toNat with
    | some t => (.ok t, { self with data := self.data.eraseIdx index.toNat })
    | none => (.error .ERR_INDEX_OUT_OF_BOUND, self)

/-- Modelled from the spec: `ValueStack.Insert`, "insert `v` at depth n". -/
def ValueStack.Insert (index : Int) (t : RefValue) : StackM Unit := fun self =>
  if self.data.length ≥ self.limit then (.error .ERR_OVER_STACK_LEN, self)
  else if index < 0 ∨ index > self.data.length then (.error .ERR_INDEX_OUT_OF_BOUND, self)
  else (.ok (), { self with data := self.data.insertIdx index.toNat t })

/-- Modelled from the spec: `ValueStack.Swap`, "exchange elements at two
depths". -/
def ValueStack.Swap (i j : Int) : StackM Unit := fun self =>
  if i < 0 ∨ i ≥ self.data.length ∨ j < 0 ∨ j ≥ self.data.length then
    (.error .ERR_INDEX_OUT_OF_BOUND, self)
  else
    match self.data.get? i.toNat, self.data.get? j.toNat with
    | some a, some b =>
      (.ok (), { self with data := (self.data.set i.toNat b).set j.toNat a })
    | _, _ => (.error .ERR_INDEX_OUT_OF_BOUND, self)

/-- Modelled from the spec: `ValueStack.PushMany`, the pushes in argument
order. -/
def ValueStack.PushMany : List RefValue → StackM Unit
  | [] => pure ()
  | t :: rest => do
    ValueStack.Push t
    ValueStack.PushMany rest

/-- Modelled from the spec: `ValueStack.PushBool`. -/
def ValueStack.PushBool (val : Bool) : StackM Unit :=
  ValueStack.Push (RefValue.FromBool val)

/-- Modelled from the spec: `ValueStack.PushInt64`. -/
def ValueStack.PushInt64 (val : Int) : StackM Unit :=
  ValueStack.Push (RefValue.FromInt64 val)

/-- Modelled from the spec: `ValueStack.PushBytes`, which builds the
ByteArray under its size limit and pushes it. -/
def ValueStack.PushBytes (lim : Limits) (val : List Byte) : StackM Unit := do
  let v ← StackM.lift (RefValue.FromBytes lim val)
  ValueStack.Push v

/-- Modelled from the spec: `ValueStack.PopPair`, which pops "in a fixed order
(first popped = top of stack)" and returns the two "in source-argument order,
not stack order". -/
def ValueStack.PopPair : StackM (RefValue × RefValue) := do
  let right ← ValueStack.Pop
  let left ← ValueStack.Pop
  pure (left, right)

/-- Modelled from the spec: `ValueStack.PopTriple`. -/
def ValueStack.PopTriple : StackM (RefValue × RefValue × RefValue) := do
  let right ← ValueStack.Pop
  let middle ← ValueStack.Pop
  let left ← ValueStack.Pop
  pure (left, middle, right)

/-- Modelled from the spec: `ValueStack.PopAsBool`. -/
def ValueStack.PopAsBool : StackM Bool := do
  let val ← ValueStack.Pop
  StackM.lift val.AsBool

/-- Modelled from the spec: `ValueStack.PopAsInt64`; "depth arguments are
always popped as integers". -/
def ValueStack.PopAsInt64 (lim : Limits) : StackM Int := do
  let val ← ValueStack.Pop
  StackM.lift (val.AsInt64 lim)

/-- Modelled from the spec: `ValueStack.PopAsIntValue`. -/
def ValueStack.PopAsIntValue (lim : Limits) : StackM IntValue := do
  let val ← ValueStack.Pop
  StackM.lift (val.AsIntValue lim)

/-- Modelled from the spec: `ValueStack.PopAsBytes`. -/
def ValueStack.PopAsBytes : StackM (List Byte) := do
  let val ← ValueStack.Pop
  StackM.lift val.AsBytes

/-- Modelled from the spec: `ValueStack.PopAsArray`, the array pointer. -/
def ValueStack.PopAsArray : StackM Nat := do
  let val ← ValueStack.Pop
  StackM.lift val.AsArrayValue

/-- Modelled from the spec: `ValueStack.PopPairAsBytes`. -/
def ValueStack.PopPairAsBytes : StackM (List Byte × List Byte) := do
  let (left, right) ← ValueStack.PopPair
  let l ← StackM.lift left.AsBytes
  let r ← StackM.lift right.AsBytes
  pure (l, r)

/-- Modelled from the spec: `ValueStack.PopPairAsInt64`. -/
def ValueStack.PopPairAsInt64 (lim : Limits) : StackM (Int × Int) := do
  let (left, right) ← ValueStack.PopPair
  let l ← StackM.lift (left.AsInt64 lim)
  let r ← StackM.lift (right.AsInt64 lim)
  pure (l, r)

/-- Modelled from the spec: `ValueStack.PopPairAsIntVal`. -/
def ValueStack.PopPairAsIntVal (lim : Limits) : StackM (IntValue × IntValue) := do
  let (left, right) ← ValueStack.PopPair
  let l ← StackM.lift (left.AsIntValue lim)
  let r ← StackM.lift (right.AsIntValue lim)
  pure (l, r)

/-- Modelled from the spec: `ValueStack.PopPairAsBool`. -/
def ValueStack.PopPairAsBool : StackM (Bool × Bool) := do
  let (left, right) ← ValueStack.PopPair
  let l ← StackM.lift left.AsBool
  let r ← StackM.lift right.AsBool
  pure (l, r)

/-- Modelled from the spec: `ValueStack.PopTripleAsIntVal`. -/
def ValueStack.PopTripleAsIntVal (lim : Limits) : StackM (IntValue × IntValue × IntValue) := do
  let (left, middle, right) ← ValueStack.PopTriple
  let l ← StackM.lift (left.AsIntValue lim)
  let m ← StackM.lift (middle.AsIntValue lim)
  let r ← StackM.lift (right.AsIntValue lim)
  pure (l, m, r)

/-- Modelled from the spec: `ValueStack.PopTripleAsBytes`. -/
def ValueStack.PopTripleAsBytes : StackM (List Byte × List Byte × List Byte) := do
  let (left, middle, right) ← ValueStack.PopTriple
  let l ← StackM.lift left.AsBytes
  let m ← StackM.lift middle.AsBytes
  let r ← StackM.lift right.AsBytes
  pure (l, m, r)

/-- The struct `Executor`, together with the heap cells that the values on
its stacks point to. `Context` is `none` for the nil pointer; the last element
of `Callers` is the most recently pushed context. -/
structure Executor where
  EvalStack : ValueStack
  AltStack : ValueStack
  State : VMState
  Callers : List ExecutionContext
  Context : Option ExecutionContext
  store : Store
  deriving DecidableEq, Repr

/-- The function `NewExecutor`. -/
def NewExecutor (cfg : Config) (code : List Byte) : Executor :=
  { EvalStack := NewValueStack cfg.STACK_LIMIT
    AltStack := NewValueStack cfg.STACK_LIMIT
    State := .BREAK
    Callers := []
    Context := some (NewExecutionContext code)
    store := [] }

/-- The method `Executor.PopContext`: the popped context or the error, and the
executor after the call. -/
def Executor.PopContext (self : Executor) : Except VmError ExecutionContext × Executor :=
  match self.Callers.getLast? with
  | none => (.error .ERR_INDEX_OUT_OF_BOUND, self)
  | some context => (.ok context, { self with Callers := self.Callers.dropLast })

/-- The method `Executor.PushContext`. -/
def Executor.PushContext (self : Executor) (context : ExecutionContext) : Executor :=
  { self with Callers := self.Callers ++ [context] }

/-- The result of a piece of an opcode handler on the executor `self`:
`ok` carries on with a value, `fault err` is the statement
`return FAULT, err` (with `none` for a nil error), `abort` is a Go panic, and
`stuck` is a state that the model does not describe (an address without a
cell, or a comparison of structs that does not end within the fuel). -/
inductive Outcome (α : Type) where
  | ok (a : α) (m : Executor)
  | fault (err : Option VmError) (m : Executor)
  | abort
  | stuck

/-- A piece of an opcode handler: it runs on the executor and gives an
`Outcome`. -/
def Op (α : Type) : Type := Executor → Outcome α

/-- Sequencing inside a handler; it is the idiom
`if err != nil` then `return FAULT, err` of the source: the first fault ends
the handler. -/
def Op.bind {α β : Type} (x : Op α) (f : α → Op β) : Op β :=
  fun m =>
    match x m with
    | .ok a m2 => f a m2
    | .fault err m2 => .fault err m2
    | .abort => .abort
    | .stuck => .stuck

instance : Monad Op where
  pure a := fun m => .ok a m
  bind := Op.bind

/-- A stack operation on `self.EvalStack`; its error is returned with
`FAULT`. -/
def Op.eval {α : Type} (x : StackM α) : Op α := fun m =>
  match x m.EvalStack with
  | (.ok a, s) => .ok a { m with EvalStack := s }
  | (.error e, s) => .fault (some e) { m with EvalStack := s }

/-- A stack operation on `self.AltStack`. -/
def Op.alt {α : Type} (x : StackM α) : Op α := fun m =>
  match x m.AltStack with
  | (.ok a, s) => .ok a { m with AltStack := s }
  | (.error e, s) => .fault (some e) { m with AltStack := s }

/-- A call that returns a value or an error; the error is returned with
`FAULT`. -/
def Op.try {α : Type} (r : Except VmError α) : Op α := fun m =>
  match r with
  | .ok a => .ok a m
  | .error e => .fault (some e) m

/-- The statement `return FAULT, err` with an error of the handler itself. -/
def Op.fail {α : Type} (e : VmError) : Op α := fun m => .fault (some e) m

/-- The statement `return FAULT, nil`. -/
def Op.faultNil {α : Type} : Op α := fun m => .fault none m

/-- The Go statement `panic(...)`. -/
def Op.panic {α : Type} : Op α := fun _ => .abort

/-- A reading operation on the operand cursor of `context`; a nil context is
a nil pointer dereference. -/
def Op.read {α : Type} (f : ExecutionContext → Except VmError (α × ExecutionContext)) : Op α :=
  fun m =>
    match m.Context with
    | none => .abort
    | some context =>
      match f context with
      | .ok (a, c) => .ok a { m with Context := some c }
      | .error e => .fault (some e) m

/-- The context that the handler works on. -/
def Op.context : Op ExecutionContext := fun m =>
  match m.Context with
  | none => .abort
  | some context => .ok context m

/-- The elements behind an array or struct pointer. -/
def Op.getList (p : Nat) : Op (List RefValue) := fun m =>
  match m.store.list? p with
  | some d => .ok d m
  | none => .stuck

/-- The entries behind a map pointer. -/
def Op.getMap (p : Nat) : Op (List (List Byte × RefValue)) := fun m =>
  match m.store.map? p with
  | some d => .ok d m
  | none => .stuck

/-- An update in place of the cell behind a pointer. -/
def Op.setCell (p : Nat) (c : Cell) : Op Unit := fun m =>
  .ok () { m with store := m.store.set p c }

/-- The allocation of a new array, struct or map. -/
def Op.alloc (c : Cell) : Op Nat := fun m =>
  .ok (m.store.alloc c).2 { m with store := (m.store.alloc c).1 }

/-- The call `left.Equals(right)` on the values of the executor. -/
def Op.equals (left right : RefValue) : Op Bool := fun m =>
  match RefValue.Equals m.store (m.store.length + 1) left right with
  | some b => .ok b m
  | none => .stuck

/-- The opcodes `PUSHBYTES1` to `PUSHBYTES75`. -/
def opPushBytes (cfg : Config) (opcode : Byte) : Op Unit := do
  let context ← Op.context
  let (buf, err, c) := context.ReadBytes opcode.val
  match err with
  | some e => Op.fail e
  | none =>
    Op.read (fun _ => .ok ((), c))
    let val ← Op.try (RefValue.FromBytes cfg.lim buf)
    Op.eval (ValueStack.Push val)

/-- The opcodes `PUSHDATA1`, `PUSHDATA2` and `PUSHDATA4`: the error of
`ReadBytes` is overwritten by the one of `VmValueFromBytes`. -/
def opPushData (cfg : Config) (opcode : Byte) : Op Unit := do
  let numBytes ←
    if opcode = PUSHDATA1 then Op.read ExecutionContext.ReadByte
    else if opcode = PUSHDATA2 then Op.read ExecutionContext.ReadUint16
    else Op.read ExecutionContext.ReadUint32
  let context ← Op.context
  let (data, _, c) := context.ReadBytes numBytes
  Op.read (fun _ => .ok ((), c))
  let val ← Op.try (RefValue.FromBytes cfg.lim data)
  Op.eval (ValueStack.Push val)

/-- The opcodes `PUSHM1` and `PUSH1` to `PUSH16`. -/
def opPushNum (opcode : Byte) : Op Unit :=
  Op.eval (ValueStack.Push (RefValue.FromInt64 ((opcode.val : Int) - (PUSH1.val : Int) + 1)))

/-- The opcodes `JMP`, `JMPIF`, `JMPIFNOT` and `CALL`. -/
def opJump (opcode : Byte) : Op Unit := do
  let opcode ←
    if opcode = CALL then do
      let context ← Op.context
      let caller := context.Clone
      let caller := caller.SetInstructionPointer (caller.GetInstructionPointer + 2)
      let _ ← (fun m => Outcome.ok () (m.PushContext caller) : Op Unit)
      pure JMP
    else pure opcode
  let num ← Op.read ExecutionContext.ReadInt16
  let context ← Op.context
  let offset := context.GetInstructionPointer + num - 3
  if offset < 0 ∨ offset > context.Code.length then Op.fail .ERR_FAULT
  else do
    let needJmp ←
      if opcode ≠ JMP then do
        let val ← Op.eval ValueStack.PopAsBool
        if opcode = JMPIF then pure val else pure (!val)
      else pure true
    if needJmp then
      Op.read (fun c => .ok ((), c.SetInstructionPointer offset))
    else pure ()

/-- The opcode `RET`: the error of `PopContext` is dropped, and `Context` is
nil when there is no caller. -/
def opRet : Op Unit := fun m =>
  match m.PopContext with
  | (.ok context, m2) => .ok () { m2 with Context := some context }
  | (.error _, m2) => .ok () { m2 with Context := none }

/-- The opcodes `DUPFROMALTSTACK`, `TOALTSTACK`, `FROMALTSTACK`, `XDROP`,
`XSWAP`, `XTUCK`, `DEPTH`, `DROP`, `DUP`, `NIP`, `OVER`, `PICK`, `ROLL`,
`ROT`, `SWAP` and `TUCK`. -/
def opStack (cfg : Config) (opcode : Byte) : Op Unit :=
  if opcode = DUPFROMALTSTACK then do
    let val ← Op.alt (ValueStack.Peek 0)
    Op.eval (ValueStack.Push val)
  else if opcode = TOALTSTACK then do
    let val ← Op.eval ValueStack.Pop
    Op.alt (ValueStack.Push val)
  else if opcode = FROMALTSTACK then do
    let val ← Op.alt ValueStack.Pop
    Op.eval (ValueStack.Push val)
  else if opcode = XDROP then do
    let n ← Op.eval (ValueStack.PopAsInt64 cfg.lim)
    let _ ← Op.eval (ValueStack.Remove n)
    pure ()
  else if opcode = XSWAP then do
    let n ← Op.eval (ValueStack.PopAsInt64 cfg.lim)
    Op.eval (ValueStack.Swap 0 n)
  else if opcode = XTUCK then do
    let n ← Op.eval (ValueStack.PopAsInt64 cfg.lim)
    let val ← Op.eval (ValueStack.Peek 0)
    Op.eval (ValueStack.Insert n val)
  else if opcode = DEPTH then do
    let count ← (fun m => Outcome.ok m.EvalStack.Count m : Op Nat)
    Op.eval (ValueStack.PushInt64 count)
  else if opcode = DROP then do
    let _ ← Op.eval ValueStack.Pop
    pure ()
  else if opcode = DUP then do
    let val ← Op.eval (ValueStack.Peek 0)
    Op.eval (ValueStack.Push val)
  else if opcode = NIP then do
    let (_, val) ← Op.eval ValueStack.PopPair
    Op.eval (ValueStack.Push val)
  else if opcode = OVER then do
    let val ← Op.eval (ValueStack.Peek 1)
    Op.eval (ValueStack.Push val)
  else if opcode = PICK then do
    let n ← Op.eval (ValueStack.PopAsInt64 cfg.lim)
    let val ← Op.eval (ValueStack.Peek n)
    Op.eval (ValueStack.Push val)
  else if opcode = ROLL ∨ opcode = ROT then do
    let n ← if opcode = ROT then pure 2 else Op.eval (ValueStack.PopAsInt64 cfg.lim)
    let val ← Op.eval (ValueStack.Remove n)
    Op.eval (ValueStack.Push val)
  else if opcode = SWAP then
    Op.eval (ValueStack.Swap 0 1)
  else do
    let (x1, x2) ← Op.eval ValueStack.PopPair
    Op.eval (ValueStack.PushMany [x2, x1, x2])

/-- The Go `int64` that an addition or subtraction of two `int64` values
gives: the exact result reduced modulo `2 ^ 64` into the signed range. -/
def wrapInt64 (n : Int) : Int := (n + 2 ^ 63) % 2 ^ 64 - 2 ^ 63

/-- The slice `arr[lo:hi]` of Go for `0 ≤ lo ≤ hi ≤ len(arr)`. -/
def slice (arr : List Byte) (lo hi : Int) : List Byte :=
  (arr.drop lo.toNat).take (hi.toNat - lo.toNat)

/-- The opcodes `CAT`, `SUBSTR`, `LEFT`, `RIGHT` and `SIZE`. -/
def opSplice (cfg : Config) (opcode : Byte) : Op Unit :=
  if opcode = CAT then do
    let (left, right) ← Op.eval ValueStack.PopPairAsBytes
    Op.eval (ValueStack.PushBytes cfg.lim (left ++ right))
  else if opcode = SUBSTR then do
    let (start, count) ← Op.eval (ValueStack.PopPairAsInt64 cfg.lim)
    let arr ← Op.eval ValueStack.PopAsBytes
    let length : Int := arr.length
    if start < 0 ∨ start > length then Op.fail .ERR_OVER_MAX_ARRAY_SIZE
    else if count < 0 ∨ count > length then Op.fail .ERR_OVER_MAX_ARRAY_SIZE
    else
      let stop := wrapInt64 (start + count)
      if stop > length then Op.fail .ERR_OVER_MAX_ARRAY_SIZE
      else Op.eval (ValueStack.PushBytes cfg.lim (slice arr start stop))
  else if opcode = LEFT then do
    let count ← Op.eval (ValueStack.PopAsInt64 cfg.lim)
    let arr ← Op.eval ValueStack.PopAsBytes
    let length : Int := arr.length
    if count < 0 ∨ count > length then Op.fail .ERR_OVER_MAX_ARRAY_SIZE
    else Op.eval (ValueStack.PushBytes cfg.lim (slice arr 0 count))
  else if opcode = RIGHT then do
    let count ← Op.eval (ValueStack.PopAsInt64 cfg.lim)
    let arr ← Op.eval ValueStack.PopAsBytes
    let length : Int := arr.length
    if count < 0 ∨ count > length then Op.fail .ERR_OVER_MAX_ARRAY_SIZE
    else Op.eval (ValueStack.PushBytes cfg.lim (slice arr (wrapInt64 (length - count)) length))
  else do
    let arr ← Op.eval ValueStack.PopAsBytes
    Op.eval (ValueStack.PushInt64 arr.length)

/-- The opcodes `INVERT`, `AND`, `OR`, `XOR` and `EQUAL`. -/
def opBitwise (cfg : Config) (opcode : Byte) : Op Unit :=
  if opcode = INVERT then do
    let left ← Op.eval (ValueStack.PopAsIntValue cfg.lim)
    Op.eval (ValueStack.Push (RefValue.FromIntValue left.Not))
  else if opcode = EQUAL then do
    let (left, right) ← Op.eval ValueStack.PopPair
    let b ← Op.equals left right
    Op.eval (ValueStack.PushBool b)
  else do
    let (left, right) ← Op.eval (ValueStack.PopPairAsIntVal cfg.lim)
    let val ← Op.try
      (if opcode = AND then left.And cfg.lim right
       else if opcode = OR then left.Or cfg.lim right
       else left.Xor cfg.lim right)
    Op.eval (ValueStack.Push (RefValue.FromIntValue val))

/-- The opcodes `INC`, `DEC`, `SIGN`, `NEGATE`, `ABS` and `NZ`. -/
def opUnary (cfg : Config) (opcode : Byte) : Op Unit := do
  let x ← Op.eval (ValueStack.PopAsIntValue cfg.lim)
  let val ← Op.try
    (if opcode = INC then x.Add cfg.lim (IntValFromInt 1)
     else if opcode = DEC then x.Sub cfg.lim (IntValFromInt 1)
     else if opcode = SIGN then .ok (IntValFromInt (x.Cmp (IntValFromInt 0)))
     else if opcode = NEGATE then (IntValFromInt 0).Sub cfg.lim x
     else if opcode = ABS then .ok x.Abs
     else if x.Cmp (IntValFromInt 0) = 0 then .ok (IntValFromInt 0)
     else .ok (IntValFromInt 1))
  Op.eval (ValueStack.Push (RefValue.FromIntValue val))

/-- The opcodes `ADD`, `SUB`, `MUL`, `DIV`, `MOD`, `MAX` and `MIN`. -/
def opBinary (cfg : Config) (opcode : Byte) : Op Unit := do
  let (left, right) ← Op.eval (ValueStack.PopPairAsIntVal cfg.lim)
  let val ← Op.try
    (if opcode = ADD then left.Add cfg.lim right
     else if opcode = SUB then left.Sub cfg.lim right
     else if opcode = MUL then left.Mul cfg.lim right
     else if opcode = DIV then left.Div cfg.lim right
     else if opcode = MOD then left.Mod cfg.lim right
     else if opcode = MAX then left.Max right
     else left.Min right)
  Op.eval (ValueStack.Push (RefValue.FromIntValue val))

/-- The opcodes `SHL` and `SHR`. -/
def opShift (cfg : Config) (opcode : Byte) : Op Unit := do
  let x2 ← Op.eval (ValueStack.PopAsIntValue cfg.lim)
  let x1 ← Op.eval (ValueStack.PopAsIntValue cfg.lim)
  let res ← Op.try (if opcode = SHL then x1.Lsh cfg.lim x2 else x1.Rsh cfg.lim x2)
  Op.eval (ValueStack.Push (RefValue.FromIntValue res))

/-- The opcodes `NUMEQUAL`, `NUMNOTEQUAL`, `LT`, `GT`, `LTE` and `GTE`. -/
def opCompare (cfg : Config) (opcode : Byte) : Op Unit := do
  let (left, right) ← Op.eval (ValueStack.PopPairAsIntVal cfg.lim)
  let val : Bool :=
    if opcode = NUMEQUAL then decide (left.Cmp right = 0)
    else if opcode = NUMNOTEQUAL then decide (left.Cmp right ≠ 0)
    else if opcode = LT then decide (left.Cmp right < 0)
    else if opcode = GT then decide (left.Cmp right > 0)
    else if opcode = LTE then decide (left.Cmp right ≤ 0)
    else decide (left.Cmp right ≥ 0)
  Op.eval (ValueStack.PushBool val)

/-- The opcodes `BOOLAND`, `BOOLOR`, `NOT` and `WITHIN`. -/
def opLogic (cfg : Config) (opcode : Byte) : Op Unit :=
  if opcode = NOT then do
    let x ← Op.eval ValueStack.PopAsBool
    Op.eval (ValueStack.PushBool (!x))
  else if opcode = WITHIN then do
    let (val, left, right) ← Op.eval (ValueStack.PopTripleAsIntVal cfg.lim)
    Op.eval (ValueStack.PushBool (decide (val.Cmp left ≥ 0) && decide (val.Cmp right < 0)))
  else do
    let (left, right) ← Op.eval ValueStack.PopPairAsBool
    Op.eval (ValueStack.PushBool (if opcode = BOOLAND then left && right else left || right))

/-- The opcodes `SHA1`, `SHA256`, `HASH160`, `HASH256` and `VERIFY`. -/
def opCrypto (cfg : Config) (opcode : Byte) : Op Unit :=
  if opcode = VERIFY then do
    let (pub, sig, data) ← Op.eval ValueStack.PopTripleAsBytes
    match cfg.DeserializePublicKey pub with
    | none => Op.fail .ErrPublicKey
    | some key => Op.eval (ValueStack.PushBool (cfg.Verify key data sig))
  else do
    let x ← Op.eval ValueStack.PopAsBytes
    let hash :=
      if opcode = SHA1 then cfg.sha1 x
      else if opcode = SHA256 then cfg.sha256 x
      else if opcode = HASH160 then cfg.ripemd160 (cfg.sha256 x)
      else cfg.sha256 (cfg.sha256 x)
    let val ← Op.try (RefValue.FromBytes cfg.lim hash)
    Op.eval (ValueStack.Push val)

/-- The loop of `PACK`: `size` pops, each popped value appended to the
array. -/
def popMany : Nat → StackM (List RefValue)
  | 0 => pure []
  | size + 1 => do
    let val ← ValueStack.Pop
    let rest ← popMany size
    pure (val :: rest)

/-- The loop of `KEYS`: a ByteArray for every key. -/
def keysToValues (lim : Limits) : List (List Byte) → Except VmError (List RefValue)
  | [] => .ok []
  | v :: rest =>
    match RefValue.FromBytes lim v with
    | .error e => .error e
    | .ok t =>
      match keysToValues lim rest with
      | .error e => .error e
      | .ok ts => .ok (t :: ts)

/-- The index check of `PICKITEM` and `SETITEM` on an array or a struct: the
index as an integer, inside the bounds of `data`. -/
def opIndex (cfg : Config) (index : RefValue) (data : List RefValue) : Op Nat := do
  let ind ← Op.try (index.AsInt64 cfg.lim)
  if ind < 0 ∨ ind ≥ data.length then Op.fail .ERR_INDEX_OUT_OF_BOUND
  else pure ind.toNat

/-- The opcodes `ARRAYSIZE`, `PACK`, `UNPACK`, `PICKITEM` and `SETITEM`. -/
def opItems (cfg : Config) (opcode : Byte) : Op Unit :=
  if opcode = ARRAYSIZE then do
    let val ← Op.eval ValueStack.Pop
    let length ←
      match val.AsArrayValue with
      | .ok p => do
        let data ← Op.getList p
        pure (data.length : Int)
      | .error _ =>
        match val.AsBytes with
        | .ok buf => pure (buf.length : Int)
        | .error _ => Op.fail .ERR_BAD_TYPE
    Op.eval (ValueStack.PushInt64 length)
  else if opcode = PACK then do
    let size ← Op.eval (ValueStack.PopAsInt64 cfg.lim)
    if size < 0 then Op.fail .ERR_BAD_VALUE
    else do
      let data ← Op.eval (popMany size.toNat)
      let p ← Op.alloc (.list data)
      Op.eval (ValueStack.Push (.array p))
  else if opcode = UNPACK then do
    let p ← Op.eval ValueStack.PopAsArray
    let data ← Op.getList p
    Op.eval (ValueStack.PushMany data.reverse)
    Op.eval (ValueStack.PushInt64 data.length)
  else if opcode = PICKITEM then do
    let (item, index) ← Op.eval ValueStack.PopPair
    let val ←
      match item.AsArrayValue with
      | .ok p => do
        let data ← Op.getList p
        let ind ← opIndex cfg index data
        match data.get? ind with
        | some v => pure v
        | none => Op.panic
      | .error _ =>
        match item.AsStructValue with
        | .ok p => do
          let data ← Op.getList p
          let ind ← opIndex cfg index data
          match data.get? ind with
          | some v => pure v
          | none => Op.panic
        | .error _ =>
          match item.AsMapValue with
          | .ok p => do
            let data ← Op.getMap p
            let r ← Op.try (MapRef.Get data index)
            match r with
            | some value => pure value
            | none => Op.fail .ERR_MAP_NOT_EXIST
          | .error _ => Op.fail .ERR_BAD_TYPE
    Op.eval (ValueStack.Push val)
  else do
    let (item, index, val) ← Op.eval ValueStack.PopTriple
    match item.AsArrayValue with
    | .ok p => do
      let data ← Op.getList p
      let ind ← opIndex cfg index data
      Op.setCell p (.list (data.set ind val))
    | .error _ =>
      match item.AsStructValue with
      | .ok p => do
        let data ← Op.getList p
        let ind ← opIndex cfg index data
        Op.setCell p (.list (data.set ind val))
      | .error _ =>
        match item.AsMapValue with
        | .ok p => do
          let data ← Op.getMap p
          let data2 ← Op.try (MapRef.Set data index val)
          Op.setCell p (.map data2)
        | .error _ => Op.fail .ERR_BAD_TYPE

/-- The opcodes `NEWARRAY`, `NEWSTRUCT`, `NEWMAP`, `APPEND` and `REVERSE`. -/
def opAlloc (cfg : Config) (opcode : Byte) : Op Unit :=
  if opcode = NEWARRAY ∨ opcode = NEWSTRUCT then do
    let count ← Op.eval (ValueStack.PopAsInt64 cfg.lim)
    if count < 0 ∨ count > cfg.MAX_ARRAY_SIZE then Op.fail .ERR_BAD_VALUE
    else do
      let p ← Op.alloc (.list (List.replicate count.toNat (RefValue.FromInt64 0)))
      Op.eval (ValueStack.Push (if opcode = NEWARRAY then .array p else .struct p))
  else if opcode = NEWMAP then do
    let p ← Op.alloc (.map [])
    Op.eval (ValueStack.Push (.map p))
  else if opcode = APPEND then do
    let item ← Op.eval ValueStack.Pop
    let p ← Op.eval ValueStack.PopAsArray
    let data ← Op.getList p
    Op.setCell p (.list (data ++ [item]))
  else do
    let p ← Op.eval ValueStack.PopAsArray
    let data ← Op.getList p
    Op.setCell p (.list data.reverse)

/-- The opcodes `REMOVE`, `HASKEY`, `KEYS` and `VALUES`. In `REMOVE` on a map
the source returns `FAULT` with the nil error when `AsMapValue` succeeds. -/
def opMap (cfg : Config) (opcode : Byte) : Op Unit :=
  if opcode = REMOVE then do
    let (item, index) ← Op.eval ValueStack.PopPair
    if item.valType = .mapType then
      match item.AsMapValue with
      | .ok _ => Op.faultNil
      | .error _ => Op.panic
    else if item.valType = .arrayType then do
      let p ← Op.try item.AsArrayValue
      let i ← Op.try (index.AsInt64 cfg.lim)
      if i < 0 then Op.fail .ErrRemoveIndex
      else do
        let data ← Op.getList p
        let data2 ← Op.try (cfg.RemoveAt data (wrapInt64 (i + 1)))
        Op.setCell p (.list data2)
    else pure ()
  else if opcode = HASKEY then do
    let (item, key) ← Op.eval ValueStack.PopPair
    let p ← Op.try item.AsMapValue
    let data ← Op.getMap p
    let r ← Op.try (MapRef.Get data key)
    Op.eval (ValueStack.Push (RefValue.FromBool r.isSome))
  else if opcode = KEYS then do
    let item ← Op.eval ValueStack.Pop
    let p ← Op.try item.AsMapValue
    let data ← Op.getMap p
    let arr ← Op.try (keysToValues cfg.lim (MapRef.GetMapSortedKey data))
    let q ← Op.alloc (.list arr)
    Op.eval (ValueStack.Push (.array q))
  else do
    let item ← Op.eval ValueStack.Pop
    let p ← Op.try item.AsMapValue
    let data ← Op.getMap p
    let q ← Op.alloc (.list (MapRef.GetValues data))
    Op.eval (ValueStack.Push (.array q))

/-- The opcodes `THROW` and `THROWIFNOT`. -/
def opThrow (opcode : Byte) : Op Unit :=
  if opcode = THROW then Op.faultNil
  else do
    let val ← Op.eval ValueStack.PopAsBool
    if !val then Op.faultNil else pure ()

/-- The body of `ExecuteOp`: the handler of the opcode; a value returned
here is followed by `return NONE, nil`. A byte without a handler reaches
`default: panic("unimplemented!")`. -/
def dispatch (cfg : Config) (opcode : Byte) : Op Unit :=
  if PUSHBYTES1 ≤ opcode ∧ opcode ≤ PUSHBYTES75 then opPushBytes cfg opcode
  else if opcode = PUSH0 then Op.eval (ValueStack.Push (RefValue.FromInt64 0))
  else if opcode = PUSHDATA1 ∨ opcode = PUSHDATA2 ∨ opcode = PUSHDATA4 then
    opPushData cfg opcode
  else if opcode = PUSHM1 ∨ opcode = PUSH1 ∨ opcode = PUSH2 ∨ opcode = PUSH3 ∨ opcode = PUSH4
      ∨ opcode = PUSH5 ∨ opcode = PUSH6 ∨ opcode = PUSH7 ∨ opcode = PUSH8 ∨ opcode = PUSH9
      ∨ opcode = PUSH10 ∨ opcode = PUSH11 ∨ opcode = PUSH12 ∨ opcode = PUSH13
      ∨ opcode = PUSH14 ∨ opcode = PUSH15 ∨ opcode = PUSH16 then opPushNum opcode
  else if opcode = NOP then pure ()
  else if opcode = JMP ∨ opcode = JMPIF ∨ opcode = JMPIFNOT ∨ opcode = CALL then
    opJump opcode
  else if opcode = RET then opRet
  else if opcode = DUPFROMALTSTACK ∨ opcode = TOALTSTACK ∨ opcode = FROMALTSTACK
      ∨ opcode = XDROP ∨ opcode = XSWAP ∨ opcode = XTUCK ∨ opcode = DEPTH ∨ opcode = DROP
      ∨ opcode = DUP ∨ opcode = NIP ∨ opcode = OVER ∨ opcode = PICK ∨ opcode = ROLL
      ∨ opcode = ROT ∨ opcode = SWAP ∨ opcode = TUCK then opStack cfg opcode
  else if opcode = CAT ∨ opcode = SUBSTR ∨ opcode = LEFT ∨ opcode = RIGHT ∨ opcode = SIZE then
    opSplice cfg opcode
  else if opcode = INVERT ∨ opcode = AND ∨ opcode = OR ∨ opcode = XOR ∨ opcode = EQUAL then
    opBitwise cfg opcode
  else if opcode = INC ∨ opcode = DEC ∨ opcode = SIGN ∨ opcode = NEGATE ∨ opcode = ABS
      ∨ opcode = NZ then opUnary cfg opcode
  else if opcode = ADD ∨ opcode = SUB ∨ opcode = MUL ∨ opcode = DIV ∨ opcode = MOD
      ∨ opcode = MAX ∨ opcode = MIN then opBinary cfg opcode
  else if opcode = SHL ∨ opcode = SHR then opShift cfg opcode
  else if opcode = NUMEQUAL ∨ opcode = NUMNOTEQUAL ∨ opcode = LT ∨ opcode = GT
      ∨ opcode = LTE ∨ opcode = GTE then opCompare cfg opcode
  else if opcode = BOOLAND ∨ opcode = BOOLOR ∨ opcode = NOT ∨ opcode = WITHIN then
    opLogic cfg opcode
  else if opcode = SHA1 ∨ opcode = SHA256 ∨ opcode = HASH160 ∨ opcode = HASH256
      ∨ opcode = VERIFY then opCrypto cfg opcode
  else if opcode = ARRAYSIZE ∨ opcode = PACK ∨ opcode = UNPACK ∨ opcode = PICKITEM
      ∨ opcode = SETITEM then opItems cfg opcode
  else if opcode = NEWARRAY ∨ opcode = NEWSTRUCT ∨ opcode = NEWMAP ∨ opcode = APPEND
      ∨ opcode = REVERSE then opAlloc cfg opcode
  else if opcode = REMOVE ∨ opcode = HASKEY ∨ opcode = KEYS ∨ opcode = VALUES then
    opMap cfg opcode
  else if opcode = THROW ∨ opcode = THROWIFNOT then opThrow opcode
  else Op.panic

/-- What a call of `ExecuteOp` does: it returns a state and an error, with the
executor as the call leaves it, or it panics, or the model does not describe
it. -/
inductive OpResult where
  | ret (state : VMState) (err : Option VmError) (m : Executor)
  | abort
  | stuck
  deriving DecidableEq, Repr

/-- The method `Executor.ExecuteOp` on the context `self.Context`: the opcode
has been read, the instruction pointer stands behind it. -/
def Executor.ExecuteOp (cfg : Config) (self : Executor) (opcode : Byte) : OpResult :=
  match dispatch cfg opcode self with
  | .ok _ m => .ret .NONE none m
  | .fault err m => .ret .FAULT err m
  | .abort => .abort
  | .stuck => .stuck

/-- What a call of `Execute` does when it ends. -/
inductive ExecResult where
  | returned (err : Option VmError) (m : Executor)
  | abort
  | stuck
  deriving DecidableEq, Repr

/-- The loop of `Execute`, for at most `fuel` rounds; `none` when the loop has
not ended by then. -/
def Executor.loop (cfg : Config) : Nat → Executor → Option ExecResult
  | 0, _ => none
  | fuel + 1, self =>
    match self.Context with
    | none => some (.returned none self)
    | some context =>
      if self.State = .FAULT ∨ self.State = .HALT ∨ self.State = .BREAK then
        some (.returned none self)
      else
        match context.ReadOpCode with
        | none => some (.returned none self)
        | some (opcode, c) =>
          match Executor.ExecuteOp cfg { self with Context := some c } opcode with
          | .abort => some .abort
          | .stuck => some .stuck
          | .ret state err m =>
            match err with
            | some e => some (.returned (some e) { m with State := state })
            | none => Executor.loop cfg fuel { m with State := state }

/-- The method `Executor.Execute`, for at most `fuel` rounds of its loop. -/
def Executor.Execute (cfg : Config) (fuel : Nat) (self : Executor) : Option ExecResult :=
  Executor.loop cfg fuel { self with State := self.State.clearBreak }

/-- The limits and services of the tests: stacks of 1024 values, arrays of
1024 elements, hash and signature functions that return fixed values, and the
zero-based reading of `RemoveAt`; the tests do not remove from an array. -/
def testConfig : Config :=
  { lim := testLimits
    STACK_LIMIT := 1024
    MAX_ARRAY_SIZE := 1024
    RemoveAt := ArrayValue.RemoveAtZeroBased
    sha1 := fun _ => List.replicate 20 0
    sha256 := fun _ => List.replicate 32 0
    ripemd160 := fun _ => List.replicate 20 0
    DeserializePublicKey := fun _ => none
    Verify := fun _ _ _ => false }

/-- The executor of the tests: `NewExecutor(code)` with the values of `stack`
on the evaluation stack, the first one on top. -/
def testExecutor (code : List Byte) (stack : List RefValue) : Executor :=
  { NewExecutor testConfig code with EvalStack := ⟨stack, testConfig.STACK_LIMIT⟩ }

/-- The case labels of the `switch` in `ExecuteOp`. -/
def caseLabels : List Byte :=
  [PUSH0, PUSHDATA1, PUSHDATA2, PUSHDATA4, PUSHM1, PUSH1, PUSH2, PUSH3, PUSH4, PUSH5, PUSH6,
   PUSH7, PUSH8, PUSH9, PUSH10, PUSH11, PUSH12, PUSH13, PUSH14, PUSH15, PUSH16, NOP, JMP,
   JMPIF, JMPIFNOT, CALL, RET, DUPFROMALTSTACK, TOALTSTACK, FROMALTSTACK, XDROP, XSWAP, XTUCK,
   DEPTH, DROP, DUP, NIP, OVER, PICK, ROLL, ROT, SWAP, TUCK, CAT, SUBSTR, LEFT, RIGHT, SIZE,
   INVERT, AND, OR, XOR, EQUAL, INC, DEC, SIGN, NEGATE, ABS, NZ, ADD, SUB, MUL, DIV, MOD,
   MAX, MIN, SHL, SHR, NUMEQUAL, NUMNOTEQUAL, LT, GT, LTE, GTE, BOOLAND, BOOLOR, NOT, WITHIN,
   SHA1, SHA256, HASH160, HASH256, VERIFY, ARRAYSIZE, PACK, UNPACK, PICKITEM, SETITEM,
   NEWARRAY, NEWSTRUCT, NEWMAP, APPEND, REVERSE, REMOVE, HASKEY, KEYS, VALUES, THROW,
   THROWIFNOT]

/-- Whether `ExecuteOp` has a handler for the opcode: the range test before
the `switch`, or one of its case labels. -/
def hasHandler (opcode : Byte) : Bool :=
  decide (PUSHBYTES1 ≤ opcode ∧ opcode ≤ PUSHBYTES75) || caseLabels.contains opcode

/-- The part of the jump handler after the operand has been read. -/
def jumpTail (opcode : Byte) (code : List Byte) (p : Nat) (r : Int) : Op Unit :=
  if (p : Int) + r < 0 ∨ (p : Int) + r > code.length then Op.fail .ERR_FAULT
  else do
    let needJmp ←
      if opcode ≠ JMP then do
        let val ← Op.eval ValueStack.PopAsBool
        if opcode = JMPIF then pure val else pure (!val)
      else pure true
    if needJmp then
      Op.read (fun c => .ok ((), c.SetInstructionPointer ((p : Int) + r)))
    else pure ()

end neovm

namespace neovm
open types errors constants common

/-- The executor with the values `data` on its evaluation stack, the first one
on top, and everything else as in `self`. -/
def Executor.setStack (self : Executor) (data : List RefValue) : Executor :=
  { self with EvalStack := { self.EvalStack with data := data } }

/-- What `ExecuteOp` returns for the outcome of the handler: `NONE` with the
nil error after a handler that ran through, `FAULT` with the error of a
handler that failed. -/
def OpResult.ofOutcome : Outcome Unit → OpResult
  | .ok _ m => .ret .NONE none m
  | .fault err m => .ret .FAULT err m
  | .abort => .abort
  | .stuck => .stuck

/-- What an arithmetic opcode does with its result once the operands are
popped and `rest` is left: the result is pushed as an integer value, or the
opcode returns `FAULT` with the error of the operation. -/
def pushIntValue (self : Executor) (rest : List RefValue) : Except VmError IntValue → OpResult
  | .ok r => .ret .NONE none (self.setStack (RefValue.FromIntValue r :: rest))
  | .error e => .ret .FAULT (some e) (self.setStack rest)

/-- What an arithmetic opcode does with the integer `n` that it computes: `n`
is pushed, in the small representation when it fits, or the opcode returns
`FAULT` when `n` exceeds the integer size limit. -/
def pushInt (cfg : Config) (self : Executor) (rest : List RefValue) (n : Int) : OpResult :=
  pushIntValue self rest (IntValFromBigInt cfg.lim n)

end neovm

namespace types

open errors constants common

/-- Modelled from the spec: `BigIntToBytes`, which `BuildParamToNative` calls
on the length of an array and which is not among the sources: the "shortest
encoding" of the integer in little-endian two's complement
(`TestVmValue_BuildParamToNative` has `01` for the length 1). -/
def BigIntToBytes (data : Int) : List Byte := BigIntToNeoBytes data

/-- What a call of `BuildParamToNative` does: it returns an error or nil, with
the sink as the call leaves it, or it panics. -/
inductive BuildResult where
  | ret (err : Option VmError) (sink : ZeroCopySink)
  | abort
  deriving DecidableEq, Repr

mutual
/-- The method `VmValue.BuildParamToNative`. The `switch` has the cases
`bytearrayType`, `boolType`, `integerType`, `arrayType` and `structType`;
every other `valType` reaches `default: panic("unreacheable!")`. -/
def VmValue.BuildParamToNative : VmValue → ZeroCopySink → BuildResult
  | .bytearray byteArray, sink => .ret none (sink.WriteVarBytes byteArray)
  | .bool i, sink =>
    match (VmValue.bool i).AsBool with
    | .error err => .ret (some err) sink
    | .ok b => .ret none (sink.WriteBool b)
  | .integer i, sink =>
    match (VmValue.integer i).AsBytes with
    | .error err => .ret (some err) sink
    | .ok bs => .ret none (sink.WriteVarBytes bs)
  | .array data, sink =>
    buildItems data (sink.WriteVarBytes (BigIntToBytes data.length))
  | .struct data, sink => buildItems data sink
  | .bigint _, _ => .abort
  | .map _, _ => .abort
  | .interop _, _ => .abort
/-- The element loops of the `arrayType` and `structType` cases of
`BuildParamToNative`. -/
def buildItems : List VmValue → ZeroCopySink → BuildResult
  | [], sink => .ret none sink
  | v :: rest, sink =>
    match VmValue.BuildParamToNative v sink with
    | .ret none sink => buildItems rest sink
    | .ret (some err) sink => .ret (some err) sink
    | .abort => .abort
end

/-- The bytes of the string "hello". -/
def bytesHello : List Byte := [0x68, 0x65, 0x6c, 0x6c, 0x6f]

/-- The value `res` of `TestVmValue_BuildParamToNative`: an array that holds
the struct of the integer `math.MaxUint64`, the Boolean false and the bytes
"hello". -/
def buildParamTestValue : VmValue :=
  .array [.struct [.bigint 18446744073709551615, .bool 0, .bytearray bytesHello]]

end types

namespace kbucket

/-- The struct `KPId`: the identifier `KId` of a peer, of a type `KadId` that
is declared outside the sources, and its `PId`. -/
structure KPId (KadId : Type) where
  KId : KadId
  PId : Nat
  deriving DecidableEq, Repr

/-- The struct `Bucket`: the peers of its `container/list`, the front of the
list first. The lock is left out. -/
abbrev Bucket (KadId : Type) := List (KPId KadId)

/-- The method `Bucket.Has`. -/
def Bucket.Has {KadId : Type} [DecidableEq KadId] (b : Bucket KadId) (id : KadId) : Bool :=
  match b with
  | [] => false
  | curr :: rest => if curr.KId = id then true else Bucket.Has rest id

/-- The loop of `Bucket.Remove` from the element `e` on: it returns `true` at
the first peer with the identifier, and no statement of it changes the
list. -/
def Bucket.removeLoop {KadId : Type} [DecidableEq KadId] :
    List (KPId KadId) → KadId → Bool
  | [], _ => false
  | curr :: rest, id => if curr.KId = id then true else Bucket.removeLoop rest id

/-- The method `Bucket.Remove`: the returned value and the bucket after the
call. -/
def Bucket.Remove {KadId : Type} [DecidableEq KadId] (b : Bucket KadId) (id : KadId) :
    Bool × Bucket KadId :=
  (Bucket.removeLoop b id, b)

/-- The method `Bucket.Len`. -/
def Bucket.Len {KadId : Type} (b : Bucket KadId) : Int := b.length

/-- The loop of `Bucket.Split` from the element `e` on: `kept` are the peers
before `e` that stay in the list of the receiver, `out` is the new list; a
peer whose common prefix with the target is longer than `cpl` is pushed to the
back of `out` and removed from the list of the receiver. -/
def Bucket.splitLoop {KadId : Type} (CommonPrefixLen : KadId → KadId → Int) (cpl : Int)
    (target : KadId) : List (KPId KadId) → List (KPId KadId) → List (KPId KadId) →
    List (KPId KadId) × List (KPId KadId)
  | [], kept, out => (kept, out)
  | peerID :: rest, kept, out =>
    if CommonPrefixLen peerID.KId target > cpl then
      Bucket.splitLoop CommonPrefixLen cpl target rest kept (out ++ [peerID])
    else Bucket.splitLoop CommonPrefixLen cpl target rest (kept ++ [peerID]) out

/-- The method `Bucket.Split`: the receiver after the call and the returned
bucket. `CommonPrefixLen` is declared outside the sources and is a
parameter. -/
def Bucket.Split {KadId : Type} (CommonPrefixLen : KadId → KadId → Int) (b : Bucket KadId)
    (cpl : Int) (target : KadId) : Bucket KadId × Bucket KadId :=
  Bucket.splitLoop CommonPrefixLen cpl target b [] []

end kbucket

namespace shard_stake

/-- The fields of `UserPeerStakeInfo` that `isUserStakePeerEmpty` reads; the
struct is declared outside the sources. -/
structure UserPeerStakeInfo where
  StakeAmount : Nat
  UnfreezeAmount : Nat
  deriving DecidableEq, Repr

/-- The struct `UserStakeInfo`: the map `Peers` from the public key of a peer,
here a number, to its stake; `none` is the nil map, and the order of the
entries stands for one iteration order of the Go map. -/
structure UserStakeInfo where
  Peers : Option (List (Nat × UserPeerStakeInfo))
  deriving DecidableEq, Repr

/-- The loop of `isUserStakePeerEmpty` over the entries of `Peers`. -/
def stakeLoop : List (Nat × UserPeerStakeInfo) → Bool
  | [] => false
  | (_, stakeInfo) :: rest =>
    if stakeInfo.StakeAmount ≠ 0 ∨ stakeInfo.UnfreezeAmount ≠ 0 then true else stakeLoop rest

/-- The function `isUserStakePeerEmpty`. -/
def isUserStakePeerEmpty (info : UserStakeInfo) : Bool :=
  match info.Peers with
  | none => false
  | some peers => if peers.length = 0 then false else stakeLoop peers

end shard_stake

namespace types

open errors constants common

/-- A store with the Structs of Integer 1 and of Boolean true at addresses 0
and 1, and at addresses 4 and 5 two Structs that each hold one of the two
Arrays at addresses 2 and 3, both of which hold the one element 7. -/
def structEqualityStore : Store :=
  [.list [.integer 1], .list [.bool 1], .list [.integer 7], .list [.integer 7],
    .list [.array 2], .list [.array 3]]

/-- A store with two Structs of one element each, built separately: at
address 0 the Struct of `VmValueFromBytes([]byte{})`, the ByteArray of no
bytes, and at address 1 the Struct of `VmValueFromBytes(nil)`, the ByteArray
of the nil slice. -/
def nilBytesStore : Store := [.list [.bytearray []], .list [.nilbytes]]

end types

/-! ## Theorems -/

namespace types

open errors constants common

/-- C8: `AsBytes` succeeds exactly on Boolean, SmallInteger, BigInteger and
ByteArray values, and on every Array, Struct, Map and Interop value both
`AsBytes` and `AsIntValue` return the bad-type error. -/
theorem AsBytes_AsIntValue_acceptance (lim : Limits) (v : VmValue) :
    ((∃ bs, v.AsBytes = .ok bs) ↔
      (v.valType = .boolType ∨ v.valType = .integerType ∨ v.valType = .bigintType ∨
        v.valType = .bytearrayType)) ∧
    ((v.valType = .arrayType ∨ v.valType = .structType ∨ v.valType = .mapType ∨
        v.valType = .interopType) →
      v.AsBytes = .error .ERR_BAD_TYPE ∧ v.AsIntValue lim = .error .ERR_BAD_TYPE) := by
  cases v <;> simp [VmValue.AsBytes, VmValue.AsIntValue, VmValue.valType]

/-- C9: `AsBool` is "the number is non-zero" for Boolean and both integer
variants, "some byte is non-zero" for a ByteArray, `true` for every Struct and
every Map, "the handle is non-null" for Interop, and the bad-type error for
every Array. -/
theorem AsBool_table :
    (∀ i : Int, (VmValue.bool i).AsBool = .ok (decide (i ≠ 0))) ∧
    (∀ i : Int, (VmValue.integer i).AsBool = .ok (decide (i ≠ 0))) ∧
    (∀ b : Int, (VmValue.bigint b).AsBool = .ok (decide (b ≠ 0))) ∧
    (∀ bs : List Byte, (VmValue.bytearray bs).AsBool = .ok (decide (∃ b ∈ bs, b ≠ 0))) ∧
    (∀ data, (VmValue.struct data).AsBool = .ok true) ∧
    (∀ data, (VmValue.map data).AsBool = .ok true) ∧
    (∀ h : Option Nat, (VmValue.interop h).AsBool = .ok (decide (h ≠ none))) ∧
    (∀ data, (VmValue.array data).AsBool = .error .ERR_BAD_TYPE) := by
  refine ⟨fun _ => rfl, fun _ => rfl, ?_, ?_, fun _ => rfl, fun _ => rfl, fun _ => rfl,
    fun _ => rfl⟩
  · intro b
    simp [VmValue.AsBool, Int.sign_eq_zero_iff_zero]
  · intro bs
    simp [VmValue.AsBool, List.any_eq]

end types

namespace types
open errors constants common

theorem WriteVarUint_frame (sink : ZeroCopySink) (n : Nat) :
    ZeroCopySink.WriteVarUint sink n = sink ++ varUintBytes n := by
  unfold varUintBytes ZeroCopySink.WriteVarUint
  split_ifs <;> simp

theorem WriteVarBytes_frame (sink : ZeroCopySink) (bs : List Byte) :
    ZeroCopySink.WriteVarBytes sink bs = sink ++ varBytes bs := by
  unfold varBytes ZeroCopySink.WriteVarBytes
  rw [WriteVarUint_frame, WriteVarUint_frame []]
  simp

theorem varBytes_eq (bs : List Byte) :
    varBytes bs = varUintBytes (bs.length % 2 ^ 64) ++ bs := by
  unfold varBytes ZeroCopySink.WriteVarBytes
  rw [WriteVarUint_frame]
  simp

theorem serializeMapLoop_frame (lim : Limits)
    (data : List (List Byte × (ZeroCopySink → Option VmError × ZeroCopySink)))
    (hd : ∀ k f, MapValue.lookup data k = some f →
      ∀ sink, f sink = ((f []).1, sink ++ (f []).2)) :
    ∀ (keys : List (List Byte)) (sink : ZeroCopySink),
      serializeMapLoop lim data keys sink =
        ((serializeMapLoop lim data keys []).1, sink ++ (serializeMapLoop lim data keys []).2)
  | [], sink => by simp [serializeMapLoop]
  | key :: rest, sink => by
    simp only [serializeMapLoop, serializeByteArray]
    cases hk : VmValueFromBytes lim key with
    | error e => simp
    | ok kv =>
      simp only
      cases hl : MapValue.lookup data key with
      | none =>
        simp only
        rw [serializeMapLoop_frame lim data hd rest]
        conv_rhs => rw [serializeMapLoop_frame lim data hd rest]
        simp [ZeroCopySink.WriteByte, ZeroCopySink.WriteBool, WriteVarBytes_frame]
      | some f =>
        simp only
        rw [hd key f hl]
        conv_rhs => rw [hd key f hl (ZeroCopySink.WriteVarBytes _ _)]
        cases hf : (f []).1 with
        | some e =>
          simp [ZeroCopySink.WriteByte, WriteVarBytes_frame]
        | none =>
          simp only
          rw [serializeMapLoop_frame lim data hd rest]
          conv_rhs => rw [serializeMapLoop_frame lim data hd rest]
          simp [ZeroCopySink.WriteByte, WriteVarBytes_frame]

theorem lookup_serializeValues (lim : Limits) :
    ∀ (data : List (List Byte × VmValue)) (k : List Byte),
      MapValue.lookup (serializeValues lim data) k =
        (MapValue.lookup data k).map (fun v => fun sink => VmValue.Serialize lim v sink)
  | [], k => by simp [serializeValues, MapValue.lookup]
  | (k1, v) :: rest, k => by
    simp only [serializeValues, MapValue.lookup]
    split_ifs
    · simp
    · exact lookup_serializeValues lim rest k

theorem lookup_mem {α : Type} :
    ∀ (data : List (List Byte × α)) (k : List Byte) (v : α),
      MapValue.lookup data k = some v → (k, v) ∈ data
  | [], k, v, h => by simp [MapValue.lookup] at h
  | (k1, v1) :: rest, k, v, h => by
    simp only [MapValue.lookup] at h
    split_ifs at h with hk
    · simp only [Option.some.injEq] at h
      subst h; subst hk
      simp
    · exact List.mem_cons_of_mem _ (lookup_mem rest k v h)

mutual
theorem Serialize_frame (lim : Limits) : ∀ (v : VmValue) (sink : ZeroCopySink),
    VmValue.Serialize lim v sink =
      ((VmValue.Serialize lim v []).1, sink ++ (VmValue.Serialize lim v []).2)
  | .bool i, sink => by
    simp [VmValue.Serialize, VmValue.AsBool, ZeroCopySink.WriteByte, ZeroCopySink.WriteBool]
  | .integer i, sink => by
    simp [VmValue.Serialize, ZeroCopySink.WriteByte, WriteVarBytes_frame]
  | .bigint i, sink => by
    simp [VmValue.Serialize, ZeroCopySink.WriteByte, WriteVarBytes_frame]
  | .bytearray bs, sink => by
    simp [VmValue.Serialize, serializeByteArray, ZeroCopySink.WriteByte, WriteVarBytes_frame]
  | .interop h, sink => by
    simp [VmValue.Serialize]
  | .array data, sink => by
    simp only [VmValue.Serialize]
    rw [serializeItems_frame lim data]
    conv_rhs => rw [serializeItems_frame lim data]
    simp [ZeroCopySink.WriteByte, WriteVarUint_frame]
  | .struct data, sink => by
    simp only [VmValue.Serialize]
    rw [serializeItems_frame lim data]
    conv_rhs => rw [serializeItems_frame lim data]
    simp [ZeroCopySink.WriteByte, WriteVarUint_frame]
  | .map data, sink => by
    simp only [VmValue.Serialize]
    have hd := serializeValues_frame lim data
    rw [serializeMapLoop_frame lim _ hd]
    conv_rhs => rw [serializeMapLoop_frame lim _ hd]
    simp [ZeroCopySink.WriteByte, WriteVarUint_frame]
theorem serializeItems_frame (lim : Limits) : ∀ (data : List VmValue) (sink : ZeroCopySink),
    serializeItems lim data sink =
      ((serializeItems lim data []).1, sink ++ (serializeItems lim data []).2)
  | [], sink => by simp [serializeItems]
  | v :: rest, sink => by
    simp only [serializeItems]
    rw [Serialize_frame lim v]
    rcases hv : VmValue.Serialize lim v [] with ⟨_ | e, s⟩
    · simp only
      rw [serializeItems_frame lim rest]
      conv_rhs => rw [serializeItems_frame lim rest]
      simp
    · simp
theorem serializeValues_frame (lim : Limits) : ∀ (data : List (List Byte × VmValue)),
    ∀ k f, MapValue.lookup (serializeValues lim data) k = some f →
      ∀ sink, f sink = ((f []).1, sink ++ (f []).2)
  | [], k, f, h => by simp [serializeValues, MapValue.lookup] at h
  | (k1, v) :: rest, k, f, h => by
    simp only [serializeValues, MapValue.lookup] at h
    split_ifs at h with hk
    · simp only [Option.some.injEq] at h
      subst h
      intro sink
      exact Serialize_frame lim v sink
    · exact serializeValues_frame lim rest k f h
end

theorem Serialize_eq_encoding (lim : Limits) (v : VmValue) (sink : ZeroCopySink)
    (h : (VmValue.Serialize lim v []).1 = none) :
    VmValue.Serialize lim v sink = (none, sink ++ v.encoding lim) := by
  rw [Serialize_frame, h]
  rfl

theorem serializeItems_ok (lim : Limits) :
    ∀ (data : List VmValue) (sink : ZeroCopySink),
      (∀ v ∈ data, (VmValue.Serialize lim v []).1 = none) →
      serializeItems lim data sink =
        (none, sink ++ (data.map (VmValue.encoding lim)).flatten)
  | [], sink, _ => by simp [serializeItems]
  | v :: rest, sink, h => by
    simp only [serializeItems]
    rw [Serialize_eq_encoding lim v sink (h v (List.mem_cons_self _ _))]
    simp only
    rw [serializeItems_ok lim rest _ (fun w hw => h w (List.mem_cons_of_mem _ hw))]
    simp

theorem serializeMapLoop_ok (lim : Limits) (data : List (List Byte × VmValue)) :
    ∀ (keys : List (List Byte)) (sink : ZeroCopySink),
      (∀ k ∈ keys, k.length ≤ lim.MAX_BYTEARRAY_SIZE ∧
        ∃ v, MapValue.lookup data k = some v ∧ (VmValue.Serialize lim v []).1 = none) →
      serializeMapLoop lim (serializeValues lim data) keys sink =
        (none, sink ++ (keys.map (fun k => ByteArrayType :: varBytes k ++
          ((MapValue.lookup data k).getD VmValue.zero).encoding lim)).flatten)
  | [], sink, _ => by simp [serializeMapLoop]
  | key :: rest, sink, h => by
    obtain ⟨hlen, v, hv, hs⟩ := h key (List.mem_cons_self _ _)
    simp only [serializeMapLoop, serializeByteArray, VmValueFromBytes]
    rw [if_neg (by omega)]
    simp only [lookup_serializeValues, hv, Option.map_some']
    rw [Serialize_eq_encoding lim v _ hs]
    simp only
    rw [serializeMapLoop_ok lim data rest _ (fun k hk => h k (List.mem_cons_of_mem _ hk))]
    simp [ZeroCopySink.WriteByte, WriteVarBytes_frame, hv]

theorem lookup_of_mem_nodup {α : Type} :
    ∀ (data : List (List Byte × α)), (data.map Prod.fst).Nodup →
      ∀ e ∈ data, MapValue.lookup data e.1 = some e.2
  | [], _, e, he => by simp at he
  | (k1, v1) :: rest, hnd, e, he => by
    simp only [List.map_cons, List.nodup_cons] at hnd
    simp only [MapValue.lookup]
    rcases List.mem_cons.mp he with rfl | hmem
    · simp
    · have hne : k1 ≠ e.1 := by
        intro heq
        apply hnd.1
        rw [heq]
        exact List.mem_map_of_mem Prod.fst hmem
      rw [if_neg hne]
      exact lookup_of_mem_nodup rest hnd.2 e hmem

/-- The entries of a map in the order in which `Serialize` writes them. -/
theorem sortedEntries_perm (data : List (List Byte × VmValue))
    (hnd : (data.map Prod.fst).Nodup) :
    ((sortStrings (data.map Prod.fst)).map
      (fun k => (k, (MapValue.lookup data k).getD VmValue.zero))).Perm data := by
  have h1 : ((sortStrings (data.map Prod.fst)).map
      (fun k => (k, (MapValue.lookup data k).getD VmValue.zero))).Perm
      ((data.map Prod.fst).map (fun k => (k, (MapValue.lookup data k).getD VmValue.zero))) :=
    (List.perm_insertionSort _ _).map _
  have h2 : (data.map Prod.fst).map
      (fun k => (k, (MapValue.lookup data k).getD VmValue.zero)) = data := by
    rw [List.map_map]
    conv_rhs => rw [← List.map_id data]
    apply List.map_congr_left
    intro e he
    simp [lookup_of_mem_nodup data hnd e he]
  rw [h2] at h1
  exact h1

end types

namespace types
open errors constants common

theorem lookup_eq_none_iff {α : Type} :
    ∀ (data : List (List Byte × α)) (k : List Byte),
      MapValue.lookup data k = none ↔ k ∉ data.map Prod.fst
  | [], k => by simp [MapValue.lookup]
  | (k1, v1) :: rest, k => by
    simp only [MapValue.lookup, List.map_cons, List.mem_cons, not_or]
    split_ifs with h
    · simp [h]
    · rw [lookup_eq_none_iff rest k]
      constructor
      · intro h2
        exact ⟨fun h3 => h h3.symm, h2⟩
      · intro h2
        exact h2.2

theorem serializeMapLoop_congr (lim : Limits)
    (d1 d2 : List (List Byte × (ZeroCopySink → Option VmError × ZeroCopySink)))
    (h : ∀ k, MapValue.lookup d1 k = MapValue.lookup d2 k) :
    ∀ (keys : List (List Byte)) (sink : ZeroCopySink),
      serializeMapLoop lim d1 keys sink = serializeMapLoop lim d2 keys sink
  | [], sink => by simp [serializeMapLoop]
  | key :: rest, sink => by
    have ih : ∀ s, serializeMapLoop lim d1 rest s = serializeMapLoop lim d2 rest s :=
      serializeMapLoop_congr lim d1 d2 h rest
    simp only [serializeMapLoop, h key, ih]

theorem keys_perm_of_lookup_eq (m1 m2 : List (List Byte × VmValue))
    (hnd1 : (m1.map Prod.fst).Nodup) (hnd2 : (m2.map Prod.fst).Nodup)
    (hsame : ∀ k, MapValue.lookup m1 k = MapValue.lookup m2 k) :
    (m1.map Prod.fst).Perm (m2.map Prod.fst) := by
  rw [List.perm_ext_iff_of_nodup hnd1 hnd2]
  intro k
  have h1 := lookup_eq_none_iff m1 k
  have h2 := lookup_eq_none_iff m2 k
  rw [hsame k] at h1
  exact not_iff_not.mp (h1.symm.trans h2)

theorem sortStrings_perm (l1 l2 : List (List Byte)) (h : l1.Perm l2) :
    sortStrings l1 = sortStrings l2 := by
  apply List.eq_of_perm_of_sorted (r := (· ≤ ·))
  · exact ((List.perm_insertionSort _ l1).trans h).trans (List.perm_insertionSort _ l2).symm
  · exact List.sorted_insertionSort _ l1
  · exact List.sorted_insertionSort _ l2

theorem Serialize_map_congr (lim : Limits) (m1 m2 : List (List Byte × VmValue))
    (sink : ZeroCopySink)
    (hnd1 : (m1.map Prod.fst).Nodup) (hnd2 : (m2.map Prod.fst).Nodup)
    (hsame : ∀ k, MapValue.lookup m1 k = MapValue.lookup m2 k) :
    VmValue.Serialize lim (.map m1) sink = VmValue.Serialize lim (.map m2) sink := by
  have hp := keys_perm_of_lookup_eq m1 m2 hnd1 hnd2 hsame
  have hlen : m1.length = m2.length := by
    have := hp.length_eq
    simpa using this
  simp only [VmValue.Serialize]
  rw [sortStrings_perm _ _ hp, hlen]
  apply serializeMapLoop_congr
  intro k
  rw [lookup_serializeValues, lookup_serializeValues, hsame k]

theorem assign_keys (data : List (List Byte × VmValue)) (skey : List Byte) (value : VmValue) :
    (MapValue.assign data skey value).map Prod.fst =
      if skey ∈ data.map Prod.fst then data.map Prod.fst else data.map Prod.fst ++ [skey] := by
  induction data with
  | nil => simp [MapValue.assign]
  | cons e rest ih =>
    obtain ⟨k, v⟩ := e
    simp only [MapValue.assign]
    by_cases hk : k = skey
    · simp [hk]
    · have hk2 : ¬ skey = k := fun h => hk h.symm
      rw [if_neg hk]
      simp only [List.map_cons, ih, List.mem_cons, hk2, false_or]
      split_ifs <;> simp

theorem assign_nodup (data : List (List Byte × VmValue)) (skey : List Byte) (value : VmValue)
    (hnd : (data.map Prod.fst).Nodup) :
    ((MapValue.assign data skey value).map Prod.fst).Nodup := by
  rw [assign_keys]
  split_ifs with h
  · exact hnd
  · rw [List.nodup_append]
    refine ⟨hnd, List.nodup_singleton _, ?_⟩
    intro a ha hb
    simp only [List.mem_singleton] at hb
    subst hb
    exact h ha

theorem SetAll_nodup :
    ∀ (es : List (VmValue × VmValue)) (data m : List (List Byte × VmValue)),
      (data.map Prod.fst).Nodup → MapValue.SetAll data es = .ok m → (m.map Prod.fst).Nodup
  | [], data, m, hnd, h => by
    simp only [MapValue.SetAll, Except.ok.injEq] at h
    subst h
    exact hnd
  | (key, value) :: rest, data, m, hnd, h => by
    simp only [MapValue.SetAll, MapValue.Set] at h
    cases hk : key.GetMapKey with
    | error e => simp [hk] at h
    | ok skey =>
      simp only [hk] at h
      exact SetAll_nodup rest _ m (assign_nodup data skey value hnd) h

/-- C2: two maps filled by `Set` calls in any two orders that end up holding
the same key/value entries are serialized to the same bytes. -/
theorem Serialize_map_insertion_order (lim : Limits) (es1 es2 : List (VmValue × VmValue))
    (m1 m2 : List (List Byte × VmValue)) (sink : ZeroCopySink)
    (h1 : MapValue.SetAll [] es1 = .ok m1) (h2 : MapValue.SetAll [] es2 = .ok m2)
    (hsame : ∀ k, MapValue.lookup m1 k = MapValue.lookup m2 k) :
    VmValue.Serialize lim (.map m1) sink = VmValue.Serialize lim (.map m2) sink :=
  Serialize_map_congr lim m1 m2 sink (SetAll_nodup es1 [] m1 (by simp) h1)
    (SetAll_nodup es2 [] m2 (by simp) h2) hsame

end types

namespace types
open errors constants common

/-- C2 at two maps filled with the same two entries in opposite orders. -/
theorem Serialize_map_insertion_order_witness :
    MapValue.SetAll [] [(.bytearray bytesKey, .integer 1), (.integer 100, .bool 1)] =
        .ok [(bytesKey, .integer 1), ([0x64], .bool 1)] ∧
      MapValue.SetAll [] [(.integer 100, .bool 1), (.bytearray bytesKey, .integer 1)] =
        .ok [([0x64], .bool 1), (bytesKey, .integer 1)] ∧
      VmValue.Serialize testLimits (.map [(bytesKey, .integer 1), ([0x64], .bool 1)]) [] =
        VmValue.Serialize testLimits (.map [([0x64], .bool 1), (bytesKey, .integer 1)]) [] :=
  ⟨rfl, rfl,
    Serialize_map_insertion_order testLimits
      [(.bytearray bytesKey, .integer 1), (.integer 100, .bool 1)]
      [(.integer 100, .bool 1), (.bytearray bytesKey, .integer 1)] _ _ [] rfl rfl
      (by
        intro k
        simp only [MapValue.lookup]
        by_cases h1 : bytesKey = k
        · subst h1
          simp [bytesKey]
        · simp [h1])⟩

/-- C5: `Serialize` of an Array (tag `0x80`) or Struct (tag `0x81`) whose
elements all serialize writes the tag, the element count as a variable-length
unsigned integer and then the encodings of the elements in index order, and
nothing else; the container `["test", true, 1000, 100]` of the tests gives the
bytes `810400047465737401010202e803020164` as a Struct and
`800400047465737401010202e803020164` as an Array. -/
theorem Serialize_array_struct_layout :
    (∀ (lim : Limits) (data : List VmValue) (sink : ZeroCopySink),
      data.length < 2 ^ 64 → (∀ v ∈ data, (VmValue.Serialize lim v []).1 = none) →
      VmValue.Serialize lim (.array data) sink =
          (none, sink ++ ((0x80 : Byte) :: varUintBytes data.length ++
            (data.map (VmValue.encoding lim)).flatten)) ∧
        VmValue.Serialize lim (.struct data) sink =
          (none, sink ++ ((0x81 : Byte) :: varUintBytes data.length ++
            (data.map (VmValue.encoding lim)).flatten))) ∧
    (∃ items, generateItems = .ok items ∧
      generateStructValue = .ok (.struct items) ∧ generateArrayValue = .ok (.array items) ∧
      VmValue.Serialize testLimits (.struct items) [] =
        (none, [0x81, 0x04, 0x00, 0x04, 0x74, 0x65, 0x73, 0x74, 0x01, 0x01, 0x02, 0x02, 0xe8,
          0x03, 0x02, 0x01, 0x64]) ∧
      VmValue.Serialize testLimits (.array items) [] =
        (none, [0x80, 0x04, 0x00, 0x04, 0x74, 0x65, 0x73, 0x74, 0x01, 0x01, 0x02, 0x02, 0xe8,
          0x03, 0x02, 0x01, 0x64])) := by
  refine ⟨?_, ⟨[.bytearray bytesTest, .bool 1, .integer 1000, .integer 100],
    rfl, rfl, rfl, by decide, by decide⟩⟩
  intro lim data sink hlen hser
  have hmod : data.length % 2 ^ 64 = data.length := Nat.mod_eq_of_lt hlen
  constructor
  · simp only [VmValue.Serialize]
    rw [serializeItems_ok lim data _ hser, hmod]
    simp [ZeroCopySink.WriteByte, WriteVarUint_frame, ArrayType]
  · simp only [VmValue.Serialize]
    rw [serializeItems_ok lim data _ hser, hmod]
    simp [ZeroCopySink.WriteByte, WriteVarUint_frame, StructType]

/-- C5 at the two-element container `[true, 1000]` written after one byte. -/
theorem Serialize_array_struct_layout_witness :
    ([VmValue.bool 1, VmValue.integer 1000].length < 2 ^ 64 ∧
      ∀ v ∈ [VmValue.bool 1, VmValue.integer 1000],
        (VmValue.Serialize testLimits v []).1 = none) ∧
    (VmValue.Serialize testLimits (.array [.bool 1, .integer 1000]) [0x07] =
        (none, [0x07] ++ ((0x80 : Byte) :: varUintBytes 2 ++
          ([VmValue.bool 1, VmValue.integer 1000].map (VmValue.encoding testLimits)).flatten)) ∧
      VmValue.Serialize testLimits (.struct [.bool 1, .integer 1000]) [0x07] =
        (none, [0x07] ++ ((0x81 : Byte) :: varUintBytes 2 ++
          ([VmValue.bool 1, VmValue.integer 1000].map
            (VmValue.encoding testLimits)).flatten))) :=
  have hs : ∀ v ∈ [VmValue.bool 1, VmValue.integer 1000],
      (VmValue.Serialize testLimits v []).1 = none := by
    intro v hv
    simp only [List.mem_cons, List.mem_singleton, List.not_mem_nil, or_false] at hv
    rcases hv with rfl | rfl <;> rfl
  ⟨⟨by decide, hs⟩,
    Serialize_array_struct_layout.1 testLimits [.bool 1, .integer 1000] [0x07] (by decide) hs⟩

/-- C3: `Serialize` of a Map whose keys fit a ByteArray and whose values all
serialize writes the Map tag, the entry count as a variable-length unsigned
integer, and then the entries of the map in strictly ascending order of their
key byte strings, each as the ByteArray encoding of the key (ByteArray tag,
length-prefixed key bytes) followed by the encoding of the value; the map
`{"key" -> 9923372036854775807}` gives `820100036b65790209ffffc58e4ae6b68900`. -/
theorem Serialize_map_layout :
    (∀ (lim : Limits) (data : List (List Byte × VmValue)) (sink : ZeroCopySink),
      (data.map Prod.fst).Nodup → data.length < 2 ^ 64 →
      (∀ e ∈ data, e.1.length ≤ lim.MAX_BYTEARRAY_SIZE ∧
        (VmValue.Serialize lim e.2 []).1 = none) →
      ∃ entries : List (List Byte × VmValue),
        entries.Perm data ∧ (entries.map Prod.fst).Sorted (fun a b => a < b) ∧
        VmValue.Serialize lim (.map data) sink =
          (none, sink ++ ((0x82 : Byte) :: varUintBytes data.length ++
            (entries.map (fun e =>
              (0x00 : Byte) :: varBytes e.1 ++ e.2.encoding lim)).flatten))) ∧
    (∃ val_b m, VmValueFromBigInt testLimits 9923372036854775807 = .ok val_b ∧
      MapValue.Set [] (.bytearray bytesKey) val_b = .ok m ∧
      VmValue.Serialize testLimits (.map m) [] =
        (none, [0x82, 0x01, 0x00, 0x03, 0x6b, 0x65, 0x79, 0x02, 0x09, 0xff, 0xff, 0xc5, 0x8e,
          0x4a, 0xe6, 0xb6, 0x89, 0x00])) := by
  refine ⟨?_, ⟨.bigint 9923372036854775807, [(bytesKey, .bigint 9923372036854775807)],
    rfl, rfl, by decide⟩⟩
  intro lim data sink hnd hlen hser
  refine ⟨(sortStrings (data.map Prod.fst)).map
    (fun k => (k, (MapValue.lookup data k).getD VmValue.zero)), sortedEntries_perm data hnd,
    ?_, ?_⟩
  · rw [List.map_map]
    have : (Prod.fst ∘ fun k : List Byte => (k, (MapValue.lookup data k).getD VmValue.zero)) = id :=
      rfl
    rw [this, List.map_id]
    exact (List.sorted_insertionSort (fun a b : List Byte => a ≤ b) _).lt_of_le
      (((List.perm_insertionSort _ _).nodup_iff).mpr hnd)
  · have hmod : data.length % 2 ^ 64 = data.length := Nat.mod_eq_of_lt hlen
    simp only [VmValue.Serialize]
    rw [serializeMapLoop_ok lim data, hmod]
    · simp [ZeroCopySink.WriteByte, WriteVarUint_frame, MapType, ByteArrayType, List.map_map,
        Function.comp_def]
    · intro k hk
      have hk2 : k ∈ data.map Prod.fst := (List.perm_insertionSort _ _).subset hk
      obtain ⟨e, he, rfl⟩ := List.mem_map.mp hk2
      exact ⟨(hser e he).1, e.2, lookup_of_mem_nodup data hnd e he, (hser e he).2⟩

/-- C3 at the two-entry map `{"test" -> true, [0x64] -> 1000}`. -/
theorem Serialize_map_layout_witness :
    (([(bytesTest, VmValue.bool 1), ([0x64], VmValue.integer 1000)].map Prod.fst).Nodup ∧
      [(bytesTest, VmValue.bool 1), ([0x64], VmValue.integer 1000)].length < 2 ^ 64 ∧
      ∀ e ∈ [(bytesTest, VmValue.bool 1), ([0x64], VmValue.integer 1000)],
        e.1.length ≤ testLimits.MAX_BYTEARRAY_SIZE ∧
          (VmValue.Serialize testLimits e.2 []).1 = none) ∧
    ∃ entries : List (List Byte × VmValue),
      entries.Perm [(bytesTest, VmValue.bool 1), ([0x64], VmValue.integer 1000)] ∧
      (entries.map Prod.fst).Sorted (fun a b => a < b) ∧
      VmValue.Serialize testLimits
          (.map [(bytesTest, VmValue.bool 1), ([0x64], VmValue.integer 1000)]) [] =
        (none, [] ++ ((0x82 : Byte) :: varUintBytes 2 ++
          (entries.map (fun e =>
            (0x00 : Byte) :: varBytes e.1 ++ e.2.encoding testLimits)).flatten)) :=
  have hs : ∀ e ∈ [(bytesTest, VmValue.bool 1), ([0x64], VmValue.integer 1000)],
      e.1.length ≤ testLimits.MAX_BYTEARRAY_SIZE ∧
        (VmValue.Serialize testLimits e.2 []).1 = none := by
    intro e he
    simp only [List.mem_cons, List.mem_singleton, List.not_mem_nil, or_false] at he
    rcases he with rfl | rfl
    · exact ⟨by decide, rfl⟩
    · exact ⟨by decide, rfl⟩
  ⟨⟨by decide, by decide, hs⟩,
    Serialize_map_layout.1 testLimits _ [] (by decide) (by decide) hs⟩

/-- C4 (the code at the test input): the map of `generateMapValue` is
serialized with every key under the ByteArray tag `00`, the key set from the
integer 100 as `00 01 64`, so the output differs from the bytes that
`TestSerialize` expects, which start `82 03 02 01 64`. -/
theorem Serialize_generateMapValue :
    ∃ m, generateMapValue = .ok (.map m) ∧
      VmValue.Serialize testLimits (.map m) [] =
        (none, [0x82, 0x03,
          0x00, 0x01, 0x64, 0x01, 0x01,
          0x00, 0x04, 0x74, 0x65, 0x73, 0x74,
          0x80, 0x04, 0x00, 0x04, 0x74, 0x65, 0x73, 0x74, 0x01, 0x01, 0x02, 0x02, 0xe8, 0x03,
          0x02, 0x01, 0x64,
          0x00, 0x02, 0xe8, 0x03,
          0x81, 0x04, 0x00, 0x04, 0x74, 0x65, 0x73, 0x74, 0x01, 0x01, 0x02, 0x02, 0xe8, 0x03,
          0x02, 0x01, 0x64]) ∧
      (VmValue.Serialize testLimits (.map m) []).2 ≠
        [0x82, 0x03,
          0x02, 0x01, 0x64, 0x01, 0x01,
          0x00, 0x04, 0x74, 0x65, 0x73, 0x74,
          0x80, 0x04, 0x00, 0x04, 0x74, 0x65, 0x73, 0x74, 0x01, 0x01, 0x02, 0x02, 0xe8, 0x03,
          0x02, 0x01, 0x64,
          0x02, 0x02, 0xe8, 0x03,
          0x81, 0x04, 0x00, 0x04, 0x74, 0x65, 0x73, 0x74, 0x01, 0x01, 0x02, 0x02, 0xe8, 0x03,
          0x02, 0x01, 0x64] :=
  ⟨[(bytesTest, .array [.bytearray bytesTest, .bool 1, .integer 1000, .integer 100]),
    ([0xe8, 0x03], .struct [.bytearray bytesTest, .bool 1, .integer 1000, .integer 100]),
    ([0x64], .bool 1)], rfl, by decide, by decide⟩

end types

namespace types
open errors constants common

theorem byteOf_val (n : Nat) : (byteOf n).val = n % 256 := rfl

theorem BigIntFromNeoBytes_cons (b : Byte) (rest : List Byte) (h : rest ≠ []) :
    BigIntFromNeoBytes (b :: rest) = (b.val : Int) + 256 * BigIntFromNeoBytes rest := by
  cases rest with
  | nil => exact absurd rfl h
  | cons b2 bs => rfl

theorem neoBytesAux_ne_nil (fuel : Nat) (n : Int) : neoBytesAux (fuel + 1) n ≠ [] := by
  simp only [neoBytesAux]
  split_ifs <;> simp

theorem lowByte_val (n : Int) : (((byteOf (n % 256).toNat).val : Nat) : Int) = n % 256 := by
  rw [byteOf_val]
  omega

theorem BigIntFromNeoBytes_neoBytesAux :
    ∀ (fuel : Nat) (n : Int), n.natAbs ≤ fuel → 1 ≤ fuel →
      BigIntFromNeoBytes (neoBytesAux fuel n) = n
  | 0, _, _, h => by omega
  | fuel + 1, n, hn, _ => by
    simp only [neoBytesAux]
    split_ifs with hr
    · simp only [BigIntFromNeoBytes]
      have hb := lowByte_val n
      split_ifs with h128
      · omega
      · omega
    · have hf : 1 ≤ fuel := by omega
      obtain ⟨f, rfl⟩ : ∃ f, fuel = f + 1 := ⟨fuel - 1, by omega⟩
      rw [BigIntFromNeoBytes_cons _ _ (neoBytesAux_ne_nil f _)]
      rw [BigIntFromNeoBytes_neoBytesAux (f + 1) (n / 256) (by omega) hf, lowByte_val]
      omega

theorem BigIntFromNeoBytes_BigIntToNeoBytes (n : Int) :
    BigIntFromNeoBytes (BigIntToNeoBytes n) = n := by
  unfold BigIntToNeoBytes
  split_ifs with h
  · subst h
    rfl
  · exact BigIntFromNeoBytes_neoBytesAux _ n (le_refl _) (by omega)

theorem BigIntFromNeoBytes_range :
    ∀ (bs : List Byte), bs ≠ [] →
      -(128 * 256 ^ (bs.length - 1) : Int) ≤ BigIntFromNeoBytes bs ∧
        BigIntFromNeoBytes bs < 128 * 256 ^ (bs.length - 1)
  | [], h => absurd rfl h
  | [b], _ => by
    simp only [BigIntFromNeoBytes, List.length_singleton, Nat.sub_self, pow_zero, mul_one]
    have := b.isLt
    split_ifs <;> omega
  | b :: b2 :: bs, _ => by
    have ih := BigIntFromNeoBytes_range (b2 :: bs) (by simp)
    rw [BigIntFromNeoBytes_cons _ _ (by simp)]
    have hb := b.isLt
    simp only [List.length_cons, Nat.add_sub_cancel] at ih ⊢
    rw [pow_succ]
    generalize (256 : Int) ^ bs.length = P at ih ⊢
    generalize BigIntFromNeoBytes (b2 :: bs) = x at ih ⊢
    omega

theorem neoBytesAux_length :
    ∀ (k fuel : Nat) (n : Int), -(128 * 256 ^ k : Int) ≤ n → n < 128 * 256 ^ k →
      (neoBytesAux fuel n).length ≤ k + 1
  | _, 0, _, _, _ => by simp [neoBytesAux]
  | 0, fuel + 1, n, h1, h2 => by
    simp only [neoBytesAux]
    rw [if_pos (by simpa using And.intro h1 h2)]
    simp
  | k + 1, fuel + 1, n, h1, h2 => by
    simp only [neoBytesAux]
    split_ifs with hr
    · simp
    · simp only [List.length_cons, Nat.add_le_add_iff_right]
      rw [pow_succ] at h1 h2
      apply neoBytesAux_length k fuel (n / 256)
      · generalize (256 : Int) ^ k = P at h1 h2 ⊢
        omega
      · generalize (256 : Int) ^ k = P at h1 h2 ⊢
        omega

theorem BigIntToNeoBytes_shortest (n : Int) (bs : List Byte) (h : BigIntFromNeoBytes bs = n) :
    (BigIntToNeoBytes n).length ≤ bs.length := by
  cases bs with
  | nil =>
    simp only [BigIntFromNeoBytes] at h
    subst h
    simp [BigIntToNeoBytes]
  | cons b rest =>
    have hr := BigIntFromNeoBytes_range (b :: rest) (by simp)
    rw [h] at hr
    unfold BigIntToNeoBytes
    split_ifs
    · simp
    · have := neoBytesAux_length (b :: rest).length.pred n.natAbs n (by simpa using hr.1)
        (by simpa using hr.2)
      simpa using this

end types

namespace types
open errors constants common

theorem BigIntFromNeoBytes_eq_twosComplement :
    ∀ bs : List Byte, BigIntFromNeoBytes bs = twosComplement bs
  | [] => rfl
  | [b] => by
    simp only [BigIntFromNeoBytes, twosComplement, List.getLast?_singleton, leNat,
      List.length_singleton, pow_one]
    split_ifs <;> omega
  | b :: b2 :: bs => by
    have ih := BigIntFromNeoBytes_eq_twosComplement (b2 :: bs)
    rw [BigIntFromNeoBytes_cons _ _ (by simp), ih]
    simp only [twosComplement, List.getLast?_cons_cons]
    cases h : (b2 :: bs).getLast? with
    | none => simp at h
    | some top =>
      simp only [leNat, List.length_cons]
      split_ifs
      · push_cast
        ring
      · push_cast
        ring

/-- C10: for every integer `n` within the integer size limit, `AsBytes` of the
integer value `n` is a little-endian two's-complement encoding of `n` that no
other such encoding of `n` is shorter than, and `AsIntValue` of those bytes as
a ByteArray is the result of `AsIntValue` on the integer value itself; 1000
gives `e8 03`, 100 gives `64` and 9923372036854775807 gives
`ff ff c5 8e 4a e6 b6 89 00`. -/
theorem AsBytes_shortest_twos_complement :
    (∀ (lim : Limits) (n : Int), n.natAbs < 256 ^ lim.MAX_INT_SIZE →
      ∃ v bs, VmValueFromBigInt lim n = .ok v ∧ v.AsBytes = .ok bs ∧
        twosComplement bs = n ∧
        (∀ bs2, twosComplement bs2 = n → bs.length ≤ bs2.length) ∧
        (VmValue.bytearray bs).AsIntValue lim = v.AsIntValue lim ∧
        v.AsIntValue lim = .ok (if IsInt64 n then .small n else .big n)) ∧
    (VmValueFromBigInt testLimits 1000 = .ok (.integer 1000) ∧
      (VmValue.integer 1000).AsBytes = .ok [0xe8, 0x03]) ∧
    (VmValueFromUint64 100 = .integer 100 ∧ (VmValue.integer 100).AsBytes = .ok [0x64]) ∧
    (VmValueFromBigInt testLimits 9923372036854775807 = .ok (.bigint 9923372036854775807) ∧
      (VmValue.bigint 9923372036854775807).AsBytes =
        .ok [0xff, 0xff, 0xc5, 0x8e, 0x4a, 0xe6, 0xb6, 0x89, 0x00]) := by
  refine ⟨?_, ⟨rfl, congrArg Except.ok (by decide)⟩, ⟨rfl, congrArg Except.ok (by decide)⟩,
    ⟨rfl, congrArg Except.ok (by decide)⟩⟩
  intro lim n hn
  have hlim : ¬ 256 ^ lim.MAX_INT_SIZE ≤ n.natAbs := by omega
  have hdec : twosComplement (BigIntToNeoBytes n) = n := by
    rw [← BigIntFromNeoBytes_eq_twosComplement]
    exact BigIntFromNeoBytes_BigIntToNeoBytes n
  have hshort : ∀ bs2, twosComplement bs2 = n → (BigIntToNeoBytes n).length ≤ bs2.length := by
    intro bs2 h2
    rw [← BigIntFromNeoBytes_eq_twosComplement] at h2
    exact BigIntToNeoBytes_shortest n bs2 h2
  by_cases h64 : IsInt64 n = true
  · refine ⟨.integer n, BigIntToNeoBytes n, ?_, rfl, hdec, hshort, ?_, ?_⟩
    · simp [VmValueFromBigInt, IntValFromBigInt, hlim, h64, VmValueFromIntValue]
    · simp [VmValue.AsIntValue, IntValFromNeoBytes, IntValFromBigInt, IntValFromInt,
        BigIntFromNeoBytes_BigIntToNeoBytes, hlim, h64]
    · simp [VmValue.AsIntValue, IntValFromInt, h64]
  · refine ⟨.bigint n, BigIntToNeoBytes n, ?_, rfl, hdec, hshort, ?_, ?_⟩
    · simp [VmValueFromBigInt, IntValFromBigInt, hlim, h64, VmValueFromIntValue]
    · simp [VmValue.AsIntValue, IntValFromNeoBytes, IntValFromBigInt,
        BigIntFromNeoBytes_BigIntToNeoBytes, hlim, h64]
    · simp [VmValue.AsIntValue, IntValFromBigInt, hlim, h64]

/-- C10 at the integer -129 under the test limits. -/
theorem AsBytes_shortest_twos_complement_witness :
    (-129 : Int).natAbs < 256 ^ testLimits.MAX_INT_SIZE ∧
    ∃ v bs, VmValueFromBigInt testLimits (-129) = .ok v ∧ v.AsBytes = .ok bs ∧
      twosComplement bs = -129 ∧
      (∀ bs2, twosComplement bs2 = -129 → bs.length ≤ bs2.length) ∧
      (VmValue.bytearray bs).AsIntValue testLimits = v.AsIntValue testLimits ∧
      v.AsIntValue testLimits = .ok (if IsInt64 (-129) then .small (-129) else .big (-129)) :=
  ⟨by decide, AsBytes_shortest_twos_complement.1 testLimits (-129) (by decide)⟩

end types

namespace types
open errors constants common

/-! ### Reading from a source -/

theorem NextBytes_append (s t : ZeroCopySource) (n : Nat) (d : List Byte) (r : ZeroCopySource)
    (h : ZeroCopySource.NextBytes s n = some (d, r)) :
    ZeroCopySource.NextBytes (s ++ t) n = some (d, r ++ t) := by
  unfold ZeroCopySource.NextBytes at h ⊢
  split_ifs at h with hlt
  simp only [Option.some.injEq, Prod.mk.injEq] at h
  have hle : n ≤ s.length := by omega
  rw [if_neg (by simp only [List.length_append]; omega)]
  rw [List.take_append_of_le_length hle, List.drop_append_of_le_length hle, h.1, h.2]

theorem NextBytes_length (s : ZeroCopySource) (n : Nat) (d : List Byte) (r : ZeroCopySource)
    (h : ZeroCopySource.NextBytes s n = some (d, r)) :
    r.length + n = s.length ∧ d.length = n := by
  unfold ZeroCopySource.NextBytes at h
  split_ifs at h with hlt
  simp only [Option.some.injEq, Prod.mk.injEq] at h
  rw [← h.1, ← h.2]
  simp only [List.length_drop, List.length_take]
  omega

theorem NextBytes_exact (d rest : List Byte) :
    ZeroCopySource.NextBytes (d ++ rest) d.length = some (d, rest) := by
  unfold ZeroCopySource.NextBytes
  rw [if_neg (by simp)]
  simp

theorem NextVarUint_append (s t : ZeroCopySource) (n : Nat) (irr : Bool) (r : ZeroCopySource)
    (h : ZeroCopySource.NextVarUint s = some (n, irr, r)) :
    ZeroCopySource.NextVarUint (s ++ t) = some (n, irr, r ++ t) := by
  cases s with
  | nil => simp [ZeroCopySource.NextVarUint] at h
  | cons fb rest =>
    simp only [ZeroCopySource.NextVarUint, List.cons_append] at h ⊢
    split_ifs at h ⊢ with h1 h2 h3
    · cases hb : ZeroCopySource.NextBytes rest 2 with
      | none => simp [hb] at h
      | some p =>
        obtain ⟨bs, r2⟩ := p
        rw [NextBytes_append rest t 2 bs r2 hb]
        simp only [hb, Option.some.injEq, Prod.mk.injEq] at h ⊢
        obtain ⟨h1, h2, h3⟩ := h
        exact ⟨h1, h2, by rw [h3]⟩
    · cases hb : ZeroCopySource.NextBytes rest 4 with
      | none => simp [hb] at h
      | some p =>
        obtain ⟨bs, r2⟩ := p
        rw [NextBytes_append rest t 4 bs r2 hb]
        simp only [hb, Option.some.injEq, Prod.mk.injEq] at h ⊢
        obtain ⟨h1, h2, h3⟩ := h
        exact ⟨h1, h2, by rw [h3]⟩
    · cases hb : ZeroCopySource.NextBytes rest 8 with
      | none => simp [hb] at h
      | some p =>
        obtain ⟨bs, r2⟩ := p
        rw [NextBytes_append rest t 8 bs r2 hb]
        simp only [hb, Option.some.injEq, Prod.mk.injEq] at h ⊢
        obtain ⟨h1, h2, h3⟩ := h
        exact ⟨h1, h2, by rw [h3]⟩
    · simp only [Option.some.injEq, Prod.mk.injEq] at h ⊢
      obtain ⟨h1, h2, h3⟩ := h
      exact ⟨h1, h2, by rw [h3]⟩

theorem NextVarUint_length (s : ZeroCopySource) (n : Nat) (irr : Bool) (r : ZeroCopySource)
    (h : ZeroCopySource.NextVarUint s = some (n, irr, r)) : r.length < s.length := by
  cases s with
  | nil => simp [ZeroCopySource.NextVarUint] at h
  | cons fb rest =>
    simp only [ZeroCopySource.NextVarUint] at h
    split_ifs at h with h1 h2 h3
    · cases hb : ZeroCopySource.NextBytes rest 2 with
      | none => simp [hb] at h
      | some p =>
        obtain ⟨bs, r2⟩ := p
        have := NextBytes_length rest 2 bs r2 hb
        simp only [hb, Option.some.injEq, Prod.mk.injEq] at h
        rw [← h.2.2]
        simp only [List.length_cons]
        omega
    · cases hb : ZeroCopySource.NextBytes rest 4 with
      | none => simp [hb] at h
      | some p =>
        obtain ⟨bs, r2⟩ := p
        have := NextBytes_length rest 4 bs r2 hb
        simp only [hb, Option.some.injEq, Prod.mk.injEq] at h
        rw [← h.2.2]
        simp only [List.length_cons]
        omega
    · cases hb : ZeroCopySource.NextBytes rest 8 with
      | none => simp [hb] at h
      | some p =>
        obtain ⟨bs, r2⟩ := p
        have := NextBytes_length rest 8 bs r2 hb
        simp only [hb, Option.some.injEq, Prod.mk.injEq] at h
        rw [← h.2.2]
        simp only [List.length_cons]
        omega
    · simp only [Option.some.injEq, Prod.mk.injEq] at h
      rw [← h.2.2]
      simp

theorem NextVarBytes_append (s t : ZeroCopySource) (d : List Byte) (irr : Bool)
    (r : ZeroCopySource) (h : ZeroCopySource.NextVarBytes s = some (d, irr, r)) :
    ZeroCopySource.NextVarBytes (s ++ t) = some (d, irr, r ++ t) := by
  unfold ZeroCopySource.NextVarBytes at h ⊢
  cases hu : ZeroCopySource.NextVarUint s with
  | none => simp [hu] at h
  | some p =>
    obtain ⟨count, irr2, r1⟩ := p
    rw [NextVarUint_append s t count irr2 r1 hu]
    simp only [hu] at h ⊢
    cases hb : ZeroCopySource.NextBytes r1 count with
    | none => simp [hb] at h
    | some q =>
      obtain ⟨d2, r2⟩ := q
      rw [NextBytes_append r1 t count d2 r2 hb]
      simp only [hb, Option.some.injEq, Prod.mk.injEq] at h ⊢
      obtain ⟨h1, h2, h3⟩ := h
      exact ⟨h1, h2, by rw [h3]⟩

theorem NextVarBytes_length (s : ZeroCopySource) (d : List Byte) (irr : Bool)
    (r : ZeroCopySource) (h : ZeroCopySource.NextVarBytes s = some (d, irr, r)) :
    r.length < s.length := by
  unfold ZeroCopySource.NextVarBytes at h
  cases hu : ZeroCopySource.NextVarUint s with
  | none => simp [hu] at h
  | some p =>
    obtain ⟨count, irr2, r1⟩ := p
    have hl := NextVarUint_length s count irr2 r1 hu
    simp only [hu] at h
    cases hb : ZeroCopySource.NextBytes r1 count with
    | none => simp [hb] at h
    | some q =>
      obtain ⟨d2, r2⟩ := q
      have := NextBytes_length r1 count d2 r2 hb
      simp only [hb, Option.some.injEq, Prod.mk.injEq] at h
      rw [← h.2.2]
      omega

theorem NextBool_append (s t : ZeroCopySource) (b irr : Bool) (r : ZeroCopySource)
    (h : ZeroCopySource.NextBool s = some (b, irr, r)) :
    ZeroCopySource.NextBool (s ++ t) = some (b, irr, r ++ t) := by
  cases s with
  | nil => simp [ZeroCopySource.NextBool] at h
  | cons fb rest =>
    simp only [ZeroCopySource.NextBool, List.cons_append] at h ⊢
    split_ifs at h ⊢ <;>
    · simp only [Option.some.injEq, Prod.mk.injEq] at h ⊢
      obtain ⟨h1, h2, h3⟩ := h
      exact ⟨h1, h2, by rw [h3]⟩

theorem NextBool_length (s : ZeroCopySource) (b irr : Bool) (r : ZeroCopySource)
    (h : ZeroCopySource.NextBool s = some (b, irr, r)) : r.length < s.length := by
  cases s with
  | nil => simp [ZeroCopySource.NextBool] at h
  | cons fb rest =>
    simp only [ZeroCopySource.NextBool] at h
    split_ifs at h <;>
    · simp only [Option.some.injEq, Prod.mk.injEq] at h
      rw [← h.2.2]
      simp

theorem leNat_leBytes : ∀ (w n : Nat), leNat (leBytes w n) = n % 256 ^ w
  | 0, n => by simp [leNat, leBytes, Nat.mod_one]
  | w + 1, n => by
    simp only [leBytes, leNat, byteOf_val, leNat_leBytes w (n / 256)]
    rw [pow_succ, mul_comm (256 ^ w) 256, Nat.mod_mul]

theorem leBytes_length : ∀ (w n : Nat), (leBytes w n).length = w
  | 0, _ => rfl
  | w + 1, n => by simp [leBytes, leBytes_length w]

theorem NextVarUint_varUintBytes (n : Nat) (hn : n < 2 ^ 64) (rest : List Byte) :
    ZeroCopySource.NextVarUint (varUintBytes n ++ rest) = some (n, false, rest) := by
  unfold varUintBytes ZeroCopySink.WriteVarUint
  split_ifs with h1 h2 h3
  · simp only [List.nil_append, List.singleton_append, ZeroCopySource.NextVarUint, byteOf_val]
    have hm : n % 256 = n := Nat.mod_eq_of_lt (by omega)
    have e1 : ¬ n = 253 := by omega
    have e2 : ¬ n = 254 := by omega
    have e3 : ¬ n = 255 := by omega
    simp [hm, e1, e2, e3, getVarUintSize, h1]
  · have hb := NextBytes_exact (leBytes 2 n) rest
    rw [leBytes_length] at hb
    simp only [List.nil_append, List.cons_append, ZeroCopySource.NextVarUint]
    rw [if_pos (by decide), hb]
    have hm : n % 65536 = n := Nat.mod_eq_of_lt (by omega)
    simp [leNat_leBytes, hm, getVarUintSize, h1, h2]
  · have hb := NextBytes_exact (leBytes 4 n) rest
    rw [leBytes_length] at hb
    simp only [List.nil_append, List.cons_append, ZeroCopySource.NextVarUint]
    rw [if_neg (by decide), if_pos (by decide), hb]
    have hm : n % 4294967296 = n := Nat.mod_eq_of_lt (by omega)
    simp [leNat_leBytes, hm, getVarUintSize, h1, h2, h3]
  · have hb := NextBytes_exact (leBytes 8 n) rest
    rw [leBytes_length] at hb
    simp only [List.nil_append, List.cons_append, ZeroCopySource.NextVarUint]
    rw [if_neg (by decide), if_neg (by decide), if_pos (by decide), hb]
    have hm : n % 18446744073709551616 = n := Nat.mod_eq_of_lt (by omega)
    simp [leNat_leBytes, hm, getVarUintSize, h1, h2, h3]

theorem NextVarBytes_varBytes (bs : List Byte) (hn : bs.length < 2 ^ 64) (rest : List Byte) :
    ZeroCopySource.NextVarBytes (varBytes bs ++ rest) = some (bs, false, rest) := by
  rw [varBytes_eq, Nat.mod_eq_of_lt hn, List.append_assoc]
  unfold ZeroCopySource.NextVarBytes
  rw [NextVarUint_varUintBytes _ hn]
  simp only
  rw [NextBytes_exact]

end types

namespace types
open errors constants common

/-! ### Decoding always returns -/

theorem deserializeItems_zero (lim : Limits) (fuel : Nat) (s : ZeroCopySource)
    (acc : List VmValue) : deserializeItems lim fuel 0 s acc = some (.ok (acc, s)) := by
  cases fuel <;> simp [deserializeItems]

theorem deserializeEntries_zero (lim : Limits) (fuel : Nat) (s : ZeroCopySource)
    (acc : List (List Byte × VmValue)) :
    deserializeEntries lim fuel 0 s acc = some (.ok (acc, s)) := by
  cases fuel <;> simp [deserializeEntries]

theorem NextByte_eq (s : ZeroCopySource) (t : Byte) (s1 : ZeroCopySource)
    (h : ZeroCopySource.NextByte s = some (t, s1)) : s = t :: s1 := by
  cases s with
  | nil => simp [ZeroCopySource.NextByte] at h
  | cons b rest =>
    simp only [ZeroCopySource.NextByte, Option.some.injEq, Prod.mk.injEq] at h
    rw [h.1, h.2]

theorem DecodeOk_error (self : VmValue) (s : ZeroCopySource) (e : VmError) :
    DecodeOk self s (some (self, .error e)) :=
  ⟨_, rfl, fun _ _ => rfl, fun _ h => by simp at h⟩

theorem DecodeOk_ok (self v : VmValue) (s s2 : ZeroCopySource) (h : s2.length < s.length) :
    DecodeOk self s (some (v, .ok s2)) :=
  ⟨_, rfl, fun _ h => by simp at h, fun s3 h3 => by
    simp only [Except.ok.injEq] at h3
    rw [← h3]
    exact h⟩

theorem DeserializeFuel_step_ok (lim : Limits) (fuel : Nat)
    (hI : ∀ n s acc, (n = 0 ∨ s.length + 2 ≤ fuel) → LoopOk s (deserializeItems lim fuel n s acc))
    (hE : ∀ n s acc, (n = 0 ∨ s.length + 2 ≤ fuel) →
      LoopOk s (deserializeEntries lim fuel n s acc))
    (self : VmValue) (s : ZeroCopySource) (hs : s.length < fuel + 1) :
    DecodeOk self s (VmValue.DeserializeFuel lim (fuel + 1) self s) := by
  simp only [VmValue.DeserializeFuel]
  cases hb : ZeroCopySource.NextByte s with
  | none => exact DecodeOk_error _ _ _
  | some p =>
    obtain ⟨t, s1⟩ := p
    have hs1 := NextByte_eq s t s1 hb
    subst hs1
    simp only [List.length_cons] at hs
    simp only
    split_ifs
    · -- Boolean
      cases hn : ZeroCopySource.NextBool s1 with
      | none => exact DecodeOk_error _ _ _
      | some q =>
        obtain ⟨b, irr, s2⟩ := q
        have := NextBool_length s1 b irr s2 hn
        simp only
        split_ifs
        · exact DecodeOk_error _ _ _
        · exact DecodeOk_ok _ _ _ _ (by simp only [List.length_cons]; omega)
    · -- ByteArray
      cases hn : ZeroCopySource.NextVarBytes s1 with
      | none => exact DecodeOk_error _ _ _
      | some q =>
        obtain ⟨d, irr, s2⟩ := q
        have := NextVarBytes_length s1 d irr s2 hn
        simp only
        split_ifs
        · exact DecodeOk_error _ _ _
        · cases VmValueFromBytes lim d with
          | error e => exact DecodeOk_error _ _ _
          | ok v => exact DecodeOk_ok _ _ _ _ (by simp only [List.length_cons]; omega)
    · -- Integer
      cases hn : ZeroCopySource.NextVarBytes s1 with
      | none => exact DecodeOk_error _ _ _
      | some q =>
        obtain ⟨d, irr, s2⟩ := q
        have := NextVarBytes_length s1 d irr s2 hn
        simp only
        split_ifs
        · exact DecodeOk_error _ _ _
        · cases VmValueFromBigInt lim (BigIntFromNeoBytes d) with
          | error e => exact DecodeOk_error _ _ _
          | ok v => exact DecodeOk_ok _ _ _ _ (by simp only [List.length_cons]; omega)
    · -- Array
      cases hn : ZeroCopySource.NextVarUint s1 with
      | none => exact DecodeOk_error _ _ _
      | some q =>
        obtain ⟨l, irr, s2⟩ := q
        have := NextVarUint_length s1 l irr s2 hn
        simp only
        split_ifs
        · exact DecodeOk_error _ _ _
        · obtain ⟨r, hr, hlen⟩ := hI (loopCount l) s2 [] (Or.inr (by omega))
          rw [hr]
          rcases r with e | ⟨arr, s3⟩
          · exact DecodeOk_error _ _ _
          · have := hlen arr s3 rfl
            exact DecodeOk_ok _ _ _ _ (by simp only [List.length_cons]; omega)
    · -- Map
      cases hn : ZeroCopySource.NextVarUint s1 with
      | none => exact DecodeOk_error _ _ _
      | some q =>
        obtain ⟨l, irr, s2⟩ := q
        have := NextVarUint_length s1 l irr s2 hn
        simp only
        split_ifs
        · exact DecodeOk_error _ _ _
        · obtain ⟨r, hr, hlen⟩ := hE (loopCount l) s2 [] (Or.inr (by omega))
          rw [hr]
          rcases r with e | ⟨arr, s3⟩
          · exact DecodeOk_error _ _ _
          · have := hlen arr s3 rfl
            exact DecodeOk_ok _ _ _ _ (by simp only [List.length_cons]; omega)
    · -- Struct
      cases hn : ZeroCopySource.NextVarUint s1 with
      | none => exact DecodeOk_error _ _ _
      | some q =>
        obtain ⟨l, irr, s2⟩ := q
        have := NextVarUint_length s1 l irr s2 hn
        simp only
        split_ifs
        · exact DecodeOk_error _ _ _
        · obtain ⟨r, hr, hlen⟩ := hI (loopCount l) s2 [] (Or.inr (by omega))
          rw [hr]
          rcases r with e | ⟨arr, s3⟩
          · exact DecodeOk_error _ _ _
          · have := hlen arr s3 rfl
            exact DecodeOk_ok _ _ _ _ (by simp only [List.length_cons]; omega)
    · exact DecodeOk_error _ _ _

theorem deserializeItems_step_ok (lim : Limits) (fuel : Nat)
    (hD : ∀ self s, s.length < fuel → DecodeOk self s (VmValue.DeserializeFuel lim fuel self s))
    (hI : ∀ n s acc, (n = 0 ∨ s.length + 2 ≤ fuel) → LoopOk s (deserializeItems lim fuel n s acc))
    (n : Nat) (s : ZeroCopySource) (acc : List VmValue) (h : n = 0 ∨ s.length + 2 ≤ fuel + 1) :
    LoopOk s (deserializeItems lim (fuel + 1) n s acc) := by
  cases n with
  | zero =>
    rw [deserializeItems_zero]
    exact ⟨_, rfl, fun a s2 h2 => by
      simp only [Except.ok.injEq, Prod.mk.injEq] at h2
      rw [h2.2]⟩
  | succ n =>
    have hlen : s.length < fuel := by omega
    simp only [deserializeItems]
    obtain ⟨r, hr, _, hok⟩ := hD VmValue.zero s hlen
    rw [hr]
    obtain ⟨v, res⟩ := r
    rcases res with e | s2
    · exact ⟨_, rfl, fun a s2 h2 => by simp at h2⟩
    · have h2 := hok s2 rfl
      obtain ⟨r2, hr2, hlen2⟩ := hI n s2 (Append acc v) (Or.inr (by omega))
      simp only
      rw [hr2]
      exact ⟨_, rfl, fun a s3 h3 => by
        have := hlen2 a s3 h3
        omega⟩

theorem deserializeEntries_step_ok (lim : Limits) (fuel : Nat)
    (hD : ∀ self s, s.length < fuel → DecodeOk self s (VmValue.DeserializeFuel lim fuel self s))
    (hE : ∀ n s acc, (n = 0 ∨ s.length + 2 ≤ fuel) →
      LoopOk s (deserializeEntries lim fuel n s acc))
    (n : Nat) (s : ZeroCopySource) (acc : List (List Byte × VmValue))
    (h : n = 0 ∨ s.length + 2 ≤ fuel + 1) :
    LoopOk s (deserializeEntries lim (fuel + 1) n s acc) := by
  cases n with
  | zero =>
    rw [deserializeEntries_zero]
    exact ⟨_, rfl, fun a s2 h2 => by
      simp only [Except.ok.injEq, Prod.mk.injEq] at h2
      rw [h2.2]⟩
  | succ n =>
    have hlen : s.length < fuel := by omega
    simp only [deserializeEntries]
    obtain ⟨r, hr, _, hok⟩ := hD VmValue.zero s hlen
    rw [hr]
    obtain ⟨k, res⟩ := r
    rcases res with e | s2
    · exact ⟨_, rfl, fun a s2 h2 => by simp at h2⟩
    · have h2 := hok s2 rfl
      obtain ⟨r1, hr1, _, hok1⟩ := hD VmValue.zero s2 (by omega)
      simp only
      rw [hr1]
      obtain ⟨v, res1⟩ := r1
      rcases res1 with e | s3
      · exact ⟨_, rfl, fun a s2 h2 => by simp at h2⟩
      · have h3 := hok1 s3 rfl
        obtain ⟨r2, hr2, hlen2⟩ := hE n s3 (MapValue.SetIgnoreErr acc k v) (Or.inr (by omega))
        simp only
        rw [hr2]
        exact ⟨_, rfl, fun a s4 h4 => by
          have := hlen2 a s4 h4
          omega⟩

theorem DeserializeFuel_ok_all (lim : Limits) : ∀ fuel : Nat,
    (∀ self s, s.length < fuel → DecodeOk self s (VmValue.DeserializeFuel lim fuel self s)) ∧
    (∀ n s acc, (n = 0 ∨ s.length + 2 ≤ fuel) →
      LoopOk s (deserializeItems lim fuel n s acc)) ∧
    (∀ n s acc, (n = 0 ∨ s.length + 2 ≤ fuel) →
      LoopOk s (deserializeEntries lim fuel n s acc))
  | 0 => by
    refine ⟨fun _ s h => absurd h (Nat.not_lt_zero _), ?_, ?_⟩
    · intro n s acc h
      have hn : n = 0 := by omega
      subst hn
      rw [deserializeItems_zero]
      exact ⟨_, rfl, fun a s2 h2 => by
        simp only [Except.ok.injEq, Prod.mk.injEq] at h2
        rw [h2.2]⟩
    · intro n s acc h
      have hn : n = 0 := by omega
      subst hn
      rw [deserializeEntries_zero]
      exact ⟨_, rfl, fun a s2 h2 => by
        simp only [Except.ok.injEq, Prod.mk.injEq] at h2
        rw [h2.2]⟩
  | fuel + 1 => by
    obtain ⟨hD, hI, hE⟩ := DeserializeFuel_ok_all lim fuel
    exact ⟨DeserializeFuel_step_ok lim fuel hI hE,
      deserializeItems_step_ok lim fuel hD hI,
      deserializeEntries_step_ok lim fuel hD hE⟩

theorem Deserialize_ok (lim : Limits) (self : VmValue) (s : ZeroCopySource) :
    DecodeOk self s (VmValue.Deserialize lim self s) :=
  (DeserializeFuel_ok_all lim (s.length + 1)).1 self s (Nat.lt_succ_self _)

end types

namespace types
open errors constants common

/-! ### More nested calls allowed never change a result -/

theorem DeserializeFuel_step_mono (lim : Limits) (fuel : Nat)
    (hI : ∀ n s acc r, deserializeItems lim fuel n s acc = some r →
      deserializeItems lim (fuel + 1) n s acc = some r)
    (hE : ∀ n s acc r, deserializeEntries lim fuel n s acc = some r →
      deserializeEntries lim (fuel + 1) n s acc = some r)
    (self : VmValue) (s : ZeroCopySource) (r : VmValue × Except VmError ZeroCopySource)
    (h : VmValue.DeserializeFuel lim (fuel + 1) self s = some r) :
    VmValue.DeserializeFuel lim (fuel + 1 + 1) self s = some r := by
  simp only [VmValue.DeserializeFuel] at h ⊢
  generalize ZeroCopySource.NextByte s = o at h ⊢
  rcases o with _ | ⟨t, s1⟩
  · exact h
  · simp only at h ⊢
    split_ifs at h ⊢
    · exact h
    · exact h
    · exact h
    · generalize ZeroCopySource.NextVarUint s1 = o at h ⊢
      rcases o with _ | ⟨l, irr, s2⟩
      · exact h
      · simp only at h ⊢
        split_ifs at h ⊢
        · exact h
        · cases hi : deserializeItems lim fuel (loopCount l) s2 [] with
          | none => rw [hi] at h; simp at h
          | some x => rw [hi] at h; rw [hI _ _ _ _ hi]; exact h
    · generalize ZeroCopySource.NextVarUint s1 = o at h ⊢
      rcases o with _ | ⟨l, irr, s2⟩
      · exact h
      · simp only at h ⊢
        split_ifs at h ⊢
        · exact h
        · cases hi : deserializeEntries lim fuel (loopCount l) s2 [] with
          | none => rw [hi] at h; simp at h
          | some x => rw [hi] at h; rw [hE _ _ _ _ hi]; exact h
    · generalize ZeroCopySource.NextVarUint s1 = o at h ⊢
      rcases o with _ | ⟨l, irr, s2⟩
      · exact h
      · simp only at h ⊢
        split_ifs at h ⊢
        · exact h
        · cases hi : deserializeItems lim fuel (loopCount l) s2 [] with
          | none => rw [hi] at h; simp at h
          | some x => rw [hi] at h; rw [hI _ _ _ _ hi]; exact h
    · exact h

theorem DeserializeFuel_mono_all (lim : Limits) : ∀ fuel : Nat,
    (∀ self s r, VmValue.DeserializeFuel lim fuel self s = some r →
      VmValue.DeserializeFuel lim (fuel + 1) self s = some r) ∧
    (∀ n s acc r, deserializeItems lim fuel n s acc = some r →
      deserializeItems lim (fuel + 1) n s acc = some r) ∧
    (∀ n s acc r, deserializeEntries lim fuel n s acc = some r →
      deserializeEntries lim (fuel + 1) n s acc = some r)
  | 0 => by
    refine ⟨fun self s r h => by simp [VmValue.DeserializeFuel] at h, ?_, ?_⟩
    · intro n s acc r h
      cases n with
      | zero => rw [deserializeItems_zero] at h ⊢; exact h
      | succ n => simp [deserializeItems] at h
    · intro n s acc r h
      cases n with
      | zero => rw [deserializeEntries_zero] at h ⊢; exact h
      | succ n => simp [deserializeEntries] at h
  | fuel + 1 => by
    obtain ⟨hD, hI, hE⟩ := DeserializeFuel_mono_all lim fuel
    refine ⟨DeserializeFuel_step_mono lim fuel hI hE, ?_, ?_⟩
    · intro n s acc r h
      cases n with
      | zero => rw [deserializeItems_zero] at h ⊢; exact h
      | succ n =>
        simp only [deserializeItems] at h ⊢
        cases hd : VmValue.DeserializeFuel lim fuel VmValue.zero s with
        | none => rw [hd] at h; simp at h
        | some x =>
          rw [hd] at h
          rw [hD _ _ _ hd]
          obtain ⟨v, res⟩ := x
          rcases res with e | s2
          · exact h
          · exact hI _ _ _ _ h
    · intro n s acc r h
      cases n with
      | zero => rw [deserializeEntries_zero] at h ⊢; exact h
      | succ n =>
        simp only [deserializeEntries] at h ⊢
        cases hd : VmValue.DeserializeFuel lim fuel VmValue.zero s with
        | none => rw [hd] at h; simp at h
        | some x =>
          rw [hd] at h
          rw [hD _ _ _ hd]
          obtain ⟨k, res⟩ := x
          rcases res with e | s2
          · exact h
          · simp only at h ⊢
            cases hd2 : VmValue.DeserializeFuel lim fuel VmValue.zero s2 with
            | none => rw [hd2] at h; simp at h
            | some y =>
              rw [hd2] at h
              rw [hD _ _ _ hd2]
              obtain ⟨v, res2⟩ := y
              rcases res2 with e | s3
              · exact h
              · exact hE _ _ _ _ h

theorem DeserializeFuel_mono (lim : Limits) (f1 f2 : Nat) (hle : f1 ≤ f2) (self : VmValue)
    (s : ZeroCopySource) (r : VmValue × Except VmError ZeroCopySource)
    (h : VmValue.DeserializeFuel lim f1 self s = some r) :
    VmValue.DeserializeFuel lim f2 self s = some r := by
  induction hle with
  | refl => exact h
  | step _ ih => exact (DeserializeFuel_mono_all lim _).1 _ _ _ ih

theorem deserializeItems_mono (lim : Limits) (f1 f2 : Nat) (hle : f1 ≤ f2) (n : Nat)
    (s : ZeroCopySource) (acc : List VmValue) (r : Except VmError (List VmValue × ZeroCopySource))
    (h : deserializeItems lim f1 n s acc = some r) :
    deserializeItems lim f2 n s acc = some r := by
  induction hle with
  | refl => exact h
  | step _ ih => exact (DeserializeFuel_mono_all lim _).2.1 _ _ _ _ ih

theorem deserializeEntries_mono (lim : Limits) (f1 f2 : Nat) (hle : f1 ≤ f2) (n : Nat)
    (s : ZeroCopySource) (acc : List (List Byte × VmValue))
    (r : Except VmError (List (List Byte × VmValue) × ZeroCopySource))
    (h : deserializeEntries lim f1 n s acc = some r) :
    deserializeEntries lim f2 n s acc = some r := by
  induction hle with
  | refl => exact h
  | step _ ih => exact (DeserializeFuel_mono_all lim _).2.2 _ _ _ _ ih

/-! ### A successful decoding does not look at the bytes that follow -/

theorem DeserializeFuel_step_append (lim : Limits) (fuel : Nat) (t : List Byte)
    (hI : ∀ n s acc arr r, deserializeItems lim fuel n s acc = some (.ok (arr, r)) →
      deserializeItems lim fuel n (s ++ t) acc = some (.ok (arr, r ++ t)))
    (hE : ∀ n s acc m r, deserializeEntries lim fuel n s acc = some (.ok (m, r)) →
      deserializeEntries lim fuel n (s ++ t) acc = some (.ok (m, r ++ t)))
    (self : VmValue) (s : ZeroCopySource) (v : VmValue) (r : ZeroCopySource)
    (h : VmValue.DeserializeFuel lim (fuel + 1) self s = some (v, .ok r)) :
    VmValue.DeserializeFuel lim (fuel + 1) self (s ++ t) = some (v, .ok (r ++ t)) := by
  cases s with
  | nil => simp [VmValue.DeserializeFuel, ZeroCopySource.NextByte] at h
  | cons t0 s1 =>
    simp only [VmValue.DeserializeFuel, ZeroCopySource.NextByte, List.cons_append] at h ⊢
    split_ifs at h ⊢
    · cases hn : ZeroCopySource.NextBool s1 with
      | none => simp [hn] at h
      | some q =>
        obtain ⟨b, irr, s2⟩ := q
        rw [NextBool_append s1 t b irr s2 hn]
        simp only [hn] at h ⊢
        split_ifs at h ⊢
        · simp at h
        · simp only [Option.some.injEq, Prod.mk.injEq, Except.ok.injEq] at h ⊢
          exact ⟨h.1, by rw [h.2]⟩
    · cases hn : ZeroCopySource.NextVarBytes s1 with
      | none => simp [hn] at h
      | some q =>
        obtain ⟨d, irr, s2⟩ := q
        rw [NextVarBytes_append s1 t d irr s2 hn]
        simp only [hn] at h ⊢
        split_ifs at h ⊢
        · simp at h
        · cases hv : VmValueFromBytes lim d with
          | error e => simp [hv] at h
          | ok w =>
            simp only [hv, Option.some.injEq, Prod.mk.injEq, Except.ok.injEq] at h ⊢
            exact ⟨h.1, by rw [h.2]⟩
    · cases hn : ZeroCopySource.NextVarBytes s1 with
      | none => simp [hn] at h
      | some q =>
        obtain ⟨d, irr, s2⟩ := q
        rw [NextVarBytes_append s1 t d irr s2 hn]
        simp only [hn] at h ⊢
        split_ifs at h ⊢
        · simp at h
        · cases hv : VmValueFromBigInt lim (BigIntFromNeoBytes d) with
          | error e => simp [hv] at h
          | ok w =>
            simp only [hv, Option.some.injEq, Prod.mk.injEq, Except.ok.injEq] at h ⊢
            exact ⟨h.1, by rw [h.2]⟩
    · cases hn : ZeroCopySource.NextVarUint s1 with
      | none => simp [hn] at h
      | some q =>
        obtain ⟨l, irr, s2⟩ := q
        rw [NextVarUint_append s1 t l irr s2 hn]
        simp only [hn] at h ⊢
        split_ifs at h ⊢
        · simp at h
        · cases hi : deserializeItems lim fuel (loopCount l) s2 [] with
          | none => simp [hi] at h
          | some x =>
            rcases x with e | ⟨arr, s3⟩
            · simp [hi] at h
            · rw [hI _ _ _ _ _ hi]
              simp only [hi, Option.some.injEq, Prod.mk.injEq, Except.ok.injEq] at h ⊢
              exact ⟨h.1, by rw [h.2]⟩
    · cases hn : ZeroCopySource.NextVarUint s1 with
      | none => simp [hn] at h
      | some q =>
        obtain ⟨l, irr, s2⟩ := q
        rw [NextVarUint_append s1 t l irr s2 hn]
        simp only [hn] at h ⊢
        split_ifs at h ⊢
        · simp at h
        · cases hi : deserializeEntries lim fuel (loopCount l) s2 [] with
          | none => simp [hi] at h
          | some x =>
            rcases x with e | ⟨arr, s3⟩
            · simp [hi] at h
            · rw [hE _ _ _ _ _ hi]
              simp only [hi, Option.some.injEq, Prod.mk.injEq, Except.ok.injEq] at h ⊢
              exact ⟨h.1, by rw [h.2]⟩
    · cases hn : ZeroCopySource.NextVarUint s1 with
      | none => simp [hn] at h
      | some q =>
        obtain ⟨l, irr, s2⟩ := q
        rw [NextVarUint_append s1 t l irr s2 hn]
        simp only [hn] at h ⊢
        split_ifs at h ⊢
        · simp at h
        · cases hi : deserializeItems lim fuel (loopCount l) s2 [] with
          | none => simp [hi] at h
          | some x =>
            rcases x with e | ⟨arr, s3⟩
            · simp [hi] at h
            · rw [hI _ _ _ _ _ hi]
              simp only [hi, Option.some.injEq, Prod.mk.injEq, Except.ok.injEq] at h ⊢
              exact ⟨h.1, by rw [h.2]⟩
    · simp at h

theorem DeserializeFuel_append_all (lim : Limits) (t : List Byte) : ∀ fuel : Nat,
    (∀ self s v r, VmValue.DeserializeFuel lim fuel self s = some (v, .ok r) →
      VmValue.DeserializeFuel lim fuel self (s ++ t) = some (v, .ok (r ++ t))) ∧
    (∀ n s acc arr r, deserializeItems lim fuel n s acc = some (.ok (arr, r)) →
      deserializeItems lim fuel n (s ++ t) acc = some (.ok (arr, r ++ t))) ∧
    (∀ n s acc m r, deserializeEntries lim fuel n s acc = some (.ok (m, r)) →
      deserializeEntries lim fuel n (s ++ t) acc = some (.ok (m, r ++ t)))
  | 0 => by
    refine ⟨fun self s v r h => by simp [VmValue.DeserializeFuel] at h, ?_, ?_⟩
    · intro n s acc arr r h
      cases n with
      | zero =>
        rw [deserializeItems_zero] at h ⊢
        simp only [Option.some.injEq, Except.ok.injEq, Prod.mk.injEq] at h ⊢
        exact ⟨h.1, by rw [h.2]⟩
      | succ n => simp [deserializeItems] at h
    · intro n s acc m r h
      cases n with
      | zero =>
        rw [deserializeEntries_zero] at h ⊢
        simp only [Option.some.injEq, Except.ok.injEq, Prod.mk.injEq] at h ⊢
        exact ⟨h.1, by rw [h.2]⟩
      | succ n => simp [deserializeEntries] at h
  | fuel + 1 => by
    obtain ⟨hD, hI, hE⟩ := DeserializeFuel_append_all lim t fuel
    refine ⟨DeserializeFuel_step_append lim fuel t hI hE, ?_, ?_⟩
    · intro n s acc arr r h
      cases n with
      | zero =>
        rw [deserializeItems_zero] at h ⊢
        simp only [Option.some.injEq, Except.ok.injEq, Prod.mk.injEq] at h ⊢
        exact ⟨h.1, by rw [h.2]⟩
      | succ n =>
        simp only [deserializeItems] at h ⊢
        cases hd : VmValue.DeserializeFuel lim fuel VmValue.zero s with
        | none => rw [hd] at h; simp at h
        | some x =>
          rw [hd] at h
          obtain ⟨v, res⟩ := x
          rcases res with e | s2
          · simp at h
          · rw [hD _ _ _ _ hd]
            exact hI _ _ _ _ _ h
    · intro n s acc m r h
      cases n with
      | zero =>
        rw [deserializeEntries_zero] at h ⊢
        simp only [Option.some.injEq, Except.ok.injEq, Prod.mk.injEq] at h ⊢
        exact ⟨h.1, by rw [h.2]⟩
      | succ n =>
        simp only [deserializeEntries] at h ⊢
        cases hd : VmValue.DeserializeFuel lim fuel VmValue.zero s with
        | none => rw [hd] at h; simp at h
        | some x =>
          rw [hd] at h
          obtain ⟨k, res⟩ := x
          rcases res with e | s2
          · simp at h
          · rw [hD _ _ _ _ hd]
            simp only at h ⊢
            cases hd2 : VmValue.DeserializeFuel lim fuel VmValue.zero s2 with
            | none => rw [hd2] at h; simp at h
            | some y =>
              rw [hd2] at h
              obtain ⟨v, res2⟩ := y
              rcases res2 with e | s3
              · simp at h
              · rw [hD _ _ _ _ hd2]
                exact hE _ _ _ _ _ h

end types

namespace types
open errors constants common

/-! ### Decoding an encoding -/

theorem loopCount_eq (l : Nat) (h : l < 2 ^ 63) : loopCount l = l := by
  unfold loopCount
  rw [if_pos h]

theorem encoding_bool (lim : Limits) (i : Int) :
    (VmValue.bool i).encoding lim = [BooleanType, if i ≠ 0 then 1 else 0] := by
  simp [VmValue.encoding, VmValue.Serialize, VmValue.AsBool, ZeroCopySink.WriteByte,
    ZeroCopySink.WriteBool]

theorem encoding_integer (lim : Limits) (i : Int) :
    (VmValue.integer i).encoding lim = IntegerType :: varBytes (BigIntToNeoBytes i) := by
  simp [VmValue.encoding, VmValue.Serialize, ZeroCopySink.WriteByte, WriteVarBytes_frame]

theorem encoding_bigint (lim : Limits) (i : Int) :
    (VmValue.bigint i).encoding lim = IntegerType :: varBytes (BigIntToNeoBytes i) := by
  simp [VmValue.encoding, VmValue.Serialize, ZeroCopySink.WriteByte, WriteVarBytes_frame]

theorem encoding_bytearray (lim : Limits) (bs : List Byte) :
    (VmValue.bytearray bs).encoding lim = ByteArrayType :: varBytes bs := by
  simp [VmValue.encoding, VmValue.Serialize, serializeByteArray, ZeroCopySink.WriteByte,
    WriteVarBytes_frame]

theorem BigIntToNeoBytes_length_le (k : Nat) (n : Int) (h : n.natAbs < 256 ^ k) :
    (BigIntToNeoBytes n).length ≤ k + 1 := by
  unfold BigIntToNeoBytes
  split_ifs
  · simp
  · apply neoBytesAux_length k
    · have h1 : (n.natAbs : Int) < 256 ^ k := by exact_mod_cast h
      have h2 : (0 : Int) < 256 ^ k := by positivity
      omega
    · have h1 : (n.natAbs : Int) < 256 ^ k := by exact_mod_cast h
      have h2 : (0 : Int) < 256 ^ k := by positivity
      omega

theorem RoundTrips_bool (lim : Limits) (i : Int) (h : i = 0 ∨ i = 1) :
    RoundTrips lim (.bool i) := by
  refine ⟨by simp [VmValue.Serialize, VmValue.AsBool], fun self rest => ⟨1, ?_⟩⟩
  rw [encoding_bool]
  rcases h with rfl | rfl <;>
    simp [VmValue.DeserializeFuel, ZeroCopySource.NextByte, ZeroCopySource.NextBool,
      BooleanType, VmValueFromBool, VmValue.decoded]

theorem RoundTrips_bytearray (lim : Limits) (bs : List Byte)
    (h1 : bs.length ≤ lim.MAX_BYTEARRAY_SIZE) (h2 : bs.length < 2 ^ 63) :
    RoundTrips lim (.bytearray bs) := by
  refine ⟨by simp [VmValue.Serialize, serializeByteArray], fun self rest => ⟨1, ?_⟩⟩
  rw [encoding_bytearray]
  have hv := NextVarBytes_varBytes bs (by omega) rest
  simp only [VmValue.DeserializeFuel, ZeroCopySource.NextByte, List.cons_append]
  rw [if_neg (by decide), if_pos trivial, hv]
  simp [VmValueFromBytes, VmValue.decoded, Nat.not_lt.mpr h1]

theorem RoundTrips_int (lim : Limits) (hlim : lim.MAX_INT_SIZE < 2 ^ 63) (n : Int)
    (hn : n.natAbs < 256 ^ lim.MAX_INT_SIZE) (v : VmValue)
    (hv : v = .integer n ∧ IsInt64 n = true ∨ v = .bigint n ∧ IsInt64 n = false) :
    RoundTrips lim v := by
  have hlen : (BigIntToNeoBytes n).length < 2 ^ 64 := by
    have := BigIntToNeoBytes_length_le _ n hn
    omega
  have hb := fun rest => NextVarBytes_varBytes (BigIntToNeoBytes n) hlen rest
  have hnl : ¬ 256 ^ lim.MAX_INT_SIZE ≤ n.natAbs := by omega
  rcases hv with ⟨rfl, h64⟩ | ⟨rfl, h64⟩
  · refine ⟨by simp [VmValue.Serialize], fun self rest => ⟨1, ?_⟩⟩
    rw [encoding_integer]
    simp only [VmValue.DeserializeFuel, ZeroCopySource.NextByte, List.cons_append]
    rw [if_neg (by decide), if_neg (by decide), if_pos trivial, hb]
    simp [VmValueFromBigInt, IntValFromBigInt, BigIntFromNeoBytes_BigIntToNeoBytes, hnl, h64,
      VmValueFromIntValue, VmValue.decoded]
  · refine ⟨by simp [VmValue.Serialize], fun self rest => ⟨1, ?_⟩⟩
    rw [encoding_bigint]
    simp only [VmValue.DeserializeFuel, ZeroCopySource.NextByte, List.cons_append]
    rw [if_neg (by decide), if_neg (by decide), if_pos trivial, hb]
    simp [VmValueFromBigInt, IntValFromBigInt, BigIntFromNeoBytes_BigIntToNeoBytes, hnl, h64,
      VmValueFromIntValue, VmValue.decoded]

theorem deserializeItems_encodings (lim : Limits) :
    ∀ (data : List VmValue), (∀ v ∈ data, RoundTrips lim v) →
      ∀ (acc : List VmValue) (rest : List Byte), ∃ fuel,
        deserializeItems lim fuel data.length
          ((data.map (VmValue.encoding lim)).flatten ++ rest) acc =
          some (.ok (acc ++ decodedList data, rest))
  | [], _, acc, rest => ⟨0, by simp [deserializeItems_zero, decodedList]⟩
  | v :: data, h, acc, rest => by
    obtain ⟨f1, h1⟩ := (h v (List.mem_cons_self _ _)).2 VmValue.zero
      ((data.map (VmValue.encoding lim)).flatten ++ rest)
    obtain ⟨f2, h2⟩ := deserializeItems_encodings lim data
      (fun w hw => h w (List.mem_cons_of_mem _ hw)) (Append acc v.decoded) rest
    refine ⟨max f1 f2 + 1, ?_⟩
    simp only [List.length_cons, List.map_cons, List.flatten_cons, List.append_assoc,
      deserializeItems]
    rw [DeserializeFuel_mono lim f1 _ (le_max_left _ _) _ _ _ h1]
    simp only
    rw [deserializeItems_mono lim f2 _ (le_max_right _ _) _ _ _ _ h2]
    simp [decodedList, Append]

theorem assign_append (data : List (List Byte × VmValue)) (skey : List Byte) (value : VmValue)
    (h : skey ∉ data.map Prod.fst) :
    MapValue.assign data skey value = data ++ [(skey, value)] := by
  induction data with
  | nil => rfl
  | cons e rest ih =>
    obtain ⟨k, v⟩ := e
    simp only [List.map_cons, List.mem_cons, not_or] at h
    simp only [MapValue.assign]
    rw [if_neg (fun hk => h.1 hk.symm), ih h.2]
    rfl

theorem deserializeEntries_encodings (lim : Limits) (data : List (List Byte × VmValue)) :
    ∀ (ks : List (List Byte)), ks.Nodup →
      (∀ k ∈ ks, k.length ≤ lim.MAX_BYTEARRAY_SIZE ∧ k.length < 2 ^ 63 ∧
        ∃ v, MapValue.lookup data k = some v ∧ RoundTrips lim v) →
      ∀ (acc : List (List Byte × VmValue)) (rest : List Byte),
        (∀ k ∈ ks, k ∉ acc.map Prod.fst) →
        ∃ fuel, deserializeEntries lim fuel ks.length
          ((ks.map (fun k => ByteArrayType :: varBytes k ++
            ((MapValue.lookup data k).getD VmValue.zero).encoding lim)).flatten ++ rest) acc =
          some (.ok (acc ++ ks.map (fun k =>
            (k, ((MapValue.lookup data k).getD VmValue.zero).decoded)), rest))
  | [], _, _, acc, rest, _ => ⟨0, by simp [deserializeEntries_zero]⟩
  | k :: ks, hnd, h, acc, rest, hacc => by
    obtain ⟨hk1, hk2, v, hv, hrt⟩ := h k (List.mem_cons_self _ _)
    rw [List.nodup_cons] at hnd
    have hstream : ((k :: ks).map (fun k => ByteArrayType :: varBytes k ++
          ((MapValue.lookup data k).getD VmValue.zero).encoding lim)).flatten ++ rest =
        (ByteArrayType :: varBytes k) ++ (v.encoding lim ++
          ((ks.map (fun k => ByteArrayType :: varBytes k ++
            ((MapValue.lookup data k).getD VmValue.zero).encoding lim)).flatten ++ rest)) := by
      simp [hv]
    have hres : acc ++ (k :: ks).map (fun k =>
          (k, ((MapValue.lookup data k).getD VmValue.zero).decoded)) =
        (acc ++ [(k, v.decoded)]) ++ ks.map (fun k =>
          (k, ((MapValue.lookup data k).getD VmValue.zero).decoded)) := by
      simp [hv]
    rw [hstream, hres]
    obtain ⟨f2, h2⟩ := deserializeEntries_encodings lim data ks hnd.2
      (fun w hw => h w (List.mem_cons_of_mem _ hw)) (acc ++ [(k, v.decoded)]) rest
      (by
        intro w hw
        simp only [List.map_append, List.map_cons, List.map_nil, List.mem_append,
          List.mem_singleton, not_or]
        refine ⟨hacc w (List.mem_cons_of_mem _ hw), ?_⟩
        intro hwk
        subst hwk
        exact hnd.1 hw)
    generalize (ks.map (fun k => ByteArrayType :: varBytes k ++
      ((MapValue.lookup data k).getD VmValue.zero).encoding lim)).flatten ++ rest = tail
      at h2 ⊢
    generalize (acc ++ [(k, v.decoded)]) ++ ks.map (fun k =>
      (k, ((MapValue.lookup data k).getD VmValue.zero).decoded)) = result at h2 ⊢
    have hkey := (RoundTrips_bytearray lim k hk1 hk2).2 VmValue.zero
    rw [encoding_bytearray] at hkey
    obtain ⟨f0, h0⟩ := hkey (v.encoding lim ++ tail)
    obtain ⟨f1, h1⟩ := hrt.2 VmValue.zero tail
    have hset : MapValue.SetIgnoreErr acc (.bytearray k) v.decoded = acc ++ [(k, v.decoded)] := by
      simp only [MapValue.SetIgnoreErr, MapValue.Set, VmValue.GetMapKey, VmValue.AsBytes]
      exact assign_append acc k _ (hacc k (List.mem_cons_self _ _))
    refine ⟨max f0 (max f1 f2) + 1, ?_⟩
    simp only [List.length_cons, deserializeEntries]
    rw [DeserializeFuel_mono lim f0 _ (le_max_left _ _) _ _ _ h0]
    simp only [VmValue.decoded]
    rw [DeserializeFuel_mono lim f1 _ (le_trans (le_max_left _ _) (le_max_right _ _)) _ _ _ h1]
    simp only
    rw [hset, deserializeEntries_mono lim f2 _
      (le_trans (le_max_right _ _) (le_max_right _ _)) _ _ _ _ h2]

theorem lookup_decodedEntries :
    ∀ (data : List (List Byte × VmValue)) (k : List Byte),
      MapValue.lookup (decodedEntries data) k = (MapValue.lookup data k).map VmValue.decoded
  | [], k => by simp [decodedEntries, MapValue.lookup]
  | (k1, v) :: rest, k => by
    simp only [decodedEntries, MapValue.lookup]
    split_ifs
    · simp
    · exact lookup_decodedEntries rest k

end types

namespace types
open errors constants common

theorem Serialize_array_ok (lim : Limits) (data : List VmValue) (sink : ZeroCopySink)
    (hlen : data.length < 2 ^ 64) (hser : ∀ v ∈ data, (VmValue.Serialize lim v []).1 = none) :
    VmValue.Serialize lim (.array data) sink =
      (none, sink ++ (ArrayType :: varUintBytes data.length ++
        (data.map (VmValue.encoding lim)).flatten)) := by
  simp only [VmValue.Serialize]
  rw [serializeItems_ok lim data _ hser, Nat.mod_eq_of_lt hlen]
  simp [ZeroCopySink.WriteByte, WriteVarUint_frame]

theorem Serialize_struct_ok (lim : Limits) (data : List VmValue) (sink : ZeroCopySink)
    (hlen : data.length < 2 ^ 64) (hser : ∀ v ∈ data, (VmValue.Serialize lim v []).1 = none) :
    VmValue.Serialize lim (.struct data) sink =
      (none, sink ++ (StructType :: varUintBytes data.length ++
        (data.map (VmValue.encoding lim)).flatten)) := by
  simp only [VmValue.Serialize]
  rw [serializeItems_ok lim data _ hser, Nat.mod_eq_of_lt hlen]
  simp [ZeroCopySink.WriteByte, WriteVarUint_frame]

theorem mem_keys_lookup (data : List (List Byte × VmValue))
    (hnd : (data.map Prod.fst).Nodup) (k : List Byte)
    (hk : k ∈ sortStrings (data.map Prod.fst)) :
    ∃ e ∈ data, e.1 = k ∧ MapValue.lookup data k = some e.2 := by
  have hk2 : k ∈ data.map Prod.fst := (List.perm_insertionSort _ _).subset hk
  obtain ⟨e, he, rfl⟩ := List.mem_map.mp hk2
  exact ⟨e, he, rfl, lookup_of_mem_nodup data hnd e he⟩

theorem Serialize_map_ok (lim : Limits) (data : List (List Byte × VmValue)) (sink : ZeroCopySink)
    (hnd : (data.map Prod.fst).Nodup) (hlen : data.length < 2 ^ 64)
    (hser : ∀ e ∈ data, e.1.length ≤ lim.MAX_BYTEARRAY_SIZE ∧
      (VmValue.Serialize lim e.2 []).1 = none) :
    VmValue.Serialize lim (.map data) sink =
      (none, sink ++ (MapType :: varUintBytes data.length ++
        ((sortStrings (data.map Prod.fst)).map (fun k => ByteArrayType :: varBytes k ++
          ((MapValue.lookup data k).getD VmValue.zero).encoding lim)).flatten)) := by
  simp only [VmValue.Serialize]
  rw [serializeMapLoop_ok lim data, Nat.mod_eq_of_lt hlen]
  · simp [ZeroCopySink.WriteByte, WriteVarUint_frame]
  · intro k hk
    obtain ⟨e, he, rfl, hl⟩ := mem_keys_lookup data hnd k hk
    exact ⟨(hser e he).1, e.2, hl, (hser e he).2⟩

theorem RoundTrips_array (lim : Limits) (data : List VmValue) (hlen : data.length < 2 ^ 63)
    (h : ∀ v ∈ data, RoundTrips lim v) : RoundTrips lim (.array data) := by
  have hs := Serialize_array_ok lim data [] (by omega) (fun v hv => (h v hv).1)
  refine ⟨by rw [hs], fun self rest => ?_⟩
  obtain ⟨f, hf⟩ := deserializeItems_encodings lim data h [] rest
  refine ⟨f + 1, ?_⟩
  have henc : (VmValue.array data).encoding lim = ArrayType :: varUintBytes data.length ++
      (data.map (VmValue.encoding lim)).flatten := by
    rw [VmValue.encoding, hs]
    rfl
  rw [henc]
  simp only [VmValue.DeserializeFuel, ZeroCopySource.NextByte, List.cons_append,
    List.append_assoc]
  rw [if_neg (by decide), if_neg (by decide), if_neg (by decide), if_pos trivial,
    NextVarUint_varUintBytes _ (by omega)]
  simp only [Bool.false_eq_true, if_false]
  rw [loopCount_eq _ hlen, hf]
  simp [VmValueFromArrayVal, VmValue.decoded]

theorem RoundTrips_struct (lim : Limits) (data : List VmValue) (hlen : data.length < 2 ^ 63)
    (h : ∀ v ∈ data, RoundTrips lim v) : RoundTrips lim (.struct data) := by
  have hs := Serialize_struct_ok lim data [] (by omega) (fun v hv => (h v hv).1)
  refine ⟨by rw [hs], fun self rest => ?_⟩
  obtain ⟨f, hf⟩ := deserializeItems_encodings lim data h [] rest
  refine ⟨f + 1, ?_⟩
  have henc : (VmValue.struct data).encoding lim = StructType :: varUintBytes data.length ++
      (data.map (VmValue.encoding lim)).flatten := by
    rw [VmValue.encoding, hs]
    rfl
  rw [henc]
  simp only [VmValue.DeserializeFuel, ZeroCopySource.NextByte, List.cons_append,
    List.append_assoc]
  rw [if_neg (by decide), if_neg (by decide), if_neg (by decide), if_neg (by decide),
    if_neg (by decide), if_pos trivial, NextVarUint_varUintBytes _ (by omega)]
  simp only [Bool.false_eq_true, if_false]
  rw [loopCount_eq _ hlen, hf]
  simp [VmValueFromStructVal, VmValue.decoded]

theorem RoundTrips_map (lim : Limits) (data : List (List Byte × VmValue))
    (hlen : data.length < 2 ^ 63) (hnd : (data.map Prod.fst).Nodup)
    (h : ∀ e ∈ data, e.1.length ≤ lim.MAX_BYTEARRAY_SIZE ∧ e.1.length < 2 ^ 63 ∧
      RoundTrips lim e.2) : RoundTrips lim (.map data) := by
  have hs := Serialize_map_ok lim data [] hnd (by omega)
    (fun e he => ⟨(h e he).1, (h e he).2.2.1⟩)
  refine ⟨by rw [hs], fun self rest => ?_⟩
  have hperm : (sortStrings (data.map Prod.fst)).Perm (data.map Prod.fst) :=
    List.perm_insertionSort _ _
  have hklen : (sortStrings (data.map Prod.fst)).length = data.length := by
    rw [hperm.length_eq, List.length_map]
  obtain ⟨f, hf⟩ := deserializeEntries_encodings lim data (sortStrings (data.map Prod.fst))
    (hperm.nodup_iff.mpr hnd)
    (by
      intro k hk
      obtain ⟨e, he, rfl, hl⟩ := mem_keys_lookup data hnd k hk
      exact ⟨(h e he).1, (h e he).2.1, e.2, hl, (h e he).2.2⟩)
    [] rest (by simp)
  refine ⟨f + 1, ?_⟩
  have henc : (VmValue.map data).encoding lim = MapType :: varUintBytes data.length ++
      ((sortStrings (data.map Prod.fst)).map (fun k => ByteArrayType :: varBytes k ++
        ((MapValue.lookup data k).getD VmValue.zero).encoding lim)).flatten := by
    rw [VmValue.encoding, hs]
    rfl
  have hdec : (sortStrings (data.map Prod.fst)).map (fun k =>
        (k, ((MapValue.lookup data k).getD VmValue.zero).decoded)) =
      (sortStrings (data.map Prod.fst)).map (fun k =>
        (k, (MapValue.lookup (decodedEntries data) k).getD VmValue.zero)) := by
    apply List.map_congr_left
    intro k hk
    obtain ⟨e, he, rfl, hl⟩ := mem_keys_lookup data hnd k hk
    rw [lookup_decodedEntries, hl]
    rfl
  rw [henc]
  generalize ((sortStrings (data.map Prod.fst)).map (fun k => ByteArrayType :: varBytes k ++
    ((MapValue.lookup data k).getD VmValue.zero).encoding lim)).flatten = stream at hf ⊢
  simp only [VmValue.DeserializeFuel, ZeroCopySource.NextByte, List.cons_append,
    List.append_assoc]
  rw [if_neg (by decide), if_neg (by decide), if_neg (by decide), if_neg (by decide),
    if_pos trivial, NextVarUint_varUintBytes _ (by omega)]
  simp only [Bool.false_eq_true, if_false]
  rw [loopCount_eq _ hlen, ← hklen, hf]
  simp only [List.nil_append, VmValueFromMapValue, VmValue.decoded, hdec]

mutual
theorem RoundTrips_of_serializable (lim : Limits) (hlim : lim.MAX_INT_SIZE < 2 ^ 63) :
    ∀ v : VmValue, v.serializable lim = true → RoundTrips lim v
  | .bool i, h => RoundTrips_bool lim i (by simpa [VmValue.serializable] using h)
  | .integer i, h => by
    simp only [VmValue.serializable, Bool.and_eq_true, decide_eq_true_eq] at h
    exact RoundTrips_int lim hlim i h.2 _ (Or.inl ⟨rfl, h.1⟩)
  | .bigint i, h => by
    simp only [VmValue.serializable, Bool.and_eq_true, decide_eq_true_eq, Bool.not_eq_true'] at h
    exact RoundTrips_int lim hlim i h.2 _ (Or.inr ⟨rfl, h.1⟩)
  | .bytearray bs, h => by
    simp only [VmValue.serializable, Bool.and_eq_true, decide_eq_true_eq] at h
    exact RoundTrips_bytearray lim bs h.1 h.2
  | .interop _, h => by simp [VmValue.serializable] at h
  | .array data, h => by
    simp only [VmValue.serializable, Bool.and_eq_true, decide_eq_true_eq] at h
    exact RoundTrips_array lim data h.1 (RoundTrips_of_serializableList lim hlim data h.2)
  | .struct data, h => by
    simp only [VmValue.serializable, Bool.and_eq_true, decide_eq_true_eq] at h
    exact RoundTrips_struct lim data h.1 (RoundTrips_of_serializableList lim hlim data h.2)
  | .map data, h => by
    simp only [VmValue.serializable, Bool.and_eq_true, decide_eq_true_eq] at h
    exact RoundTrips_map lim data h.1.1 h.1.2
      (RoundTrips_of_serializableEntries lim hlim data h.2)
theorem RoundTrips_of_serializableList (lim : Limits) (hlim : lim.MAX_INT_SIZE < 2 ^ 63) :
    ∀ data : List VmValue, serializableList lim data = true → ∀ v ∈ data, RoundTrips lim v
  | [], _, v, hv => by simp at hv
  | w :: rest, h, v, hv => by
    simp only [serializableList, Bool.and_eq_true] at h
    rcases List.mem_cons.mp hv with rfl | hmem
    · exact RoundTrips_of_serializable lim hlim v h.1
    · exact RoundTrips_of_serializableList lim hlim rest h.2 v hmem
theorem RoundTrips_of_serializableEntries (lim : Limits) (hlim : lim.MAX_INT_SIZE < 2 ^ 63) :
    ∀ data : List (List Byte × VmValue), serializableEntries lim data = true →
      ∀ e ∈ data, e.1.length ≤ lim.MAX_BYTEARRAY_SIZE ∧ e.1.length < 2 ^ 63 ∧
        RoundTrips lim e.2
  | [], _, e, he => by simp at he
  | (k, w) :: rest, h, e, he => by
    simp only [serializableEntries, Bool.and_eq_true, decide_eq_true_eq] at h
    rcases List.mem_cons.mp he with rfl | hmem
    · exact ⟨h.1.1.1, h.1.1.2, RoundTrips_of_serializable lim hlim w h.1.2⟩
    · exact RoundTrips_of_serializableEntries lim hlim rest h.2 e hmem
end

end types

namespace types
open errors constants common

theorem lookup_map_self {α : Type} (g : List Byte → α) :
    ∀ (ks : List (List Byte)) (k : List Byte), k ∈ ks →
      MapValue.lookup (ks.map (fun k => (k, g k))) k = some (g k)
  | [], k, h => by simp at h
  | k1 :: ks, k, h => by
    simp only [List.map_cons, MapValue.lookup]
    by_cases hk : k1 = k
    · rw [if_pos hk, hk]
    · rw [if_neg hk]
      rcases List.mem_cons.mp h with rfl | hmem
      · exact absurd rfl hk
      · exact lookup_map_self g ks k hmem

theorem decodedEntries_length :
    ∀ data : List (List Byte × VmValue), (decodedEntries data).length = data.length
  | [] => rfl
  | (k, v) :: rest => by simp [decodedEntries, decodedEntries_length rest]

mutual
theorem sameContents_decoded (lim : Limits) :
    ∀ v : VmValue, v.serializable lim = true → v.sameContents v.decoded = true
  | .bool i, _ => by simp [VmValue.sameContents, VmValue.decoded]
  | .integer i, _ => by simp [VmValue.sameContents, VmValue.decoded]
  | .bigint i, _ => by simp [VmValue.sameContents, VmValue.decoded]
  | .bytearray bs, _ => by simp [VmValue.sameContents, VmValue.decoded]
  | .interop _, h => by simp [VmValue.serializable] at h
  | .array data, h => by
    simp only [VmValue.serializable, Bool.and_eq_true, decide_eq_true_eq] at h
    simp only [VmValue.decoded, VmValue.sameContents]
    exact sameList_decoded lim data h.2
  | .struct data, h => by
    simp only [VmValue.serializable, Bool.and_eq_true, decide_eq_true_eq] at h
    simp only [VmValue.decoded, VmValue.sameContents]
    exact sameList_decoded lim data h.2
  | .map data, h => by
    simp only [VmValue.serializable, Bool.and_eq_true, decide_eq_true_eq] at h
    simp only [VmValue.decoded, VmValue.sameContents, Bool.and_eq_true, decide_eq_true_eq]
    have hperm : (sortStrings (data.map Prod.fst)).Perm (data.map Prod.fst) :=
      List.perm_insertionSort _ _
    refine ⟨?_, sameEntries_decoded lim data h.2 _ ?_⟩
    · rw [List.length_map, hperm.length_eq, List.length_map]
    · intro e he
      have hmem : e.1 ∈ sortStrings (data.map Prod.fst) :=
        hperm.symm.subset (List.mem_map_of_mem Prod.fst he)
      rw [lookup_map_self _ _ _ hmem, lookup_decodedEntries,
        lookup_of_mem_nodup data h.1.2 e he]
      rfl
theorem sameList_decoded (lim : Limits) :
    ∀ data : List VmValue, serializableList lim data = true →
      sameList data (decodedList data) = true
  | [], _ => by simp [sameList, decodedList]
  | v :: rest, h => by
    simp only [serializableList, Bool.and_eq_true] at h
    simp only [decodedList, sameList, Bool.and_eq_true]
    exact ⟨sameContents_decoded lim v h.1, sameList_decoded lim rest h.2⟩
theorem sameEntries_decoded (lim : Limits) :
    ∀ data : List (List Byte × VmValue), serializableEntries lim data = true →
      ∀ M : List (List Byte × VmValue),
        (∀ e ∈ data, MapValue.lookup M e.1 = some e.2.decoded) → sameEntries data M = true
  | [], _, _, _ => by simp [sameEntries]
  | (k, v) :: rest, h, M, hM => by
    simp only [serializableEntries, Bool.and_eq_true, decide_eq_true_eq] at h
    simp only [sameEntries, Bool.and_eq_true]
    refine ⟨?_, sameEntries_decoded lim rest h.2 M
      (fun e he => hM e (List.mem_cons_of_mem _ he))⟩
    have := hM (k, v) (List.mem_cons_self _ _)
    simp only at this
    rw [this]
    exact sameContents_decoded lim v h.1.2
end

theorem Deserialize_eq_of_fuel (lim : Limits) (fuel : Nat) (self : VmValue)
    (s : ZeroCopySource) (r : VmValue × Except VmError ZeroCopySource)
    (h : VmValue.DeserializeFuel lim fuel self s = some r) :
    VmValue.Deserialize lim self s = some r := by
  obtain ⟨r2, hr2, _⟩ := Deserialize_ok lim self s
  unfold VmValue.Deserialize at hr2 ⊢
  have h1 := DeserializeFuel_mono lim fuel (max fuel (s.length + 1)) (le_max_left _ _) _ _ _ h
  have h2 := DeserializeFuel_mono lim (s.length + 1) (max fuel (s.length + 1))
    (le_max_right _ _) _ _ _ hr2
  rw [h1] at h2
  rw [hr2, ← Option.some.inj h2]

theorem Deserialize_encoding (lim : Limits) (hlim : lim.MAX_INT_SIZE < 2 ^ 63) (v : VmValue)
    (hv : v.serializable lim = true) (self : VmValue) (rest : List Byte) :
    VmValue.Serialize lim v [] = (none, v.encoding lim) ∧
      VmValue.Deserialize lim self (v.encoding lim ++ rest) = some (v.decoded, .ok rest) := by
  obtain ⟨hs, hd⟩ := RoundTrips_of_serializable lim hlim v hv
  obtain ⟨f, hf⟩ := hd self rest
  refine ⟨?_, Deserialize_eq_of_fuel lim f self _ _ hf⟩
  rw [Serialize_eq_encoding lim v [] hs]
  rfl

/-- C1: for every serializable value `v` (the integer size limit being a Go
`int`), `Serialize` succeeds, and `Deserialize` applied to the bytes it wrote,
followed by any further bytes, succeeds, leaves exactly the further bytes
unread, and yields a value of the same variant and the same contents as `v`. -/
theorem Deserialize_Serialize_roundtrip (lim : Limits) (hlim : lim.MAX_INT_SIZE < 2 ^ 63)
    (v : VmValue) (hv : v.serializable lim = true) (self : VmValue) (rest : List Byte) :
    ∃ bytes v2, VmValue.Serialize lim v [] = (none, bytes) ∧
      VmValue.Deserialize lim self (bytes ++ rest) = some (v2, .ok rest) ∧
      v.valType = v2.valType ∧ v.sameContents v2 = true := by
  obtain ⟨hs, hd⟩ := Deserialize_encoding lim hlim v hv self rest
  refine ⟨v.encoding lim, v.decoded, hs, hd, ?_, sameContents_decoded lim v hv⟩
  cases v <;> rfl

/-- C1 at a Map that holds an Array, a big integer and a ByteArray, decoded
into an Interop receiver with one byte following the encoding. -/
theorem Deserialize_Serialize_roundtrip_witness :
    (testLimits.MAX_INT_SIZE < 2 ^ 63 ∧
      (VmValue.map [(bytesTest, .array [.bool 1, .integer (-1000)]),
        ([0x64], .bigint 9923372036854775807),
        ([], .bytearray bytesKey)]).serializable testLimits = true) ∧
    ∃ bytes v2,
      VmValue.Serialize testLimits (.map [(bytesTest, .array [.bool 1, .integer (-1000)]),
        ([0x64], .bigint 9923372036854775807), ([], .bytearray bytesKey)]) [] = (none, bytes) ∧
      VmValue.Deserialize testLimits (.interop none) (bytes ++ [0x07]) = some (v2, .ok [0x07]) ∧
      (VmValue.map [(bytesTest, .array [.bool 1, .integer (-1000)]),
        ([0x64], .bigint 9923372036854775807), ([], .bytearray bytesKey)]).valType =
          v2.valType ∧
      (VmValue.map [(bytesTest, .array [.bool 1, .integer (-1000)]),
        ([0x64], .bigint 9923372036854775807), ([], .bytearray bytesKey)]).sameContents v2 =
          true :=
  ⟨⟨by decide, by decide⟩,
    Deserialize_Serialize_roundtrip testLimits (by decide) _ (by decide) (.interop none) [0x07]⟩

/-- C7: `Deserialize` always returns, and whenever it returns an error the
receiver after the call is the receiver before the call. -/
theorem Deserialize_error_keeps_receiver (lim : Limits) (self : VmValue)
    (source : ZeroCopySource) :
    ∃ r, VmValue.Deserialize lim self source = some r ∧ ∀ e, r.2 = .error e → r.1 = self := by
  obtain ⟨r, hr, herr, _⟩ := Deserialize_ok lim self source
  exact ⟨r, hr, herr⟩

/-- C6: `Deserialize` returns an error, never a value, on every input whose
first byte is none of the six type tags, on every input that is the encoding
of a serializable value cut short at any point, and more generally on every
input that is a byte string which decodes completely, cut short at any point;
in each case the receiver is left as it was. -/
theorem Deserialize_rejects_unknown_and_truncated :
    (∀ (lim : Limits) (self : VmValue) (t : Byte) (rest : List Byte),
      t ≠ BooleanType → t ≠ ByteArrayType → t ≠ IntegerType → t ≠ ArrayType →
      t ≠ MapType → t ≠ StructType →
      VmValue.Deserialize lim self (t :: rest) = some (self, .error .ErrUnsupportType)) ∧
    (∀ (lim : Limits) (v self : VmValue) (bytes p q : List Byte),
      lim.MAX_INT_SIZE < 2 ^ 63 → v.serializable lim = true →
      VmValue.Serialize lim v [] = (none, bytes) → bytes = p ++ q → q ≠ [] →
      ∃ e, VmValue.Deserialize lim self p = some (self, .error e)) ∧
    (∀ (lim : Limits) (v self : VmValue) (bytes p q : List Byte),
      VmValue.Deserialize lim self bytes = some (v, .ok []) → bytes = p ++ q → q ≠ [] →
      ∃ e, VmValue.Deserialize lim self p = some (self, .error e)) := by
  have hcut : ∀ (lim : Limits) (v self : VmValue) (bytes p q : List Byte),
      VmValue.Deserialize lim self bytes = some (v, .ok []) → bytes = p ++ q → q ≠ [] →
      ∃ e, VmValue.Deserialize lim self p = some (self, .error e) := by
    intro lim v self bytes p q hd hb hq
    obtain ⟨r, hr, herr, hok⟩ := Deserialize_ok lim self p
    obtain ⟨w, res⟩ := r
    rcases res with e | s2
    · have := herr e rfl
      simp only at this
      subst this
      exact ⟨e, hr⟩
    · exfalso
      have hx := (DeserializeFuel_append_all lim q (p.length + 1)).1 self p w s2 hr
      have hy := Deserialize_eq_of_fuel lim _ _ _ _ hx
      rw [hb, hy] at hd
      simp only [Option.some.injEq, Prod.mk.injEq, Except.ok.injEq, List.append_eq_nil] at hd
      exact hq hd.2.2
  refine ⟨?_, ?_, hcut⟩
  · intro lim self t rest h1 h2 h3 h4 h5 h6
    simp [VmValue.Deserialize, VmValue.DeserializeFuel, ZeroCopySource.NextByte, h1, h2, h3, h4,
      h5, h6]
  · intro lim v self bytes p q hlim hv hs hb hq
    obtain ⟨hs2, hd⟩ := Deserialize_encoding lim hlim v hv self []
    have hbytes : v.encoding lim = bytes := by
      rw [hs] at hs2
      exact (Prod.mk.inj hs2).2.symm
    rw [List.append_nil, hbytes] at hd
    exact hcut lim _ self bytes p q hd hb hq

/-- C6 at the encoding of the Struct `[true, 1000]` cut after its fourth byte. -/
theorem Deserialize_rejects_unknown_and_truncated_witness :
    (testLimits.MAX_INT_SIZE < 2 ^ 63 ∧
      (VmValue.struct [.bool 1, .integer 1000]).serializable testLimits = true ∧
      VmValue.Serialize testLimits (.struct [.bool 1, .integer 1000]) [] =
        (none, [0x81, 0x02, 0x01, 0x01, 0x02, 0x02, 0xe8, 0x03]) ∧
      ([0x81, 0x02, 0x01, 0x01, 0x02, 0x02, 0xe8, 0x03] : List Byte) =
        [0x81, 0x02, 0x01, 0x01] ++ [0x02, 0x02, 0xe8, 0x03] ∧
      ([0x02, 0x02, 0xe8, 0x03] : List Byte) ≠ []) ∧
    ∃ e, VmValue.Deserialize testLimits (.integer 5) [0x81, 0x02, 0x01, 0x01] =
      some (.integer 5, .error e) :=
  ⟨⟨by decide, by decide, by decide, by decide, by decide⟩,
    Deserialize_rejects_unknown_and_truncated.2.1 testLimits (.struct [.bool 1, .integer 1000])
      (.integer 5) [0x81, 0x02, 0x01, 0x01, 0x02, 0x02, 0xe8, 0x03] [0x81, 0x02, 0x01, 0x01]
      [0x02, 0x02, 0xe8, 0x03] (by decide) (by decide) (by decide) (by decide) (by decide)⟩

end types

namespace types
open errors constants common

/-! ### Equality of values -/

/-- C11: for any two primitive values (Boolean, SmallInteger, BigInteger,
ByteArray) `Equals` is true exactly when `AsBytes` gives the same byte string
for both, whatever their variants; Integer 1, Boolean true and ByteArray
`[0x01]` are pairwise Equal; and a primitive value is never Equal to an Array,
Struct, Map or Interop, in either order. -/
theorem Equals_primitive_by_bytes :
    (∀ (st : Store) (fuel : Nat) (a b : RefValue) (va vb : List Byte),
      a.AsBytes = .ok va → b.AsBytes = .ok vb →
      RefValue.Equals st fuel a b = some (decide (va = vb))) ∧
    (∀ (st : Store) (fuel : Nat),
      RefValue.Equals st fuel (.integer 1) (.bool 1) = some true ∧
      RefValue.Equals st fuel (.bool 1) (.bytearray [0x01]) = some true ∧
      RefValue.Equals st fuel (.integer 1) (.bytearray [0x01]) = some true ∧
      RefValue.Equals st fuel (.bytearray [0x01]) (.integer 1) = some true) ∧
    (∀ (st : Store) (fuel : Nat) (a b : RefValue) (va : List Byte),
      a.AsBytes = .ok va →
      (b.valType = .arrayType ∨ b.valType = .structType ∨ b.valType = .mapType ∨
        b.valType = .interopType) →
      RefValue.Equals st fuel a b = some false ∧ RefValue.Equals st fuel b a = some false) := by
  refine ⟨?_, ?_, ?_⟩
  · intro st fuel a b va vb ha hb
    simp [RefValue.Equals, ha, hb]
  · intro st fuel
    refine ⟨?_, ?_, ?_, ?_⟩ <;> simp [RefValue.Equals, RefValue.AsBytes] <;> decide
  · intro st fuel a b va ha hb
    cases a <;> simp [RefValue.AsBytes] at ha <;>
      cases b <;> simp [RefValue.valType] at hb <;>
      simp [RefValue.Equals, RefValue.AsBytes, RefValue.valType]

/-- C11 at the big integer 9923372036854775807 and the ByteArray of its
bytes. -/
theorem Equals_primitive_by_bytes_witness :
    ((RefValue.bigint 9923372036854775807).AsBytes =
        .ok [0xff, 0xff, 0xc5, 0x8e, 0x4a, 0xe6, 0xb6, 0x89, 0x00] ∧
      (RefValue.bytearray [0xff, 0xff, 0xc5, 0x8e, 0x4a, 0xe6, 0xb6, 0x89, 0x00]).AsBytes =
        .ok [0xff, 0xff, 0xc5, 0x8e, 0x4a, 0xe6, 0xb6, 0x89, 0x00]) ∧
    RefValue.Equals [] 0 (.bigint 9923372036854775807)
        (.bytearray [0xff, 0xff, 0xc5, 0x8e, 0x4a, 0xe6, 0xb6, 0x89, 0x00]) =
      some (decide (([0xff, 0xff, 0xc5, 0x8e, 0x4a, 0xe6, 0xb6, 0x89, 0x00] : List Byte) =
        [0xff, 0xff, 0xc5, 0x8e, 0x4a, 0xe6, 0xb6, 0x89, 0x00])) :=
  ⟨⟨congrArg Except.ok (by decide), rfl⟩,
    Equals_primitive_by_bytes.1 [] 0 _ _ _ _ (congrArg Except.ok (by decide)) rfl⟩

/-- C12: `Equals` on two Array values, and on two Map values, is true exactly
when both hold the same pointer: every Array and Map is Equal to itself, and
two containers allocated one after the other are never Equal, whatever they
hold, both empty included. -/
theorem Equals_array_map_by_identity :
    (∀ (st : Store) (fuel : Nat) (p q : Nat),
      RefValue.Equals st fuel (.array p) (.array q) = some (decide (p = q)) ∧
      RefValue.Equals st fuel (.map p) (.map q) = some (decide (p = q))) ∧
    (∀ (st : Store) (fuel : Nat) (p : Nat),
      RefValue.Equals st fuel (.array p) (.array p) = some true ∧
      RefValue.Equals st fuel (.map p) (.map p) = some true) ∧
    (∀ (st : Store) (fuel : Nat) (c1 c2 : Cell),
      RefValue.Equals ((st.alloc c1).1.alloc c2).1 fuel
          (.array (st.alloc c1).2) (.array ((st.alloc c1).1.alloc c2).2) = some false ∧
      RefValue.Equals ((st.alloc c1).1.alloc c2).1 fuel
          (.map (st.alloc c1).2) (.map ((st.alloc c1).1.alloc c2).2) = some false) := by
  refine ⟨?_, ?_, ?_⟩
  · intro st fuel p q
    simp [RefValue.Equals, RefValue.AsBytes, RefValue.valType]
  · intro st fuel p
    simp [RefValue.Equals, RefValue.AsBytes, RefValue.valType]
  · intro st fuel c1 c2
    simp [RefValue.Equals, RefValue.AsBytes, RefValue.valType, Store.alloc]

/-- On two primitives that the model settles, `reflect.DeepEqual` is equality
of variant and payload. -/
theorem deepValueEqual_scalar (st : Store) (fuel : Nat) (x y : RefValue)
    (hx : x.isScalar = true) (hy : y.isScalar = true) :
    deepValueEqual st fuel x y = some (decide (x = y)) := by
  cases x <;> cases y <;> simp [RefValue.isScalar] at hx hy <;>
    simp [deepValueEqual, hx, hy]

/-- Two slices are deeply equal element by element exactly when they
correspond in length and in every pair of elements. -/
theorem deepEqualList_true_iff (f : RefValue → RefValue → Option Bool) :
    ∀ xs ys : List RefValue,
      deepEqualList f xs ys = some true ↔ List.Forall₂ (fun x y => f x y = some true) xs ys
  | [], [] => by simp [deepEqualList]
  | [], _ :: _ => by simp [deepEqualList]
  | _ :: _, [] => by simp [deepEqualList]
  | x :: xs, y :: ys => by
    simp only [deepEqualList, List.forall₂_cons, ← deepEqualList_true_iff f xs ys]
    cases f x y with
    | none => cases deepEqualList f xs ys with
      | none => simp [deepAnd]
      | some b => cases b <;> simp [deepAnd]
    | some a => cases deepEqualList f xs ys with
      | none => cases a <;> simp [deepAnd]
      | some b => cases a <;> cases b <;> simp [deepAnd]

/-- On two slices of settled primitives of the same length, element-wise
`reflect.DeepEqual` is equality of the two lists. -/
theorem deepEqualList_scalar (st : Store) (fuel : Nat) :
    ∀ xs ys : List RefValue, (∀ x ∈ xs, x.isScalar = true) → (∀ y ∈ ys, y.isScalar = true) →
      xs.length = ys.length →
      deepEqualList (deepValueEqual st fuel) xs ys = some (decide (xs = ys))
  | [], [], _, _, _ => by simp [deepEqualList]
  | [], _ :: _, _, _, h => by simp at h
  | _ :: _, [], _, _, h => by simp at h
  | x :: xs, y :: ys, hx, hy, h => by
    have h1 := deepValueEqual_scalar st fuel x y (hx x (by simp)) (hy y (by simp))
    have h2 := deepEqualList_scalar st fuel xs ys (fun a ha => hx a (by simp [ha]))
      (fun a ha => hy a (by simp [ha])) (by simpa using h)
    simp only [deepEqualList, h1, h2]
    by_cases e1 : x = y <;> by_cases e2 : xs = ys <;> simp [deepAnd, e1, e2]

/-- `Equals` on two Structs whose `Data` slices are in the store. -/
theorem Equals_struct_eq (st : Store) (fuel : Nat) (p q : Nat) (xs ys : List RefValue)
    (hp : st.list? p = some xs) (hq : st.list? q = some ys) :
    RefValue.Equals st (fuel + 1) (.struct p) (.struct q) =
      deepEqualSlice (deepValueEqual st fuel) (decide (p = q)) xs ys := by
  simp [RefValue.Equals, RefValue.AsBytes, RefValue.valType, deepEqualStruct, deepValueEqual,
    hp, hq]

/-- C13 (the claim as written fails): the Struct of the ByteArray of no bytes
and the Struct of the ByteArray of the nil slice, built separately, have the
same length and at their one position elements of the same variant and the
same bytes, which are Equal as elements; the two Structs are not Equal. -/
theorem Equals_struct_nil_and_empty_ByteArray :
    RefValue.valType (.bytearray []) = RefValue.valType .nilbytes ∧
      RefValue.AsBytes (.bytearray []) = .ok [] ∧ RefValue.AsBytes .nilbytes = .ok [] ∧
      RefValue.Equals nilBytesStore 1 (.bytearray []) .nilbytes = some true ∧
      RefValue.Equals nilBytesStore 1 (.struct 0) (.struct 1) = some false :=
  ⟨rfl, rfl, rfl, by decide, by decide⟩

/-- C13 (amended): `Equals` on two Structs is `reflect.DeepEqual` on their
payloads, not identity. Structs of different lengths are never Equal. Two
non-empty Structs, built separately or not, are Equal when their elements are
deeply equal position by position. For non-empty Structs of primitives
(Boolean, Integer, BigInteger other than zero, ByteArray) that is exactly when
the two element lists are identical in variant and payload, the nil slice and
the empty slice being different payloads of a ByteArray. -/
theorem Equals_struct_DeepEqual (st : Store) (fuel : Nat) (p q : Nat) (xs ys : List RefValue)
    (hp : st.list? p = some xs) (hq : st.list? q = some ys) :
    (xs.length ≠ ys.length →
      RefValue.Equals st (fuel + 1) (.struct p) (.struct q) = some false) ∧
    (xs ≠ [] → List.Forall₂ (fun x y => deepValueEqual st fuel x y = some true) xs ys →
      RefValue.Equals st (fuel + 1) (.struct p) (.struct q) = some true) ∧
    (xs ≠ [] → (∀ x ∈ xs, x.isScalar = true) → (∀ y ∈ ys, y.isScalar = true) →
      RefValue.Equals st (fuel + 1) (.struct p) (.struct q) = some (decide (xs = ys))) := by
  rw [Equals_struct_eq st fuel p q xs ys hp hq]
  refine ⟨fun h => ?_, fun hne h => ?_, fun hne hx hy => ?_⟩
  · simp [deepEqualSlice, h]
  · have hl : xs.length = ys.length := h.length_eq
    by_cases e : p = q
    · simp [deepEqualSlice, hl, e]
    · simp [deepEqualSlice, hl, e, hne, (deepEqualList_true_iff _ xs ys).mpr h]
  · by_cases hl : xs.length = ys.length
    · by_cases e : p = q
      · subst e
        have hxy : xs = ys := by
          rw [hp] at hq
          exact Option.some.inj hq
        simp [deepEqualSlice, hxy]
      · simp [deepEqualSlice, hl, e, hne, deepEqualList_scalar st fuel xs ys hx hy hl]
    · have hxy : xs ≠ ys := fun e => hl (by rw [e])
      simp [deepEqualSlice, hl, hxy]

/-- C13 (amended), at the two Structs of `twoStructsStore`, at addresses 1 and
3, each with an Array of its own as the last element: the elements are deeply
equal position by position, and the Structs are Equal. -/
theorem Equals_struct_DeepEqual_witness :
    (twoStructsStore.list? 1 =
        some [.bytearray bytesTest, .bool 1, .integer 1000, .integer 100, .array 0] ∧
      twoStructsStore.list? 3 =
        some [.bytearray bytesTest, .bool 1, .integer 1000, .integer 100, .array 2]) ∧
    RefValue.Equals twoStructsStore 2 (.struct 1) (.struct 3) = some true :=
  ⟨⟨rfl, rfl⟩,
    (Equals_struct_DeepEqual twoStructsStore 1 1 3
      [.bytearray bytesTest, .bool 1, .integer 1000, .integer 100, .array 0]
      [.bytearray bytesTest, .bool 1, .integer 1000, .integer 100, .array 2]
      rfl rfl).2.1 (by decide)
      (.cons (by decide) (.cons (by decide) (.cons (by decide) (.cons (by decide)
        (.cons (by decide) .nil)))))⟩

end types
namespace neovm
open types errors constants common

/-- An error from `ExecuteOp` always comes with the state `FAULT`. -/
theorem ExecuteOp_error_state (cfg : Config) (self : Executor) (opcode : Byte)
    (state : VMState) (e : VmError) (m : Executor)
    (h : self.ExecuteOp cfg opcode = .ret state (some e) m) : state = .FAULT := by
  unfold Executor.ExecuteOp at h
  cases hd : dispatch cfg opcode self with
  | ok a m2 => rw [hd] at h; simp at h
  | fault err m2 => rw [hd] at h; simp at h; exact h.1.symm
  | abort => rw [hd] at h; simp at h
  | stuck => rw [hd] at h; simp at h

/-- The loop of `Execute` returns an error only with the state `FAULT`. -/
theorem loop_error_state (cfg : Config) (fuel : Nat) :
    ∀ (self : Executor) (e : VmError) (m : Executor),
      Executor.loop cfg fuel self = some (.returned (some e) m) → m.State = .FAULT := by
  induction fuel with
  | zero => intro self e m h; simp [Executor.loop] at h
  | succ n ih =>
    intro self e m h
    unfold Executor.loop at h
    cases hc : self.Context with
    | none => simp [hc] at h
    | some context =>
      simp only [hc] at h
      split at h
      · simp at h
      · cases hr : context.ReadOpCode with
        | none => simp [hr] at h
        | some oc =>
          obtain ⟨opcode, c⟩ := oc
          simp only [hr] at h
          cases hx : Executor.ExecuteOp cfg { self with Context := some c } opcode with
          | abort => simp [hx] at h
          | stuck => simp [hx] at h
          | ret state err m2 =>
            simp only [hx] at h
            cases err with
            | none => exact ih _ e m h
            | some e2 =>
              simp at h
              have hs := ExecuteOp_error_state cfg _ opcode state e2 m2 hx
              rw [← h.2, hs]

/-- The state returned by `ExecuteOp` is `NONE` or `FAULT`. -/
theorem ExecuteOp_state (cfg : Config) (self : Executor) (opcode : Byte)
    (state : VMState) (err : Option VmError) (m : Executor)
    (h : self.ExecuteOp cfg opcode = .ret state err m) :
    state = .NONE ∨ state = .FAULT := by
  unfold Executor.ExecuteOp at h
  cases hd : dispatch cfg opcode self with
  | ok a m2 => rw [hd] at h; simp at h; exact Or.inl h.1.symm
  | fault e m2 => rw [hd] at h; simp at h; exact Or.inr h.1.symm
  | abort => rw [hd] at h; simp at h
  | stuck => rw [hd] at h; simp at h

/-- The loop of `Execute`, started in a state other than `HALT` and `BREAK`,
ends in the state `NONE` or `FAULT`. -/
theorem loop_final_state (cfg : Config) (fuel : Nat) :
    ∀ (self : Executor) (err : Option VmError) (m : Executor),
      self.State = .NONE ∨ self.State = .FAULT →
      Executor.loop cfg fuel self = some (.returned err m) →
      m.State = .NONE ∨ m.State = .FAULT := by
  induction fuel with
  | zero => intro self err m _ h; simp [Executor.loop] at h
  | succ n ih =>
    intro self err m h0 h
    unfold Executor.loop at h
    cases hc : self.Context with
    | none => simp [hc] at h; rw [← h.2]; exact h0
    | some context =>
      simp only [hc] at h
      split at h
      · simp at h; rw [← h.2]; exact h0
      · cases hr : context.ReadOpCode with
        | none => simp [hr] at h; rw [← h.2]; exact h0
        | some oc =>
          obtain ⟨opcode, c⟩ := oc
          simp only [hr] at h
          cases hx : Executor.ExecuteOp cfg { self with Context := some c } opcode with
          | abort => simp [hx] at h
          | stuck => simp [hx] at h
          | ret state e2 m2 =>
            simp only [hx] at h
            have hs := ExecuteOp_state cfg _ opcode state e2 m2 hx
            cases e2 with
            | none => exact ih _ err m hs h
            | some e3 =>
              simp at h
              rw [← h.2]; exact hs

/-- The state with `BREAK` cleared is `NONE` or `FAULT` unless it was
`HALT`. -/
theorem clearBreak_state (s : VMState) (h : s ≠ .HALT) :
    s.clearBreak = .NONE ∨ s.clearBreak = .FAULT := by
  cases s <;> simp [VMState.clearBreak] at h ⊢

/-- `THROW` returns `FAULT` with the nil error and leaves the executor as it
is. -/
theorem ExecuteOp_THROW (cfg : Config) (self : Executor) :
    self.ExecuteOp cfg THROW = .ret .FAULT none self := rfl

/-- `THROWIFNOT` on a false value returns `FAULT` with the nil error. -/
theorem ExecuteOp_THROWIFNOT_false (cfg : Config) (self : Executor) (v : RefValue)
    (rest : List RefValue) (hs : self.EvalStack.data = v :: rest)
    (hv : v.AsBool = .ok false) :
    self.ExecuteOp cfg THROWIFNOT =
      .ret .FAULT none { self with EvalStack := { self.EvalStack with data := rest } } := by
  have hd : dispatch cfg THROWIFNOT = opThrow THROWIFNOT := rfl
  unfold Executor.ExecuteOp
  rw [hd]
  have h2 : opThrow THROWIFNOT =
      (Op.bind (Op.eval ValueStack.PopAsBool) fun val => if !val then Op.faultNil else pure ()) :=
    rfl
  rw [h2]
  simp [Op.bind, Op.eval, ValueStack.PopAsBool, bind, StackM.bind, ValueStack.Pop, hs,
    StackM.lift, hv, Op.faultNil]

/-- A byte without a handler reaches the panic of `default`. -/
theorem dispatch_unhandled (cfg : Config) (self : Executor) (opcode : Byte)
    (h : hasHandler opcode = false) : dispatch cfg opcode self = .abort := by
  simp only [hasHandler, caseLabels, Bool.or_eq_false_iff, decide_eq_false_iff_not,
    List.contains_cons, List.contains_nil, Bool.or_false, beq_eq_false_iff_ne, ne_eq,
    beq_iff_eq] at h
  obtain ⟨h0, h⟩ := h
  unfold dispatch
  simp only [h0, h, if_false, false_or, or_false]
  rfl

/-- C14 (the claim as written fails): on the program `THROW`, `Execute`
returns the nil error although the state after the call is `FAULT`. -/
theorem Execute_THROW_nil_error_with_FAULT :
    ∃ m : Executor,
      Executor.Execute testConfig 10 (testExecutor [THROW] []) = some (.returned none m) ∧
      m.State = .FAULT :=
  ⟨{ testExecutor [THROW] [] with State := .FAULT, Context := some ⟨[THROW], 1⟩ },
    by decide, rfl⟩

/-- C14 (amended): for every program and every initial stack contents, if
`Execute` returns a non-nil error then the state after the call is `FAULT`;
`THROW`, and `THROWIFNOT` on a value that is false, return `FAULT` together
with the nil error. -/
theorem Execute_error_implies_FAULT (cfg : Config) :
    (∀ (fuel : Nat) (self : Executor) (e : VmError) (m : Executor),
      self.Execute cfg fuel = some (.returned (some e) m) → m.State = .FAULT) ∧
    (∀ self : Executor, self.ExecuteOp cfg THROW = .ret .FAULT none self) ∧
    (∀ (self : Executor) (v : RefValue) (rest : List RefValue),
      self.EvalStack.data = v :: rest → v.AsBool = .ok false →
      self.ExecuteOp cfg THROWIFNOT =
        .ret .FAULT none { self with EvalStack := { self.EvalStack with data := rest } }) :=
  ⟨fun fuel _ e m h => loop_error_state cfg fuel _ e m h,
   fun self => ExecuteOp_THROW cfg self,
   fun self v rest hs hv => ExecuteOp_THROWIFNOT_false cfg self v rest hs hv⟩

/-- C14 (amended), on the program `DROP` with an empty stack: the error of
the stack underflow is returned and the state is `FAULT`. -/
theorem Execute_error_implies_FAULT_witness :
    Executor.Execute testConfig 10 (testExecutor [DROP] []) =
        some (.returned (some .ERR_UNDER_STACK_LEN)
          { testExecutor [DROP] [] with State := .FAULT, Context := some ⟨[DROP], 1⟩ }) ∧
      ({ testExecutor [DROP] [] with
          State := .FAULT, Context := some ⟨[DROP], 1⟩ } : Executor).State = .FAULT :=
  ⟨by decide, (Execute_error_implies_FAULT testConfig).1 10 (testExecutor [DROP] [])
    .ERR_UNDER_STACK_LEN _ (by decide)⟩

/-- C15 (the claim as written fails): the programs `NOP` and `RET` run to
completion without a fault, the first by exhausting the code and the second by
returning from the outermost frame, and the state after the call is `NONE`,
not `HALT`. -/
theorem Execute_completion_state_NONE :
    Executor.Execute testConfig 10 (testExecutor [NOP] []) =
        some (.returned none
          { testExecutor [NOP] [] with State := .NONE, Context := some ⟨[NOP], 1⟩ }) ∧
      Executor.Execute testConfig 10 (testExecutor [RET] []) =
        some (.returned none { testExecutor [RET] [] with State := .NONE, Context := none }) :=
  ⟨by decide, by decide⟩

/-- C15 (amended): when `Execute` is called in a state other than `HALT` and
runs to completion, the state after the call is not `HALT`: it is `NONE`
unless it is `FAULT`. -/
theorem Execute_final_state (cfg : Config) (fuel : Nat) (self : Executor)
    (err : Option VmError) (m : Executor) (h0 : self.State ≠ .HALT)
    (h : self.Execute cfg fuel = some (.returned err m)) :
    m.State ≠ .HALT ∧ (m.State ≠ .FAULT → m.State = .NONE) := by
  have hs := loop_final_state cfg fuel _ err m (clearBreak_state self.State h0) h
  rcases hs with hs | hs <;> simp [hs]

/-- C15 (amended), on the program `NOP`. -/
theorem Execute_final_state_witness :
    ({ testExecutor [NOP] [] with State := .NONE, Context := some ⟨[NOP], 1⟩ } :
        Executor).State ≠ .HALT ∧
      (({ testExecutor [NOP] [] with State := .NONE, Context := some ⟨[NOP], 1⟩ } :
        Executor).State ≠ .FAULT →
       ({ testExecutor [NOP] [] with State := .NONE, Context := some ⟨[NOP], 1⟩ } :
        Executor).State = .NONE) :=
  Execute_final_state testConfig 10 (testExecutor [NOP] []) none _ (by decide) (by decide)

/-- C16 (the claim as written fails): `RET` with an empty call stack returns
`NONE` with the nil error, and the active context is dropped. -/
theorem ExecuteOp_RET_empty_Callers_no_fault :
    Executor.ExecuteOp testConfig { testExecutor [RET] [] with Context := some ⟨[RET], 1⟩ } RET
      = .ret .NONE none { testExecutor [RET] [] with Context := none } := by
  decide

/-- C16 (amended): executing `RET` while the call stack is empty is not a
fault: `ExecuteOp` returns `NONE` with the nil error, leaves the stacks as
they are and sets the active context to nil. -/
theorem ExecuteOp_RET_without_caller (cfg : Config) (self : Executor)
    (h : self.Callers = []) :
    self.ExecuteOp cfg RET = .ret .NONE none { self with Context := none } := by
  have hd : dispatch cfg RET = opRet := rfl
  unfold Executor.ExecuteOp
  rw [hd]
  simp [opRet, Executor.PopContext, h]

/-- C16 (amended), on an executor with a value on its stack. -/
theorem ExecuteOp_RET_without_caller_witness :
    (testExecutor [RET] [.integer 7]).Callers = [] ∧
      Executor.ExecuteOp testConfig (testExecutor [RET] [.integer 7]) RET =
        .ret .NONE none { testExecutor [RET] [.integer 7] with Context := none } :=
  ⟨rfl, ExecuteOp_RET_without_caller testConfig (testExecutor [RET] [.integer 7]) rfl⟩

/-- C17 (the claim as written fails): on the bytes `0x50`, `APPCALL` and
`SYSCALL` the call of `ExecuteOp` panics. -/
theorem ExecuteOp_unimplemented_examples :
    Executor.ExecuteOp testConfig (testExecutor [0x50] []) 0x50 = .abort ∧
      Executor.ExecuteOp testConfig (testExecutor [APPCALL] []) APPCALL = .abort ∧
      Executor.ExecuteOp testConfig (testExecutor [SYSCALL] []) SYSCALL = .abort :=
  ⟨by decide, by decide, by decide⟩

/-- C17 (amended): for every opcode byte that has no handler in `ExecuteOp`,
the call panics whatever the executor holds. -/
theorem ExecuteOp_unhandled_panics (cfg : Config) (self : Executor) (opcode : Byte)
    (h : hasHandler opcode = false) : self.ExecuteOp cfg opcode = .abort := by
  unfold Executor.ExecuteOp
  rw [dispatch_unhandled cfg self opcode h]

/-- C17 (amended), on the byte `0xFF`. -/
theorem ExecuteOp_unhandled_panics_witness :
    hasHandler 0xFF = false ∧
      Executor.ExecuteOp testConfig (testExecutor [0xFF] [.integer 1]) 0xFF = .abort :=
  ⟨by decide, ExecuteOp_unhandled_panics testConfig (testExecutor [0xFF] [.integer 1]) 0xFF
    (by decide)⟩

end neovm
namespace neovm
open types errors constants common

/-- Reading the operand of a jump moves the cursor by two bytes. -/
theorem ReadInt16_context (code : List Byte) (ip : Nat) (r : Int) (c : ExecutionContext)
    (h : ExecutionContext.ReadInt16 ⟨code, ip⟩ = .ok (r, c)) : c = ⟨code, ip + 2⟩ := by
  unfold ExecutionContext.ReadInt16 ExecutionContext.ReadBytes at h
  by_cases hl : (ExecutionContext.mk code ip).rest.length < 2
  · simp [hl] at h
  · simp [hl] at h
    exact h.2.symm

/-- A jump other than `CALL` reads its operand and goes on with the range
check. -/
theorem opJump_tail (opcode : Byte) (hop : opcode ≠ CALL) (self : Executor) (code : List Byte)
    (p : Nat) (r : Int)
    (hctx : self.Context = some ⟨code, p + 1⟩)
    (hr : ExecutionContext.ReadInt16 ⟨code, p + 1⟩ = .ok (r, ⟨code, p + 3⟩)) :
    opJump opcode self = jumpTail opcode code p r { self with Context := some ⟨code, p + 3⟩ } := by
  have e1 : (((p + 3 : Nat) : Int) + r - 3) = (p : Int) + r := by push_cast; ring
  simp only [opJump, jumpTail, bind, Op.bind, pure, Op.read, Op.context, hctx, hr,
    ExecutionContext.GetInstructionPointer, if_neg hop, e1]

/-- A target outside the code is the fault `ERR_FAULT`. -/
theorem jumpTail_out (opcode : Byte) (code : List Byte) (p : Nat) (r : Int) (m : Executor)
    (h : (p : Int) + r < 0 ∨ (p : Int) + r > code.length) :
    jumpTail opcode code p r m = .fault (some .ERR_FAULT) m := by
  simp only [jumpTail, if_pos h, Op.fail]

/-- `JMP` sets the instruction pointer to a target inside the code. -/
theorem jumpTail_JMP (code : List Byte) (p : Nat) (r : Int) (m : Executor) (ip : Nat)
    (hm : m.Context = some ⟨code, ip⟩)
    (h : 0 ≤ (p : Int) + r ∧ (p : Int) + r ≤ code.length) :
    jumpTail JMP code p r m = .ok () { m with Context := some ⟨code, ((p : Int) + r).toNat⟩ } := by
  have hn : ¬ ((p : Int) + r < 0 ∨ (p : Int) + r > code.length) := by omega
  have h0 : ¬ ((p : Int) + r < 0) := by omega
  unfold jumpTail
  rw [if_neg hn]
  simp [bind, Op.bind, pure, Op.read, hm, ExecutionContext.SetInstructionPointer, h0, JMP]

/-- `JMPIF` and `JMPIFNOT` pop the condition and jump or fall through. -/
theorem jumpTail_cond (opcode : Byte) (hop : opcode = JMPIF ∨ opcode = JMPIFNOT)
    (code : List Byte) (p : Nat) (r : Int) (m : Executor) (ip : Nat)
    (hm : m.Context = some ⟨code, ip⟩)
    (h : 0 ≤ (p : Int) + r ∧ (p : Int) + r ≤ code.length)
    (v : RefValue) (rest : List RefValue) (b : Bool)
    (hs : m.EvalStack.data = v :: rest) (hv : v.AsBool = .ok b) :
    jumpTail opcode code p r m =
      .ok () { m with
        EvalStack := { m.EvalStack with data := rest }
        Context := some ⟨code,
          if b = decide (opcode = JMPIF) then ((p : Int) + r).toNat else ip⟩ } := by
  have hn : ¬ ((p : Int) + r < 0 ∨ (p : Int) + r > code.length) := by omega
  have h0 : ¬ ((p : Int) + r < 0) := by omega
  have hj : opcode ≠ JMP := by
    rcases hop with h1 | h1 <;> rw [h1] <;> decide
  have hpop : Op.eval ValueStack.PopAsBool m =
      .ok b { m with EvalStack := { m.EvalStack with data := rest } } := by
    simp [Op.eval, ValueStack.PopAsBool, bind, StackM.bind, ValueStack.Pop, hs, StackM.lift, hv]
  rcases hop with h1 | h1
  · subst h1
    unfold jumpTail
    rw [if_neg hn]
    cases b <;>
      simp [bind, Op.bind, pure, Op.read, hm, hpop,
        ExecutionContext.SetInstructionPointer, h0, JMPIF, JMP]
  · subst h1
    unfold jumpTail
    rw [if_neg hn]
    cases b <;>
      simp [bind, Op.bind, pure, Op.read, hm, hpop,
        ExecutionContext.SetInstructionPointer, h0, JMPIFNOT, JMPIF, JMP]

/-- The opcode read at a position of the code is the byte there. -/
theorem ReadOpCode_get (code : List Byte) (p : Nat) (b : Byte)
    (h : code.get? p = some b) :
    ExecutionContext.ReadOpCode ⟨code, p⟩ = some (b, ⟨code, p + 1⟩) := by
  have hlt : p < code.length := by
    by_contra hn
    rw [List.get?_eq_none.mpr (by omega)] at h
    exact Option.noConfusion h
  have hd : code.drop p = b :: code.drop (p + 1) := by
    rw [List.drop_eq_getElem_cons hlt]
    congr 1
    rw [List.get?_eq_getElem? , List.getElem?_eq_getElem hlt] at h
    exact Option.some.inj h
  simp [ExecutionContext.ReadOpCode, ExecutionContext.rest, hd]

/-- `CALL` pushes the context of the return address and goes on as `JMP`. -/
theorem opJump_CALL (self : Executor) (code : List Byte) (p : Nat) (r : Int)
    (hctx : self.Context = some ⟨code, p + 1⟩)
    (hr : ExecutionContext.ReadInt16 ⟨code, p + 1⟩ = .ok (r, ⟨code, p + 3⟩)) :
    opJump CALL self =
      jumpTail JMP code p r
        { self with Callers := self.Callers ++ [⟨code, p + 3⟩]
                    Context := some ⟨code, p + 3⟩ } := by
  have e1 : (((p + 3 : Nat) : Int) + r - 3) = (p : Int) + r := by push_cast; ring
  have e2 : ((((p + 1 : Nat) : Int) + 2 < 0) = False) := by
    apply eq_false; omega
  have e3 : (((p + 1 : Nat) : Int) + 2).toNat = p + 3 := by omega
  simp only [opJump, jumpTail, bind, Op.bind, pure, Op.read, Op.context, hctx, hr,
    ExecutionContext.GetInstructionPointer, if_true, e1, ExecutionContext.Clone,
    ExecutionContext.SetInstructionPointer, Executor.PushContext, e2, if_false, e3]

/-- C18: for a jump whose opcode byte is at code offset `p` and whose signed
16-bit operand is `r`: if `p + r` is negative or beyond the code length then
`JMP`, `JMPIF` and `JMPIFNOT` return `FAULT` with an error; otherwise `JMP`
leaves the instruction pointer at `p + r`, and `JMPIF` and `JMPIFNOT` pop the
condition and leave it at `p + r` when the condition selects the jump and at
`p + 3` when it does not. -/
theorem JMP_target (cfg : Config) (self : Executor) (code : List Byte) (p : Nat) (r : Int)
    (c : ExecutionContext)
    (hctx : self.Context = some ⟨code, p + 1⟩)
    (hr : ExecutionContext.ReadInt16 ⟨code, p + 1⟩ = .ok (r, c)) :
    (((p : Int) + r < 0 ∨ (p : Int) + r > code.length) →
      ∀ opcode : Byte, opcode = JMP ∨ opcode = JMPIF ∨ opcode = JMPIFNOT →
        self.ExecuteOp cfg opcode =
          .ret .FAULT (some .ERR_FAULT) { self with Context := some ⟨code, p + 3⟩ }) ∧
    ((0 ≤ (p : Int) + r ∧ (p : Int) + r ≤ code.length) →
      self.ExecuteOp cfg JMP =
          .ret .NONE none { self with Context := some ⟨code, ((p : Int) + r).toNat⟩ } ∧
        ∀ (v : RefValue) (rest : List RefValue) (b : Bool),
          self.EvalStack.data = v :: rest → v.AsBool = .ok b →
          self.ExecuteOp cfg JMPIF =
              .ret .NONE none { self with
                EvalStack := { self.EvalStack with data := rest }
                Context := some ⟨code, if b then ((p : Int) + r).toNat else p + 3⟩ } ∧
            self.ExecuteOp cfg JMPIFNOT =
              .ret .NONE none { self with
                EvalStack := { self.EvalStack with data := rest }
                Context := some ⟨code, if b then p + 3 else ((p : Int) + r).toNat⟩ }) := by
  have hc := ReadInt16_context code (p + 1) r c hr
  subst hc
  have hJ : dispatch cfg JMP = opJump JMP := rfl
  have hI : dispatch cfg JMPIF = opJump JMPIF := rfl
  have hN : dispatch cfg JMPIFNOT = opJump JMPIFNOT := rfl
  have tJ := opJump_tail JMP (by decide) self code p r hctx hr
  have tI := opJump_tail JMPIF (by decide) self code p r hctx hr
  have tN := opJump_tail JMPIFNOT (by decide) self code p r hctx hr
  refine ⟨fun hout opcode hop => ?_, fun hin => ⟨?_, fun v rest b hs hv => ⟨?_, ?_⟩⟩⟩
  · rcases hop with h | h | h <;> subst h
    · rw [Executor.ExecuteOp, hJ, tJ, jumpTail_out _ _ _ _ _ hout]
    · rw [Executor.ExecuteOp, hI, tI, jumpTail_out _ _ _ _ _ hout]
    · rw [Executor.ExecuteOp, hN, tN, jumpTail_out _ _ _ _ _ hout]
  · rw [Executor.ExecuteOp, hJ, tJ, jumpTail_JMP code p r _ (p + 3) rfl hin]
  · rw [Executor.ExecuteOp, hI, tI,
      jumpTail_cond JMPIF (Or.inl rfl) code p r { self with Context := some ⟨code, p + 3⟩ }
        (p + 3) rfl hin v rest b hs hv]
    cases b <;> simp
  · rw [Executor.ExecuteOp, hN, tN,
      jumpTail_cond JMPIFNOT (Or.inr rfl) code p r { self with Context := some ⟨code, p + 3⟩ }
        (p + 3) rfl hin v rest b hs hv]
    cases b <;> simp [JMPIFNOT, JMPIF]

/-- C18, on the code `NOP JMP 3 NOP NOP`: the jump at offset 1 with operand 3
leaves the instruction pointer at 4. -/
theorem JMP_target_witness :
    Executor.ExecuteOp testConfig
        { testExecutor [NOP, JMP, 3, 0, NOP, NOP] [] with
          Context := some ⟨[NOP, JMP, 3, 0, NOP, NOP], 2⟩ } JMP =
      .ret .NONE none
        { testExecutor [NOP, JMP, 3, 0, NOP, NOP] [] with
          Context := some ⟨[NOP, JMP, 3, 0, NOP, NOP], 4⟩ } :=
  ((JMP_target testConfig
      { testExecutor [NOP, JMP, 3, 0, NOP, NOP] [] with
        Context := some ⟨[NOP, JMP, 3, 0, NOP, NOP], 2⟩ }
      [NOP, JMP, 3, 0, NOP, NOP] 1 3 ⟨[NOP, JMP, 3, 0, NOP, NOP], 4⟩ rfl rfl).2
    (by decide)).1

/-- `CALL` with a target inside the code pushes the return address and sets
the instruction pointer to the target. -/
theorem ExecuteOp_CALL (cfg : Config) (self : Executor) (code : List Byte) (p : Nat) (r : Int)
    (hctx : self.Context = some ⟨code, p + 1⟩)
    (hr : ExecutionContext.ReadInt16 ⟨code, p + 1⟩ = .ok (r, ⟨code, p + 3⟩))
    (hin : 0 ≤ (p : Int) + r ∧ (p : Int) + r ≤ code.length) :
    self.ExecuteOp cfg CALL =
      .ret .NONE none { self with
        Callers := self.Callers ++ [⟨code, p + 3⟩]
        Context := some ⟨code, ((p : Int) + r).toNat⟩ } := by
  have hd : dispatch cfg CALL = opJump CALL := rfl
  rw [Executor.ExecuteOp, hd, opJump_CALL self code p r hctx hr,
    jumpTail_JMP code p r _ (p + 3) rfl hin]

/-- `RET` with a caller on the call stack resumes the caller and removes it
from the call stack. -/
theorem ExecuteOp_RET_caller (cfg : Config) (self : Executor) (callers : List ExecutionContext)
    (caller : ExecutionContext) (h : self.Callers = callers ++ [caller]) :
    self.ExecuteOp cfg RET =
      .ret .NONE none { self with Callers := callers, Context := some caller } := by
  have hd : dispatch cfg RET = opRet := rfl
  unfold Executor.ExecuteOp
  rw [hd]
  simp [opRet, Executor.PopContext, h]

/-- C19: for a `CALL` at code offset `p` with a target inside the code and a
`RET` at the target, the `CALL` pushes the return address and the `RET` pops
it again: after the two instructions the executor is the one before the
`CALL` with the instruction pointer at `p + 3`, so the call stack, the
evaluation stack and the auxiliary stack are as they were. -/
theorem CALL_RET_resumes_after_operand (cfg : Config) (fuel : Nat) (self : Executor)
    (code : List Byte) (p : Nat) (r : Int) (c : ExecutionContext)
    (hctx : self.Context = some ⟨code, p⟩) (hstate : self.State = .NONE)
    (hcall : code.get? p = some CALL)
    (hr : ExecutionContext.ReadInt16 ⟨code, p + 1⟩ = .ok (r, c))
    (hin : 0 ≤ (p : Int) + r ∧ (p : Int) + r ≤ code.length)
    (hret : code.get? ((p : Int) + r).toNat = some RET) :
    ExecutionContext.ReadOpCode ⟨code, p⟩ = some (CALL, ⟨code, p + 1⟩) ∧
    Executor.ExecuteOp cfg { self with Context := some ⟨code, p + 1⟩ } CALL =
      .ret .NONE none { self with
        Callers := self.Callers ++ [⟨code, p + 3⟩]
        Context := some ⟨code, ((p : Int) + r).toNat⟩ } ∧
    ExecutionContext.ReadOpCode ⟨code, ((p : Int) + r).toNat⟩ =
      some (RET, ⟨code, ((p : Int) + r).toNat + 1⟩) ∧
    Executor.ExecuteOp cfg { self with
        Callers := self.Callers ++ [⟨code, p + 3⟩]
        Context := some ⟨code, ((p : Int) + r).toNat + 1⟩ } RET =
      .ret .NONE none { self with Context := some ⟨code, p + 3⟩ } ∧
    Executor.loop cfg (fuel + 2) self =
      Executor.loop cfg fuel { self with Context := some ⟨code, p + 3⟩ } := by
  have hc := ReadInt16_context code (p + 1) r c hr
  subst hc
  obtain ⟨es, as, st, callers, ctx, store⟩ := self
  simp only at hctx hstate
  subst hctx hstate
  have h1 := ReadOpCode_get code p CALL hcall
  have h2 := ExecuteOp_CALL cfg ⟨es, as, .NONE, callers, some ⟨code, p + 1⟩, store⟩
    code p r rfl hr hin
  have h3 := ReadOpCode_get code ((p : Int) + r).toNat RET hret
  have h4 := ExecuteOp_RET_caller cfg
    ⟨es, as, .NONE, callers ++ [⟨code, p + 3⟩], some ⟨code, ((p : Int) + r).toNat + 1⟩, store⟩
    callers ⟨code, p + 3⟩ rfl
  refine ⟨h1, h2, h3, h4, ?_⟩
  have hs2 : ¬ (VMState.NONE = .FAULT ∨ VMState.NONE = .HALT ∨ VMState.NONE = .BREAK) := by
    decide
  rw [Executor.loop]
  simp only [if_neg hs2, h1, h2]
  rw [Executor.loop]
  simp only [if_neg hs2, h3, h4]

/-- C19, on the code `CALL 4 NOP RET` with a value on the evaluation stack:
the `RET` at offset 4 resumes at offset 3 with the stacks and the call stack
as before the `CALL`. -/
theorem CALL_RET_resumes_after_operand_witness :
    Executor.ExecuteOp testConfig
        { testExecutor [CALL, 4, 0, NOP, RET] [.integer 7] with
          State := .NONE
          Callers := [⟨[CALL, 4, 0, NOP, RET], 3⟩]
          Context := some ⟨[CALL, 4, 0, NOP, RET], 5⟩ } RET =
      .ret .NONE none
        { testExecutor [CALL, 4, 0, NOP, RET] [.integer 7] with
          State := .NONE
          Context := some ⟨[CALL, 4, 0, NOP, RET], 3⟩ } :=
  (CALL_RET_resumes_after_operand testConfig 0
    { testExecutor [CALL, 4, 0, NOP, RET] [.integer 7] with State := .NONE }
    [CALL, 4, 0, NOP, RET] 0 4 ⟨[CALL, 4, 0, NOP, RET], 3⟩ rfl rfl rfl rfl (by decide)
    rfl).2.2.2.1

/-- C20 (the code diverges): on the code `PUSHDATA1 5 1 2`, where the length
byte asks for five bytes and two are left, the instruction returns `NONE`
with the nil error and pushes a ByteArray; `PUSHBYTES5` on the same two bytes
returns `FAULT` with the error of the read. With two bytes asked for,
`PUSHDATA1` pushes exactly the two bytes. -/
theorem PUSHDATA1_short_read_pushes :
    Executor.ExecuteOp testConfig
        { testExecutor [PUSHDATA1, 5, 1, 2] [] with
          Context := some ⟨[PUSHDATA1, 5, 1, 2], 1⟩ } PUSHDATA1 =
      .ret .NONE none
        { testExecutor [PUSHDATA1, 5, 1, 2] [.bytearray []] with
          Context := some ⟨[PUSHDATA1, 5, 1, 2], 2⟩ } ∧
    Executor.ExecuteOp testConfig
        { testExecutor [5, 1, 2] [] with Context := some ⟨[5, 1, 2], 1⟩ } 5 =
      .ret .FAULT (some .ErrEOF)
        { testExecutor [5, 1, 2] [] with Context := some ⟨[5, 1, 2], 1⟩ } ∧
    Executor.ExecuteOp testConfig
        { testExecutor [PUSHDATA1, 2, 1, 2] [] with
          Context := some ⟨[PUSHDATA1, 2, 1, 2], 1⟩ } PUSHDATA1 =
      .ret .NONE none
        { testExecutor [PUSHDATA1, 2, 1, 2] [.bytearray [1, 2]] with
          Context := some ⟨[PUSHDATA1, 2, 1, 2], 4⟩ } :=
  ⟨by decide, by decide, by decide⟩

end neovm

namespace neovm
open types errors constants common

/-- An integer operand inside the 64-bit range is read by `AsInt64` as it
is. -/
theorem AsInt64_of_IsInt64 (lim : Limits) (v : RefValue) (iv : IntValue)
    (h : v.AsIntValue lim = .ok iv) (hr : IsInt64 iv.toInt = true) :
    v.AsInt64 lim = .ok iv.toInt := by
  unfold RefValue.AsInt64
  rw [h]
  cases iv with
  | small i => rfl
  | big b =>
    simp only [IntValue.toInt] at hr ⊢
    simp [hr]

/-- A pop from a stack that is not empty. -/
theorem eval_Pop (m : Executor) (v : RefValue) (rest : List RefValue)
    (hm : m.EvalStack.data = v :: rest) :
    Op.eval ValueStack.Pop m = .ok v (m.setStack rest) := by
  simp [Op.eval, ValueStack.Pop, hm, Executor.setStack]

/-- A pop of a value that `AsInt64` reads. -/
theorem eval_PopAsInt64 (lim : Limits) (m : Executor) (v : RefValue) (rest : List RefValue)
    (n : Int) (hm : m.EvalStack.data = v :: rest) (h : v.AsInt64 lim = .ok n) :
    Op.eval (ValueStack.PopAsInt64 lim) m = .ok n (m.setStack rest) := by
  simp [Op.eval, ValueStack.PopAsInt64, bind, StackM.bind, ValueStack.Pop, hm, StackM.lift, h,
    Executor.setStack]

/-- A pop of a value that has a byte encoding. -/
theorem eval_PopAsBytes (m : Executor) (v : RefValue) (rest : List RefValue)
    (x : List Byte) (hm : m.EvalStack.data = v :: rest) (h : v.AsBytes = .ok x) :
    Op.eval ValueStack.PopAsBytes m = .ok x (m.setStack rest) := by
  simp [Op.eval, ValueStack.PopAsBytes, bind, StackM.bind, ValueStack.Pop, hm, StackM.lift, h,
    Executor.setStack]

/-- Popping a pair of 64-bit operands: the deeper one is the left one. -/
theorem eval_PopPairAsInt64 (lim : Limits) (m : Executor) (r l : RefValue)
    (rest : List RefValue) (a b : Int) (hm : m.EvalStack.data = r :: l :: rest)
    (hl : l.AsInt64 lim = .ok a) (hr : r.AsInt64 lim = .ok b) :
    Op.eval (ValueStack.PopPairAsInt64 lim) m = .ok (a, b) (m.setStack rest) := by
  simp [Op.eval, ValueStack.PopPairAsInt64, ValueStack.PopPair, bind, StackM.bind,
    ValueStack.Pop, hm, StackM.lift, hl, hr, Executor.setStack, pure]

/-- A push of a byte string inside the size limit below the stack limit. -/
theorem eval_PushBytes (lim : Limits) (m : Executor) (x : List Byte)
    (hx : x.length ≤ lim.MAX_BYTEARRAY_SIZE) (hl : m.EvalStack.data.length < m.EvalStack.limit) :
    Op.eval (ValueStack.PushBytes lim x) m =
      .ok () (m.setStack (.bytearray x :: m.EvalStack.data)) := by
  have h1 : ¬ (x.length > lim.MAX_BYTEARRAY_SIZE) := by omega
  have h2 : ¬ (m.EvalStack.data.length ≥ m.EvalStack.limit) := by omega
  simp [Op.eval, ValueStack.PushBytes, bind, StackM.bind, StackM.lift, RefValue.FromBytes, h1,
    ValueStack.Push, h2, Executor.setStack]

/-- A sum or difference inside the 64-bit range is not changed by the
reduction modulo `2 ^ 64`. -/
theorem wrapInt64_eq (n : Int) (h1 : -(2 : Int) ^ 63 ≤ n) (h2 : n < (2 : Int) ^ 63) :
    wrapInt64 n = n := by
  unfold wrapInt64
  norm_num at h1 h2 ⊢
  omega

/-- The Go slice `x[s : s+c]` as a drop followed by a take. -/
theorem slice_eq (x : List Byte) (s c : Int) (hs : 0 ≤ s) (hc : 0 ≤ c) :
    slice x s (s + c) = (x.drop s.toNat).take c.toNat := by
  unfold slice
  have : (s + c).toNat - s.toNat = c.toNat := by omega
  rw [this]

/-- The result of `ExecuteOp` is the one for the outcome of the handler. -/
theorem ExecuteOp_eq (cfg : Config) (self : Executor) (opcode : Byte) :
    self.ExecuteOp cfg opcode = OpResult.ofOutcome (dispatch cfg opcode self) := by
  unfold Executor.ExecuteOp OpResult.ofOutcome
  rfl

/-- `SUBSTR` after its three operands have been popped. -/
theorem SUBSTR_popped (cfg : Config) (self : Executor) (vx vs vc : RefValue)
    (rest : List RefValue) (x : List Byte) (s c : Int)
    (hstack : self.EvalStack.data = vc :: vs :: vx :: rest)
    (hx : vx.AsBytes = .ok x)
    (hs : vs.AsInt64 cfg.lim = .ok s)
    (hc : vc.AsInt64 cfg.lim = .ok c) :
    dispatch cfg SUBSTR self =
      (if s < 0 ∨ s > (x.length : Int) then Op.fail .ERR_OVER_MAX_ARRAY_SIZE
      else if c < 0 ∨ c > (x.length : Int) then Op.fail .ERR_OVER_MAX_ARRAY_SIZE
      else if wrapInt64 (s + c) > (x.length : Int) then Op.fail .ERR_OVER_MAX_ARRAY_SIZE
      else Op.eval (ValueStack.PushBytes cfg.lim (slice x s (wrapInt64 (s + c)))) : Op Unit)
        (self.setStack rest) := by
  have hd : dispatch cfg SUBSTR = opSplice cfg SUBSTR := rfl
  have h1 := eval_PopPairAsInt64 cfg.lim self vc vs (vx :: rest) s c hstack hs hc
  have h2 := eval_PopAsBytes (self.setStack (vx :: rest)) vx rest x rfl hx
  have h3 : (self.setStack (vx :: rest)).setStack rest = self.setStack rest := rfl
  rw [h3] at h2
  rw [hd]
  have hop : opSplice cfg SUBSTR = (do
      let (start, count) ← Op.eval (ValueStack.PopPairAsInt64 cfg.lim)
      let arr ← Op.eval ValueStack.PopAsBytes
      let length : Int := arr.length
      if start < 0 ∨ start > length then Op.fail .ERR_OVER_MAX_ARRAY_SIZE
      else if count < 0 ∨ count > length then Op.fail .ERR_OVER_MAX_ARRAY_SIZE
      else
        let stop := wrapInt64 (start + count)
        if stop > length then Op.fail .ERR_OVER_MAX_ARRAY_SIZE
        else Op.eval (ValueStack.PushBytes cfg.lim (slice arr start stop)) : Op Unit) := rfl
  rw [hop]
  simp only [bind, Op.bind, h1, h2]

/-- `SUBSTR` with operands inside the bounds pushes the slice. -/
theorem SUBSTR_in (cfg : Config) (self : Executor) (vx vs vc : RefValue)
    (rest : List RefValue) (x : List Byte) (s c : Int)
    (hstack : self.EvalStack.data = vc :: vs :: vx :: rest)
    (hx : vx.AsBytes = .ok x) (hxl : (x.length : Int) < 2 ^ 62)
    (hs : vs.AsInt64 cfg.lim = .ok s) (hc : vc.AsInt64 cfg.lim = .ok c)
    (hin : 0 ≤ s ∧ 0 ≤ c ∧ s + c ≤ x.length)
    (hmax : x.length ≤ cfg.lim.MAX_BYTEARRAY_SIZE)
    (hlim : rest.length < self.EvalStack.limit) :
    self.ExecuteOp cfg SUBSTR =
      .ret .NONE none (self.setStack (.bytearray ((x.drop s.toNat).take c.toNat) :: rest)) := by
  obtain ⟨hs0, hc0, hsc⟩ := hin
  have e1 : ¬ (s < 0 ∨ s > (x.length : Int)) := by omega
  have e2 : ¬ (c < 0 ∨ c > (x.length : Int)) := by omega
  have e3 : wrapInt64 (s + c) = s + c := by
    apply wrapInt64_eq <;> norm_num at hxl ⊢ <;> omega
  have e4 : ¬ (s + c > (x.length : Int)) := by omega
  have hlen : ((x.drop s.toNat).take c.toNat).length ≤ cfg.lim.MAX_BYTEARRAY_SIZE := by
    simp only [List.length_take, List.length_drop]
    omega
  have hp := eval_PushBytes cfg.lim (self.setStack rest) _ hlen hlim
  rw [ExecuteOp_eq, SUBSTR_popped cfg self vx vs vc rest x s c hstack hx hs hc]
  simp only [if_neg e1, if_neg e2, e3, if_neg e4, slice_eq x s c hs0 hc0, hp]
  rfl

/-- `SUBSTR` with operands outside the bounds returns `FAULT` and pushes
nothing. -/
theorem SUBSTR_out (cfg : Config) (self : Executor) (vx vs vc : RefValue)
    (rest : List RefValue) (x : List Byte) (s c : Int)
    (hstack : self.EvalStack.data = vc :: vs :: vx :: rest)
    (hx : vx.AsBytes = .ok x) (hxl : (x.length : Int) < 2 ^ 62)
    (hs : vs.AsInt64 cfg.lim = .ok s) (hc : vc.AsInt64 cfg.lim = .ok c)
    (hout : ¬ (0 ≤ s ∧ 0 ≤ c ∧ s + c ≤ x.length)) :
    self.ExecuteOp cfg SUBSTR =
      .ret .FAULT (some .ERR_OVER_MAX_ARRAY_SIZE) (self.setStack rest) := by
  rw [ExecuteOp_eq, SUBSTR_popped cfg self vx vs vc rest x s c hstack hx hs hc]
  by_cases e1 : s < 0 ∨ s > (x.length : Int)
  · simp only [if_pos e1, Op.fail]; rfl
  · by_cases e2 : c < 0 ∨ c > (x.length : Int)
    · simp only [if_neg e1, if_pos e2, Op.fail]; rfl
    · have e3 : wrapInt64 (s + c) = s + c := by
        apply wrapInt64_eq <;> norm_num at hxl ⊢ <;> omega
      have e4 : s + c > (x.length : Int) := by omega
      simp only [if_neg e1, if_neg e2, e3, if_pos e4, Op.fail]; rfl

/-- `LEFT` and `RIGHT` after their two operands have been popped. -/
theorem LEFT_RIGHT_popped (cfg : Config) (self : Executor) (vx vn : RefValue)
    (rest : List RefValue) (x : List Byte) (n : Int)
    (hstack : self.EvalStack.data = vn :: vx :: rest)
    (hx : vx.AsBytes = .ok x) (hn : vn.AsInt64 cfg.lim = .ok n) :
    dispatch cfg LEFT self =
      (if n < 0 ∨ n > (x.length : Int) then Op.fail .ERR_OVER_MAX_ARRAY_SIZE
      else Op.eval (ValueStack.PushBytes cfg.lim (slice x 0 n)) : Op Unit)
        (self.setStack rest) ∧
    dispatch cfg RIGHT self =
      (if n < 0 ∨ n > (x.length : Int) then Op.fail .ERR_OVER_MAX_ARRAY_SIZE
      else Op.eval (ValueStack.PushBytes cfg.lim
        (slice x (wrapInt64 ((x.length : Int) - n)) (x.length : Int))) : Op Unit)
        (self.setStack rest) := by
  have hl : dispatch cfg LEFT = opSplice cfg LEFT := rfl
  have hr : dispatch cfg RIGHT = opSplice cfg RIGHT := rfl
  have h1 := eval_PopAsInt64 cfg.lim self vn (vx :: rest) n hstack hn
  have h2 := eval_PopAsBytes (self.setStack (vx :: rest)) vx rest x rfl hx
  have h3 : (self.setStack (vx :: rest)).setStack rest = self.setStack rest := rfl
  rw [h3] at h2
  have hopl : opSplice cfg LEFT = (do
      let count ← Op.eval (ValueStack.PopAsInt64 cfg.lim)
      let arr ← Op.eval ValueStack.PopAsBytes
      let length : Int := arr.length
      if count < 0 ∨ count > length then Op.fail .ERR_OVER_MAX_ARRAY_SIZE
      else Op.eval (ValueStack.PushBytes cfg.lim (slice arr 0 count)) : Op Unit) := rfl
  have hopr : opSplice cfg RIGHT = (do
      let count ← Op.eval (ValueStack.PopAsInt64 cfg.lim)
      let arr ← Op.eval ValueStack.PopAsBytes
      let length : Int := arr.length
      if count < 0 ∨ count > length then Op.fail .ERR_OVER_MAX_ARRAY_SIZE
      else Op.eval (ValueStack.PushBytes cfg.lim
        (slice arr (wrapInt64 (length - count)) length)) : Op Unit) := rfl
  constructor
  · rw [hl, hopl]
    simp only [bind, Op.bind, h1, h2]
  · rw [hr, hopr]
    simp only [bind, Op.bind, h1, h2]

/-- `LEFT` and `RIGHT` with a count inside the bounds push the first and the
last bytes. -/
theorem LEFT_RIGHT_in (cfg : Config) (self : Executor) (vx vn : RefValue)
    (rest : List RefValue) (x : List Byte) (n : Int)
    (hstack : self.EvalStack.data = vn :: vx :: rest)
    (hx : vx.AsBytes = .ok x) (hxl : (x.length : Int) < 2 ^ 62)
    (hn : vn.AsInt64 cfg.lim = .ok n)
    (hin : 0 ≤ n ∧ n ≤ x.length)
    (hmax : x.length ≤ cfg.lim.MAX_BYTEARRAY_SIZE)
    (hlim : rest.length < self.EvalStack.limit) :
    self.ExecuteOp cfg LEFT =
        .ret .NONE none (self.setStack (.bytearray (x.take n.toNat) :: rest)) ∧
      self.ExecuteOp cfg RIGHT =
        .ret .NONE none (self.setStack (.bytearray (x.drop (x.length - n.toNat)) :: rest)) := by
  obtain ⟨h0, h1⟩ := hin
  have e1 : ¬ (n < 0 ∨ n > (x.length : Int)) := by omega
  have e2 : wrapInt64 ((x.length : Int) - n) = (x.length : Int) - n := by
    apply wrapInt64_eq <;> norm_num at hxl ⊢ <;> omega
  have s1 : slice x 0 n = x.take n.toNat := by
    simp [slice]
  have s2 : slice x ((x.length : Int) - n) (x.length : Int) = x.drop (x.length - n.toNat) := by
    unfold slice
    have a1 : ((x.length : Int) - n).toNat = x.length - n.toNat := by omega
    have a2 : ((x.length : Int)).toNat - (x.length - n.toNat) = n.toNat := by omega
    rw [a1, a2]
    apply List.take_of_length_le
    simp only [List.length_drop]
    omega
  have l1 : (x.take n.toNat).length ≤ cfg.lim.MAX_BYTEARRAY_SIZE := by
    simp only [List.length_take]; omega
  have l2 : (x.drop (x.length - n.toNat)).length ≤ cfg.lim.MAX_BYTEARRAY_SIZE := by
    simp only [List.length_drop]; omega
  have p1 := eval_PushBytes cfg.lim (self.setStack rest) _ l1 hlim
  have p2 := eval_PushBytes cfg.lim (self.setStack rest) _ l2 hlim
  obtain ⟨hL, hR⟩ := LEFT_RIGHT_popped cfg self vx vn rest x n hstack hx hn
  constructor
  · rw [ExecuteOp_eq, hL]
    simp only [if_neg e1, s1, p1]
    rfl
  · rw [ExecuteOp_eq, hR]
    simp only [if_neg e1, e2, s2, p2]
    rfl

/-- `LEFT` and `RIGHT` with a count outside the bounds return `FAULT` and push
nothing. -/
theorem LEFT_RIGHT_out (cfg : Config) (self : Executor) (vx vn : RefValue)
    (rest : List RefValue) (x : List Byte) (n : Int)
    (hstack : self.EvalStack.data = vn :: vx :: rest)
    (hx : vx.AsBytes = .ok x) (hn : vn.AsInt64 cfg.lim = .ok n)
    (hout : ¬ (0 ≤ n ∧ n ≤ x.length)) :
    self.ExecuteOp cfg LEFT =
        .ret .FAULT (some .ERR_OVER_MAX_ARRAY_SIZE) (self.setStack rest) ∧
      self.ExecuteOp cfg RIGHT =
        .ret .FAULT (some .ERR_OVER_MAX_ARRAY_SIZE) (self.setStack rest) := by
  have e1 : n < 0 ∨ n > (x.length : Int) := by omega
  obtain ⟨hL, hR⟩ := LEFT_RIGHT_popped cfg self vx vn rest x n hstack hx hn
  constructor
  · rw [ExecuteOp_eq, hL]
    simp only [if_pos e1, Op.fail]; rfl
  · rw [ExecuteOp_eq, hR]
    simp only [if_pos e1, Op.fail]; rfl

/-- Whenever `AsIntValue` succeeds, `AsInt64` returns some integer without an
error. -/
theorem AsInt64_ok (lim : Limits) (v : RefValue) (iv : IntValue)
    (h : v.AsIntValue lim = .ok iv) : ∃ n, v.AsInt64 lim = .ok n := by
  unfold RefValue.AsInt64
  rw [h]
  cases iv with
  | small i => exact ⟨i, rfl⟩
  | big b =>
    by_cases hb : IsInt64 b = false
    · exact ⟨0, by simp [hb]⟩
    · exact ⟨b, by simp [hb]⟩

/-- C21: `SUBSTR` with a byte string `x` pushed first, then the start `s`,
then the count `c`, both 64-bit integers: if `0 ≤ s`, `0 ≤ c` and
`s + c ≤ len(x)` the three operands are replaced by the ByteArray
`x[s .. s+c)`; for every other `s` and `c` the instruction returns `FAULT`
with the three operands popped and nothing pushed; and the sum `s + c` that
the bound check computes in 64 bits is the exact sum. -/
theorem SUBSTR_bounds (cfg : Config) (self : Executor) (vx vs vc : RefValue)
    (rest : List RefValue) (x : List Byte) (sv cv : IntValue)
    (hstack : self.EvalStack.data = vc :: vs :: vx :: rest)
    (hx : vx.AsBytes = .ok x) (hxl : (x.length : Int) < 2 ^ 62)
    (hs : vs.AsIntValue cfg.lim = .ok sv) (hsr : IsInt64 sv.toInt = true)
    (hc : vc.AsIntValue cfg.lim = .ok cv) (hcr : IsInt64 cv.toInt = true) :
    ((0 ≤ sv.toInt ∧ 0 ≤ cv.toInt ∧ sv.toInt + cv.toInt ≤ x.length) →
      x.length ≤ cfg.lim.MAX_BYTEARRAY_SIZE → rest.length < self.EvalStack.limit →
      self.ExecuteOp cfg SUBSTR =
        .ret .NONE none
          (self.setStack (.bytearray ((x.drop sv.toInt.toNat).take cv.toInt.toNat) :: rest))) ∧
    (¬ (0 ≤ sv.toInt ∧ 0 ≤ cv.toInt ∧ sv.toInt + cv.toInt ≤ x.length) →
      self.ExecuteOp cfg SUBSTR =
        .ret .FAULT (some .ERR_OVER_MAX_ARRAY_SIZE) (self.setStack rest)) ∧
    (0 ≤ sv.toInt → sv.toInt ≤ x.length → 0 ≤ cv.toInt → cv.toInt ≤ x.length →
      wrapInt64 (sv.toInt + cv.toInt) = sv.toInt + cv.toInt) := by
  have hs2 := AsInt64_of_IsInt64 cfg.lim vs sv hs hsr
  have hc2 := AsInt64_of_IsInt64 cfg.lim vc cv hc hcr
  refine ⟨fun hin hmax hlim => ?_, fun hout => ?_, fun h1 h2 h3 h4 => ?_⟩
  · exact SUBSTR_in cfg self vx vs vc rest x _ _ hstack hx hxl hs2 hc2 hin hmax hlim
  · exact SUBSTR_out cfg self vx vs vc rest x _ _ hstack hx hxl hs2 hc2 hout
  · apply wrapInt64_eq <;> norm_num at hxl ⊢ <;> omega

/-- C21 on the test vector: `SUBSTR("aaabbb", 1, 3)` is `"aab"`. -/
theorem SUBSTR_bounds_witness :
    Executor.ExecuteOp testConfig
        (testExecutor [SUBSTR] [.integer 3, .integer 1, .bytearray [97, 97, 97, 98, 98, 98]])
        SUBSTR =
      .ret .NONE none
        ((testExecutor [SUBSTR]
          [.integer 3, .integer 1, .bytearray [97, 97, 97, 98, 98, 98]]).setStack
          [.bytearray [97, 97, 98]]) :=
  (SUBSTR_bounds testConfig
    (testExecutor [SUBSTR] [.integer 3, .integer 1, .bytearray [97, 97, 97, 98, 98, 98]])
    (.bytearray [97, 97, 97, 98, 98, 98]) (.integer 1) (.integer 3) []
    [97, 97, 97, 98, 98, 98] (.small 1) (.small 3) rfl rfl (by decide) rfl (by decide) rfl
    (by decide)).1 (by decide) (by decide) (by decide)

/-- For a byte string `x` and a count `n` in the signed 64-bit range,
`LEFT(x, n)` returns what `SUBSTR(x, 0, n)` returns and `RIGHT(x, n)` what `SUBSTR(x, len(x) − n, n)`
returns, the same state, error and executor; when `0 ≤ n ≤ len(x)` they push
the first `n` and the last `n` bytes, and otherwise they return `FAULT` and
push nothing. -/
theorem LEFT_RIGHT_as_SUBSTR (cfg : Config) (self : Executor) (vx vn vstart : RefValue)
    (rest : List RefValue) (x : List Byte) (nv sv : IntValue)
    (hstack : self.EvalStack.data = vn :: vx :: rest)
    (hx : vx.AsBytes = .ok x) (hxl : (x.length : Int) < 2 ^ 62)
    (hn : vn.AsIntValue cfg.lim = .ok nv) (hnr : IsInt64 nv.toInt = true)
    (hstart : vstart.AsIntValue cfg.lim = .ok sv)
    (hsv : sv.toInt = (x.length : Int) - nv.toInt) :
    self.ExecuteOp cfg LEFT =
        (self.setStack (vn :: RefValue.FromInt64 0 :: vx :: rest)).ExecuteOp cfg SUBSTR ∧
      self.ExecuteOp cfg RIGHT =
        (self.setStack (vn :: vstart :: vx :: rest)).ExecuteOp cfg SUBSTR ∧
      ((0 ≤ nv.toInt ∧ nv.toInt ≤ x.length) →
        x.length ≤ cfg.lim.MAX_BYTEARRAY_SIZE → rest.length < self.EvalStack.limit →
        self.ExecuteOp cfg LEFT =
            .ret .NONE none (self.setStack (.bytearray (x.take nv.toInt.toNat) :: rest)) ∧
          self.ExecuteOp cfg RIGHT =
            .ret .NONE none
              (self.setStack (.bytearray (x.drop (x.length - nv.toInt.toNat)) :: rest))) ∧
      (¬ (0 ≤ nv.toInt ∧ nv.toInt ≤ x.length) →
        self.ExecuteOp cfg LEFT =
            .ret .FAULT (some .ERR_OVER_MAX_ARRAY_SIZE) (self.setStack rest) ∧
          self.ExecuteOp cfg RIGHT =
            .ret .FAULT (some .ERR_OVER_MAX_ARRAY_SIZE) (self.setStack rest)) := by
  have hn2 := AsInt64_of_IsInt64 cfg.lim vn nv hn hnr
  obtain ⟨hL, hR⟩ := LEFT_RIGHT_popped cfg self vx vn rest x nv.toInt hstack hx hn2
  have hz : (RefValue.FromInt64 0).AsInt64 cfg.lim = .ok 0 := rfl
  have hS0 := SUBSTR_popped cfg (self.setStack (vn :: RefValue.FromInt64 0 :: vx :: rest))
    vx (RefValue.FromInt64 0) vn rest x 0 nv.toInt rfl hx hz hn2
  have hset : ∀ d, (self.setStack d).setStack rest = self.setStack rest := fun _ => rfl
  refine ⟨?_, ?_, fun hin hmax hlim => ?_, fun hout => ?_⟩
  · rw [ExecuteOp_eq, ExecuteOp_eq, hL, hS0, hset]
    by_cases hin : 0 ≤ nv.toInt ∧ nv.toInt ≤ x.length
    · have e1 : ¬ (nv.toInt < 0 ∨ nv.toInt > (x.length : Int)) := by omega
      have e0 : ¬ ((0 : Int) < 0 ∨ (0 : Int) > (x.length : Int)) := by omega
      have e3 : wrapInt64 (0 + nv.toInt) = nv.toInt := by
        rw [Int.zero_add]
        apply wrapInt64_eq <;> norm_num at hxl ⊢ <;> omega
      have e4 : ¬ (nv.toInt > (x.length : Int)) := by omega
      simp only [if_neg e1, if_neg e0, e3, if_neg e4]
    · have e1 : nv.toInt < 0 ∨ nv.toInt > (x.length : Int) := by omega
      have e0 : ¬ ((0 : Int) < 0 ∨ (0 : Int) > (x.length : Int)) := by omega
      simp only [if_pos e1, if_neg e0]
  · by_cases hin : 0 ≤ nv.toInt ∧ nv.toInt ≤ x.length
    · have hsr : IsInt64 sv.toInt = true := by
        rw [hsv]; unfold IsInt64; norm_num at hxl ⊢; omega
      have hs2 := AsInt64_of_IsInt64 cfg.lim vstart sv hstart hsr
      have hS := SUBSTR_popped cfg (self.setStack (vn :: vstart :: vx :: rest))
        vx vstart vn rest x sv.toInt nv.toInt rfl hx hs2 hn2
      rw [ExecuteOp_eq, ExecuteOp_eq, hR, hS, hset, hsv]
      have e1 : ¬ (nv.toInt < 0 ∨ nv.toInt > (x.length : Int)) := by omega
      have e0 : ¬ ((x.length : Int) - nv.toInt < 0 ∨
          (x.length : Int) - nv.toInt > (x.length : Int)) := by omega
      have e2 : wrapInt64 ((x.length : Int) - nv.toInt) = (x.length : Int) - nv.toInt := by
        apply wrapInt64_eq <;> norm_num at hxl ⊢ <;> omega
      have e3 : wrapInt64 ((x.length : Int) - nv.toInt + nv.toInt) = (x.length : Int) := by
        rw [Int.sub_add_cancel]
        apply wrapInt64_eq <;> norm_num at hxl ⊢ <;> omega
      have e4 : ¬ ((x.length : Int) > (x.length : Int)) := by omega
      simp only [if_neg e1, if_neg e0, e2, e3, if_neg e4]
    · obtain ⟨s2, hs2⟩ := AsInt64_ok cfg.lim vstart sv hstart
      have hout2 : ¬ (0 ≤ s2 ∧ 0 ≤ nv.toInt ∧ s2 + nv.toInt ≤ x.length) := by omega
      rw [(LEFT_RIGHT_out cfg self vx vn rest x nv.toInt hstack hx hn2 hin).2,
        SUBSTR_out cfg (self.setStack (vn :: vstart :: vx :: rest)) vx vstart vn rest x s2
          nv.toInt rfl hx hxl hs2 hn2 hout2, hset]
  · exact LEFT_RIGHT_in cfg self vx vn rest x nv.toInt hstack hx hxl hn2 hin hmax hlim
  · exact LEFT_RIGHT_out cfg self vx vn rest x nv.toInt hstack hx hn2 hout

/-- The test vectors: `LEFT("aaabbb", 3)` is `"aaa"` and
`RIGHT("aaabbb", 3)` is `"bbb"`. -/
theorem LEFT_RIGHT_as_SUBSTR_witness :
    Executor.ExecuteOp testConfig
        (testExecutor [LEFT] [.integer 3, .bytearray [97, 97, 97, 98, 98, 98]]) LEFT =
      .ret .NONE none
        ((testExecutor [LEFT] [.integer 3, .bytearray [97, 97, 97, 98, 98, 98]]).setStack
          [.bytearray [97, 97, 97]]) ∧
    Executor.ExecuteOp testConfig
        (testExecutor [LEFT] [.integer 3, .bytearray [97, 97, 97, 98, 98, 98]]) RIGHT =
      .ret .NONE none
        ((testExecutor [LEFT] [.integer 3, .bytearray [97, 97, 97, 98, 98, 98]]).setStack
          [.bytearray [98, 98, 98]]) :=
  (LEFT_RIGHT_as_SUBSTR testConfig
    (testExecutor [LEFT] [.integer 3, .bytearray [97, 97, 97, 98, 98, 98]])
    (.bytearray [97, 97, 97, 98, 98, 98]) (.integer 3) (.integer 3) []
    [97, 97, 97, 98, 98, 98] (.small 3) (.small 3) rfl rfl (by decide) rfl (by decide) rfl
    (by decide)).2.2.1 (by decide) (by decide) (by decide)

/-- C22 (the code diverges): on the byte string "aaabbb", `LEFT` and `RIGHT`
with the count `2 ^ 64`, which is outside `[0, 6]`, return `NONE` and push the
ByteArray of no bytes, as they do with the count 0; with the count 7 they
return `FAULT` and push nothing. -/
theorem LEFT_RIGHT_count_beyond_int64 :
    Executor.ExecuteOp testConfig
        (testExecutor [LEFT] [.bigint 18446744073709551616,
          .bytearray [97, 97, 97, 98, 98, 98]]) LEFT =
      .ret .NONE none (testExecutor [LEFT] [.bytearray []]) ∧
    Executor.ExecuteOp testConfig
        (testExecutor [RIGHT] [.bigint 18446744073709551616,
          .bytearray [97, 97, 97, 98, 98, 98]]) RIGHT =
      .ret .NONE none (testExecutor [RIGHT] [.bytearray []]) ∧
    Executor.ExecuteOp testConfig
        (testExecutor [LEFT] [.integer 0, .bytearray [97, 97, 97, 98, 98, 98]]) LEFT =
      .ret .NONE none (testExecutor [LEFT] [.bytearray []]) ∧
    Executor.ExecuteOp testConfig
        (testExecutor [RIGHT] [.integer 0, .bytearray [97, 97, 97, 98, 98, 98]]) RIGHT =
      .ret .NONE none (testExecutor [RIGHT] [.bytearray []]) ∧
    Executor.ExecuteOp testConfig
        (testExecutor [LEFT] [.integer 7, .bytearray [97, 97, 97, 98, 98, 98]]) LEFT =
      .ret .FAULT (some .ERR_OVER_MAX_ARRAY_SIZE) (testExecutor [LEFT] []) ∧
    Executor.ExecuteOp testConfig
        (testExecutor [RIGHT] [.integer 7, .bytearray [97, 97, 97, 98, 98, 98]]) RIGHT =
      .ret .FAULT (some .ERR_OVER_MAX_ARRAY_SIZE) (testExecutor [RIGHT] []) :=
  ⟨by decide, by decide, by decide, by decide, by decide, by decide⟩

end neovm

namespace neovm
open types errors constants common

/-- Popping a pair of integer operands: the deeper one is the left one. -/
theorem eval_PopPairAsIntVal (lim : Limits) (m : Executor) (r l : RefValue)
    (rest : List RefValue) (a b : IntValue) (hm : m.EvalStack.data = r :: l :: rest)
    (hl : l.AsIntValue lim = .ok a) (hr : r.AsIntValue lim = .ok b) :
    Op.eval (ValueStack.PopPairAsIntVal lim) m = .ok (a, b) (m.setStack rest) := by
  simp [Op.eval, ValueStack.PopPairAsIntVal, ValueStack.PopPair, bind, StackM.bind,
    ValueStack.Pop, hm, StackM.lift, hl, hr, Executor.setStack, pure]

/-- Popping three integer operands: the deepest one is the first one. -/
theorem eval_PopTripleAsIntVal (lim : Limits) (m : Executor) (r mid l : RefValue)
    (rest : List RefValue) (a b c : IntValue) (hm : m.EvalStack.data = r :: mid :: l :: rest)
    (hl : l.AsIntValue lim = .ok a) (hmid : mid.AsIntValue lim = .ok b)
    (hr : r.AsIntValue lim = .ok c) :
    Op.eval (ValueStack.PopTripleAsIntVal lim) m = .ok (a, b, c) (m.setStack rest) := by
  simp [Op.eval, ValueStack.PopTripleAsIntVal, ValueStack.PopTriple, bind, StackM.bind,
    ValueStack.Pop, hm, StackM.lift, hl, hmid, hr, Executor.setStack, pure]

/-- A push below the stack limit. -/
theorem eval_Push (m : Executor) (v : RefValue)
    (hl : m.EvalStack.data.length < m.EvalStack.limit) :
    Op.eval (ValueStack.Push v) m = .ok () (m.setStack (v :: m.EvalStack.data)) := by
  have h2 : ¬ (m.EvalStack.data.length ≥ m.EvalStack.limit) := by omega
  simp [Op.eval, ValueStack.Push, h2, Executor.setStack]

/-- The handler of the binary arithmetic opcodes after the operands have been
popped. -/
theorem opBinary_popped (cfg : Config) (opcode : Byte) (self : Executor) (va vb : RefValue)
    (rest : List RefValue) (a b : IntValue)
    (hstack : self.EvalStack.data = vb :: va :: rest)
    (ha : va.AsIntValue cfg.lim = .ok a) (hb : vb.AsIntValue cfg.lim = .ok b)
    (hlim : rest.length < self.EvalStack.limit) :
    OpResult.ofOutcome (opBinary cfg opcode self) =
      pushIntValue self rest
        (if opcode = ADD then a.Add cfg.lim b
         else if opcode = SUB then a.Sub cfg.lim b
         else if opcode = MUL then a.Mul cfg.lim b
         else if opcode = DIV then a.Div cfg.lim b
         else if opcode = MOD then a.Mod cfg.lim b
         else if opcode = MAX then a.Max b
         else a.Min b) := by
  have h1 := eval_PopPairAsIntVal cfg.lim self vb va rest a b hstack ha hb
  unfold opBinary
  simp only [bind, Op.bind, h1]
  generalize (if opcode = ADD then a.Add cfg.lim b
         else if opcode = SUB then a.Sub cfg.lim b
         else if opcode = MUL then a.Mul cfg.lim b
         else if opcode = DIV then a.Div cfg.lim b
         else if opcode = MOD then a.Mod cfg.lim b
         else if opcode = MAX then a.Max b
         else a.Min b) = r
  cases r with
  | error e => rfl
  | ok v =>
    have hp := eval_Push (self.setStack rest) (RefValue.FromIntValue v) hlim
    simp only [Op.try, hp]
    rfl

/-- The handler of the comparison opcodes after the operands have been
popped. -/
theorem opCompare_popped (cfg : Config) (opcode : Byte) (self : Executor) (va vb : RefValue)
    (rest : List RefValue) (a b : IntValue)
    (hstack : self.EvalStack.data = vb :: va :: rest)
    (ha : va.AsIntValue cfg.lim = .ok a) (hb : vb.AsIntValue cfg.lim = .ok b)
    (hlim : rest.length < self.EvalStack.limit) :
    OpResult.ofOutcome (opCompare cfg opcode self) =
      .ret .NONE none (self.setStack (RefValue.FromBool
        (if opcode = NUMEQUAL then decide (a.Cmp b = 0)
         else if opcode = NUMNOTEQUAL then decide (a.Cmp b ≠ 0)
         else if opcode = LT then decide (a.Cmp b < 0)
         else if opcode = GT then decide (a.Cmp b > 0)
         else if opcode = LTE then decide (a.Cmp b ≤ 0)
         else decide (a.Cmp b ≥ 0)) :: rest)) := by
  have h1 := eval_PopPairAsIntVal cfg.lim self vb va rest a b hstack ha hb
  unfold opCompare
  simp only [bind, Op.bind, h1, ValueStack.PushBool]
  rw [eval_Push (self.setStack rest) _ hlim]
  rfl

/-- The sign that `Cmp` returns is negative exactly for a lesser receiver. -/
theorem Cmp_lt (a b : IntValue) : a.Cmp b < 0 ↔ a.toInt < b.toInt := by
  unfold IntValue.Cmp
  split
  · simp [*]
  · split <;> simp [*]

/-- The sign that `Cmp` returns is non-negative exactly for a receiver that is
not less. -/
theorem Cmp_ge (a b : IntValue) : a.Cmp b ≥ 0 ↔ b.toInt ≤ a.toInt := by
  unfold IntValue.Cmp
  split
  · simp [*]
  · split <;> simp [*]; omega

/-- C23: for the binary numeric opcodes the deeper stack item is the left
operand and the top item the right operand: with `a` pushed before `b`, `SUB`
pushes `a − b`, `DIV` the integer quotient of `a` by `b`, `MOD` the remainder
of `a` by `b` (both for `b ≠ 0`, a fault for `b = 0`), and `LT` pushes
`a < b`. -/
theorem binary_operand_order (cfg : Config) (self : Executor) (va vb : RefValue)
    (rest : List RefValue) (a b : IntValue)
    (hstack : self.EvalStack.data = vb :: va :: rest)
    (ha : va.AsIntValue cfg.lim = .ok a) (hb : vb.AsIntValue cfg.lim = .ok b)
    (hlim : rest.length < self.EvalStack.limit) :
    self.ExecuteOp cfg SUB = pushInt cfg self rest (a.toInt - b.toInt) ∧
    (b.toInt ≠ 0 →
      self.ExecuteOp cfg DIV = pushInt cfg self rest (Int.tdiv a.toInt b.toInt) ∧
      self.ExecuteOp cfg MOD = pushInt cfg self rest (Int.tmod a.toInt b.toInt)) ∧
    (b.toInt = 0 →
      self.ExecuteOp cfg DIV = .ret .FAULT (some .ERR_DIV_MOD_BY_ZERO) (self.setStack rest) ∧
      self.ExecuteOp cfg MOD = .ret .FAULT (some .ERR_DIV_MOD_BY_ZERO) (self.setStack rest)) ∧
    self.ExecuteOp cfg LT =
      .ret .NONE none (self.setStack (RefValue.FromBool (decide (a.toInt < b.toInt)) :: rest))
    := by
  have hS : dispatch cfg SUB = opBinary cfg SUB := rfl
  have hD : dispatch cfg DIV = opBinary cfg DIV := rfl
  have hM : dispatch cfg MOD = opBinary cfg MOD := rfl
  have hL : dispatch cfg LT = opCompare cfg LT := rfl
  have bS : OpResult.ofOutcome (opBinary cfg SUB self) = pushIntValue self rest (a.Sub cfg.lim b) :=
    opBinary_popped cfg SUB self va vb rest a b hstack ha hb hlim
  have bD : OpResult.ofOutcome (opBinary cfg DIV self) = pushIntValue self rest (a.Div cfg.lim b) :=
    opBinary_popped cfg DIV self va vb rest a b hstack ha hb hlim
  have bM : OpResult.ofOutcome (opBinary cfg MOD self) = pushIntValue self rest (a.Mod cfg.lim b) :=
    opBinary_popped cfg MOD self va vb rest a b hstack ha hb hlim
  have bL := opCompare_popped cfg LT self va vb rest a b hstack ha hb hlim
  refine ⟨?_, fun hne => ⟨?_, ?_⟩, fun hz => ⟨?_, ?_⟩, ?_⟩
  · rw [ExecuteOp_eq, hS, bS]
    rfl
  · rw [ExecuteOp_eq, hD, bD]
    simp only [IntValue.Div, if_neg hne]
    rfl
  · rw [ExecuteOp_eq, hM, bM]
    simp only [IntValue.Mod, if_neg hne]
    rfl
  · rw [ExecuteOp_eq, hD, bD]
    simp only [IntValue.Div, if_pos hz]
    rfl
  · rw [ExecuteOp_eq, hM, bM]
    simp only [IntValue.Mod, if_pos hz]
    rfl
  · rw [ExecuteOp_eq, hL, bL]
    have e : (if LT = NUMEQUAL then decide (a.Cmp b = 0)
         else if LT = NUMNOTEQUAL then decide (a.Cmp b ≠ 0)
         else if LT = LT then decide (a.Cmp b < 0)
         else if LT = GT then decide (a.Cmp b > 0)
         else if LT = LTE then decide (a.Cmp b ≤ 0)
         else decide (a.Cmp b ≥ 0)) = decide (a.Cmp b < 0) := rfl
    rw [e]
    congr 4
    exact decide_eq_decide.mpr (Cmp_lt a b)

/-- C23 on the test vectors: 1, 2 `SUB` gives −1; 103, 2 `DIV` gives 51; 1, 2
`MOD` gives 1; 1, 2 `LT` gives true. -/
theorem binary_operand_order_witness :
    Executor.ExecuteOp testConfig (testExecutor [SUB] [.integer 2, .integer 1]) SUB =
      .ret .NONE none ((testExecutor [SUB] [.integer 2, .integer 1]).setStack [.integer (-1)]) ∧
    Executor.ExecuteOp testConfig (testExecutor [SUB] [.integer 2, .integer 103]) DIV =
      .ret .NONE none ((testExecutor [SUB] [.integer 2, .integer 103]).setStack [.integer 51]) ∧
    Executor.ExecuteOp testConfig (testExecutor [SUB] [.integer 2, .integer 1]) MOD =
      .ret .NONE none ((testExecutor [SUB] [.integer 2, .integer 1]).setStack [.integer 1]) ∧
    Executor.ExecuteOp testConfig (testExecutor [SUB] [.integer 2, .integer 1]) LT =
      .ret .NONE none ((testExecutor [SUB] [.integer 2, .integer 1]).setStack [.bool 1]) :=
  ⟨(binary_operand_order testConfig (testExecutor [SUB] [.integer 2, .integer 1])
      (.integer 1) (.integer 2) [] (.small 1) (.small 2) rfl rfl rfl (by decide)).1,
   ((binary_operand_order testConfig (testExecutor [SUB] [.integer 2, .integer 103])
      (.integer 103) (.integer 2) [] (.small 103) (.small 2) rfl rfl rfl
      (by decide)).2.1 (by decide)).1,
   ((binary_operand_order testConfig (testExecutor [SUB] [.integer 2, .integer 1])
      (.integer 1) (.integer 2) [] (.small 1) (.small 2) rfl rfl rfl
      (by decide)).2.1 (by decide)).2,
   (binary_operand_order testConfig (testExecutor [SUB] [.integer 2, .integer 1])
      (.integer 1) (.integer 2) [] (.small 1) (.small 2) rfl rfl rfl (by decide)).2.2.2⟩

/-- C24: `WITHIN` with `x` pushed first, then `a`, then `b` (on top) pops all
three and pushes the Boolean `a ≤ x < b`, the lower bound inclusive and the
upper bound exclusive; it pushes false whenever `b ≤ a`. -/
theorem WITHIN_half_open (cfg : Config) (self : Executor) (vx va vb : RefValue)
    (rest : List RefValue) (x a b : IntValue)
    (hstack : self.EvalStack.data = vb :: va :: vx :: rest)
    (hx : vx.AsIntValue cfg.lim = .ok x) (ha : va.AsIntValue cfg.lim = .ok a)
    (hb : vb.AsIntValue cfg.lim = .ok b)
    (hlim : rest.length < self.EvalStack.limit) :
    self.ExecuteOp cfg WITHIN =
        .ret .NONE none (self.setStack
          (RefValue.FromBool (decide (a.toInt ≤ x.toInt ∧ x.toInt < b.toInt)) :: rest)) ∧
      (b.toInt ≤ a.toInt →
        self.ExecuteOp cfg WITHIN =
          .ret .NONE none (self.setStack (RefValue.FromBool false :: rest))) := by
  have hd : dispatch cfg WITHIN = opLogic cfg WITHIN := rfl
  have hop : opLogic cfg WITHIN = (do
      let (val, left, right) ← Op.eval (ValueStack.PopTripleAsIntVal cfg.lim)
      Op.eval (ValueStack.PushBool
        (decide (val.Cmp left ≥ 0) && decide (val.Cmp right < 0))) : Op Unit) := rfl
  have h1 := eval_PopTripleAsIntVal cfg.lim self vb va vx rest x a b hstack hx ha hb
  have hmain : self.ExecuteOp cfg WITHIN =
        .ret .NONE none (self.setStack
          (RefValue.FromBool (decide (a.toInt ≤ x.toInt ∧ x.toInt < b.toInt)) :: rest)) := by
    rw [ExecuteOp_eq, hd, hop]
    simp only [bind, Op.bind, h1, ValueStack.PushBool]
    rw [eval_Push (self.setStack rest) _ hlim]
    have e : (decide (x.Cmp a ≥ 0) && decide (x.Cmp b < 0)) =
        decide (a.toInt ≤ x.toInt ∧ x.toInt < b.toInt) := by
      rw [Bool.decide_and]
      congr 1
      · exact decide_eq_decide.mpr (Cmp_ge x a)
      · exact decide_eq_decide.mpr (Cmp_lt x b)
    rw [e]
    rfl
  refine ⟨hmain, fun hba => ?_⟩
  rw [hmain]
  have e2 : decide (a.toInt ≤ x.toInt ∧ x.toInt < b.toInt) = false := by
    apply decide_eq_false
    omega
  rw [e2]

/-- C24 on the test vector: with 10000 pushed first, then 9999, then 8888,
`WITHIN` pushes false. -/
theorem WITHIN_half_open_witness :
    Executor.ExecuteOp testConfig
        (testExecutor [WITHIN] [.integer 8888, .integer 9999, .integer 10000]) WITHIN =
      .ret .NONE none
        ((testExecutor [WITHIN] [.integer 8888, .integer 9999, .integer 10000]).setStack
          [.bool 0]) :=
  (WITHIN_half_open testConfig
    (testExecutor [WITHIN] [.integer 8888, .integer 9999, .integer 10000])
    (.integer 10000) (.integer 9999) (.integer 8888) [] (.small 10000) (.small 9999)
    (.small 8888) rfl rfl rfl rfl (by decide)).1

end neovm

namespace neovm
open types errors constants common

/-- The loop of `PACK` on a stack that holds enough values: the values come
off in stack order, the top one first. -/
theorem popMany_append (vals rest : List RefValue) (limit : Nat) :
    popMany vals.length ⟨vals ++ rest, limit⟩ = (.ok vals, ⟨rest, limit⟩) := by
  induction vals with
  | nil => rfl
  | cons v vs ih =>
    simp only [List.length_cons, popMany, bind, StackM.bind, ValueStack.Pop, List.cons_append,
      ih, pure]

/-- The loop of `PACK` on a stack that holds too few values ends in a stack
underflow with the stack emptied. -/
theorem popMany_underflow (data : List RefValue) (limit : Nat) :
    ∀ n : Nat, data.length < n →
      popMany n ⟨data, limit⟩ = (.error .ERR_UNDER_STACK_LEN, ⟨[], limit⟩) := by
  induction data with
  | nil =>
    intro n hn
    cases n with
    | zero => simp at hn
    | succ k => simp [popMany, bind, StackM.bind, ValueStack.Pop]
  | cons v vs ih =>
    intro n hn
    cases n with
    | zero => simp at hn
    | succ k =>
      have hk : vs.length < k := by simp at hn; omega
      simp [popMany, bind, StackM.bind, ValueStack.Pop, ih k hk]

/-- Pushing a list of values one after the other puts the last one on top. -/
theorem PushMany_ok (xs : List RefValue) (limit : Nat) :
    ∀ rest : List RefValue, xs.length + rest.length ≤ limit →
      ValueStack.PushMany xs ⟨rest, limit⟩ = (.ok (), ⟨xs.reverse ++ rest, limit⟩) := by
  induction xs with
  | nil => intro rest _; rfl
  | cons x xs ih =>
    intro rest h
    have h1 : ¬ (rest.length ≥ limit) := by simp at h; omega
    have h2 : xs.length + (x :: rest).length ≤ limit := by simp at h ⊢; omega
    simp [ValueStack.PushMany, bind, StackM.bind, ValueStack.Push, h1, ih (x :: rest) h2]

/-- The cell of a fresh allocation is found at the new address. -/
theorem list?_alloc (st : Store) (data : List RefValue) :
    Store.list? (st ++ [.list data]) st.length = some data := by
  simp [Store.list?]

/-- `PACK` after the count has been popped. -/
theorem PACK_popped (cfg : Config) (self : Executor) (vn : RefValue) (data : List RefValue)
    (n : Int) (hstack : self.EvalStack.data = vn :: data)
    (hn : vn.AsInt64 cfg.lim = .ok n) :
    dispatch cfg PACK self =
      (if n < 0 then Op.fail .ERR_BAD_VALUE
       else do
        let vals ← Op.eval (popMany n.toNat)
        let p ← Op.alloc (.list vals)
        Op.eval (ValueStack.Push (.array p)) : Op Unit) (self.setStack data) := by
  have hd : dispatch cfg PACK = opItems cfg PACK := rfl
  have hop : opItems cfg PACK = (do
      let size ← Op.eval (ValueStack.PopAsInt64 cfg.lim)
      if size < 0 then Op.fail .ERR_BAD_VALUE
      else do
        let data ← Op.eval (popMany size.toNat)
        let p ← Op.alloc (.list data)
        Op.eval (ValueStack.Push (.array p)) : Op Unit) := rfl
  have h1 := eval_PopAsInt64 cfg.lim self vn data n hstack hn
  rw [hd, hop]
  simp only [bind, Op.bind, h1]

/-- `PACK` on a stack that holds the count and at least that many values: the
array holds the values in stack order, the former top of the stack first. -/
theorem PACK_ok (cfg : Config) (self : Executor) (vn : RefValue) (vals rest : List RefValue)
    (hstack : self.EvalStack.data = vn :: (vals ++ rest))
    (hn : vn.AsInt64 cfg.lim = .ok (vals.length : Int))
    (hlim : rest.length < self.EvalStack.limit) :
    self.ExecuteOp cfg PACK =
      .ret .NONE none
        { self.setStack (.array self.store.length :: rest) with
          store := self.store ++ [.list vals] } := by
  have h0 : ¬ ((vals.length : Int) < 0) := by omega
  have h2 : ¬ (rest.length ≥ self.EvalStack.limit) := by omega
  rw [ExecuteOp_eq, PACK_popped cfg self vn (vals ++ rest) _ hstack hn]
  simp only [if_neg h0, Int.toNat_ofNat, bind, Op.bind, Op.eval, Executor.setStack,
    popMany_append, Op.alloc, Store.alloc, ValueStack.Push, h2, if_false]
  rfl

/-- `UNPACK` on an array pushes its elements, the last one first, and then
their number. -/
theorem UNPACK_ok (cfg : Config) (self : Executor) (p : Nat) (vals rest : List RefValue)
    (hstack : self.EvalStack.data = .array p :: rest)
    (hp : self.store.list? p = some vals)
    (hlim : vals.length + rest.length < self.EvalStack.limit) :
    self.ExecuteOp cfg UNPACK =
      .ret .NONE none (self.setStack (.integer vals.length :: (vals ++ rest))) := by
  have hd : dispatch cfg UNPACK = opItems cfg UNPACK := rfl
  have hop : opItems cfg UNPACK = (do
      let p ← Op.eval ValueStack.PopAsArray
      let data ← Op.getList p
      Op.eval (ValueStack.PushMany data.reverse)
      Op.eval (ValueStack.PushInt64 data.length) : Op Unit) := rfl
  have h1 : Op.eval ValueStack.PopAsArray self = .ok p (self.setStack rest) := by
    simp [Op.eval, ValueStack.PopAsArray, bind, StackM.bind, ValueStack.Pop, hstack,
      StackM.lift, RefValue.AsArrayValue, Executor.setStack]
  have h2 : Op.getList p (self.setStack rest) = .ok vals (self.setStack rest) := by
    simp [Op.getList, Executor.setStack, hp]
  have h3 : Op.eval (ValueStack.PushMany vals.reverse) (self.setStack rest) =
      .ok () (self.setStack (vals ++ rest)) := by
    have := PushMany_ok vals.reverse self.EvalStack.limit rest (by simp; omega)
    simp only [List.reverse_reverse] at this
    simp [Op.eval, Executor.setStack, this]
  have h4 : Op.eval (ValueStack.PushInt64 (vals.length : Int)) (self.setStack (vals ++ rest)) =
      .ok () (self.setStack (.integer vals.length :: (vals ++ rest))) := by
    have hl : (self.setStack (vals ++ rest)).EvalStack.data.length <
        (self.setStack (vals ++ rest)).EvalStack.limit := by
      simp [Executor.setStack]; omega
    exact eval_Push (self.setStack (vals ++ rest)) (.integer vals.length) hl
  rw [ExecuteOp_eq, hd, hop]
  simp only [bind, Op.bind, h1, h2, h3, h4]
  rfl

/-- C25 (the claim as written fails): with "aaa", "bbb", "ccc" and the count 3
pushed in this order, `PACK` makes the array "ccc", "bbb", "aaa": the first
popped value is the first element, and the array is in the reverse of the push
order. -/
theorem PACK_test_vector_reversed :
    Executor.ExecuteOp testConfig
        (testExecutor [PACK]
          [.integer 3, .bytearray [99, 99, 99], .bytearray [98, 98, 98],
            .bytearray [97, 97, 97]]) PACK =
      .ret .NONE none
        { testExecutor [PACK] [.array 0] with
          store := [.list [.bytearray [99, 99, 99], .bytearray [98, 98, 98],
            .bytearray [97, 97, 97]]] } := by
  decide

/-- C25 (amended): `PACK` pops the count `n` and then `n` values and appends
each popped value to the array, so that the first popped value (the former top
of the stack) is the first array element: the array lists the `n` values in
stack order, the reverse of the order in which they were pushed. -/
theorem PACK_stack_order (cfg : Config) (self : Executor) (vn : RefValue)
    (vals rest : List RefValue)
    (hstack : self.EvalStack.data = vn :: (vals ++ rest))
    (hn : vn.AsInt64 cfg.lim = .ok (vals.length : Int))
    (hlim : rest.length < self.EvalStack.limit) :
    self.ExecuteOp cfg PACK =
        .ret .NONE none
          { self.setStack (.array self.store.length :: rest) with
            store := self.store ++ [.list vals] } ∧
      Store.list? (self.store ++ [.list vals]) self.store.length = some vals :=
  ⟨PACK_ok cfg self vn vals rest hstack hn hlim, list?_alloc self.store vals⟩

/-- C25 (amended), on three integers pushed as 1, 2, 3 above a value that
stays. -/
theorem PACK_stack_order_witness :
    Executor.ExecuteOp testConfig
        (testExecutor [PACK] [.integer 3, .integer 3, .integer 2, .integer 1, .integer 9])
        PACK =
      .ret .NONE none
        { testExecutor [PACK] [.array 0, .integer 9] with
          store := [.list [.integer 3, .integer 2, .integer 1]] } :=
  (PACK_stack_order testConfig
    (testExecutor [PACK] [.integer 3, .integer 3, .integer 2, .integer 1, .integer 9])
    (.integer 3) [.integer 3, .integer 2, .integer 1] [.integer 9] rfl rfl (by decide)).1

/-- C26: for a stack that holds the values `v1..vn` (`vn` on top) and above
them the count `n`, `PACK` and then `UNPACK` leave the stack as it was: the
items below are untouched, `v1..vn` are back in the same order and the integer
`n` is on top. -/
theorem PACK_UNPACK_restores (cfg : Config) (self : Executor) (vn : RefValue)
    (vals rest : List RefValue)
    (hstack : self.EvalStack.data = vn :: (vals ++ rest))
    (hn : vn.AsInt64 cfg.lim = .ok (vals.length : Int))
    (hlim : self.EvalStack.data.length ≤ self.EvalStack.limit) :
    self.ExecuteOp cfg PACK =
        .ret .NONE none
          { self.setStack (.array self.store.length :: rest) with
            store := self.store ++ [.list vals] } ∧
      Executor.ExecuteOp cfg
          { self.setStack (.array self.store.length :: rest) with
            store := self.store ++ [.list vals] } UNPACK =
        .ret .NONE none
          { self.setStack (.integer vals.length :: (vals ++ rest)) with
            store := self.store ++ [.list vals] } := by
  have hl : vals.length + rest.length < self.EvalStack.limit := by
    rw [hstack] at hlim
    simp at hlim
    omega
  refine ⟨PACK_ok cfg self vn vals rest hstack hn (by omega), ?_⟩
  exact UNPACK_ok cfg
    { self.setStack (.array self.store.length :: rest) with
      store := self.store ++ [.list vals] } self.store.length vals rest rfl
    (list?_alloc self.store vals) hl

/-- C26 on the test vector: with "a", "b", "c" and 3 pushed, `PACK` and then
`UNPACK` give "a", "b", "c", 3 again. -/
theorem PACK_UNPACK_restores_witness :
    Executor.ExecuteOp testConfig
        { testExecutor [PACK, UNPACK] [.array 0] with
          store := [.list [.bytearray [99], .bytearray [98], .bytearray [97]]] } UNPACK =
      .ret .NONE none
        { testExecutor [PACK, UNPACK]
            [.integer 3, .bytearray [99], .bytearray [98], .bytearray [97]] with
          store := [.list [.bytearray [99], .bytearray [98], .bytearray [97]]] } :=
  (PACK_UNPACK_restores testConfig
    (testExecutor [PACK, UNPACK]
      [.integer 3, .bytearray [99], .bytearray [98], .bytearray [97]])
    (.integer 3) [.bytearray [99], .bytearray [98], .bytearray [97]] [] rfl rfl
    (by decide)).2

/-- `NEWARRAY` and `NEWSTRUCT` after the count has been popped. -/
theorem NEW_popped (cfg : Config) (opcode : Byte) (hop : opcode = NEWARRAY ∨ opcode = NEWSTRUCT)
    (self : Executor) (vn : RefValue) (rest : List RefValue) (n : Int)
    (hstack : self.EvalStack.data = vn :: rest) (hn : vn.AsInt64 cfg.lim = .ok n) :
    dispatch cfg opcode self =
      (if n < 0 ∨ n > cfg.MAX_ARRAY_SIZE then Op.fail .ERR_BAD_VALUE
       else do
        let p ← Op.alloc (.list (List.replicate n.toNat (RefValue.FromInt64 0)))
        Op.eval (ValueStack.Push (if opcode = NEWARRAY then .array p else .struct p)) : Op Unit)
        (self.setStack rest) := by
  have hd : dispatch cfg opcode = opAlloc cfg opcode := by
    rcases hop with h | h <;> subst h <;> rfl
  have h1 := eval_PopAsInt64 cfg.lim self vn rest n hstack hn
  rw [hd]
  unfold opAlloc
  simp only [if_pos hop, bind, Op.bind, h1]

/-- For a popped count `n` in the signed 64-bit range, `NEWARRAY` and
`NEWSTRUCT` return `FAULT` when `n` is negative or greater than
`MAX_ARRAY_SIZE` and otherwise push a container of exactly `n` elements, all
Integer 0; `PACK` returns `FAULT` when `n` is negative or greater than the
number of values on the stack and otherwise makes an array of exactly `n`
elements, without a comparison with `MAX_ARRAY_SIZE`. -/
theorem NEWARRAY_NEWSTRUCT_PACK_count (cfg : Config) (self : Executor) (vn : RefValue)
    (data : List RefValue) (nv : IntValue)
    (hstack : self.EvalStack.data = vn :: data)
    (hn : vn.AsIntValue cfg.lim = .ok nv) (hnr : IsInt64 nv.toInt = true)
    (hlim : self.EvalStack.data.length ≤ self.EvalStack.limit) :
    ((nv.toInt < 0 ∨ nv.toInt > cfg.MAX_ARRAY_SIZE) →
      self.ExecuteOp cfg NEWARRAY = .ret .FAULT (some .ERR_BAD_VALUE) (self.setStack data) ∧
      self.ExecuteOp cfg NEWSTRUCT = .ret .FAULT (some .ERR_BAD_VALUE) (self.setStack data)) ∧
    ((0 ≤ nv.toInt ∧ nv.toInt ≤ cfg.MAX_ARRAY_SIZE) →
      self.ExecuteOp cfg NEWARRAY =
          .ret .NONE none
            { self.setStack (.array self.store.length :: data) with
              store := self.store ++ [.list (List.replicate nv.toInt.toNat (.integer 0))] } ∧
        self.ExecuteOp cfg NEWSTRUCT =
          .ret .NONE none
            { self.setStack (.struct self.store.length :: data) with
              store := self.store ++ [.list (List.replicate nv.toInt.toNat (.integer 0))] }) ∧
    (nv.toInt < 0 →
      self.ExecuteOp cfg PACK = .ret .FAULT (some .ERR_BAD_VALUE) (self.setStack data)) ∧
    ((data.length : Int) < nv.toInt →
      self.ExecuteOp cfg PACK = .ret .FAULT (some .ERR_UNDER_STACK_LEN) (self.setStack [])) ∧
    (∀ vals rest : List RefValue, data = vals ++ rest → nv.toInt = vals.length →
      self.ExecuteOp cfg PACK =
        .ret .NONE none
          { self.setStack (.array self.store.length :: rest) with
            store := self.store ++ [.list vals] }) := by
  have hn2 := AsInt64_of_IsInt64 cfg.lim vn nv hn hnr
  have hA := NEW_popped cfg NEWARRAY (Or.inl rfl) self vn data nv.toInt hstack hn2
  have hS := NEW_popped cfg NEWSTRUCT (Or.inr rfl) self vn data nv.toInt hstack hn2
  have hP := PACK_popped cfg self vn data nv.toInt hstack hn2
  have hl : ¬ (data.length ≥ self.EvalStack.limit) := by
    rw [hstack] at hlim
    simp at hlim
    omega
  refine ⟨fun hout => ⟨?_, ?_⟩, fun hin => ⟨?_, ?_⟩, fun hneg => ?_, fun hbig => ?_,
    fun vals rest hd hv => ?_⟩
  · rw [ExecuteOp_eq, hA]
    simp only [if_pos hout, Op.fail]; rfl
  · rw [ExecuteOp_eq, hS]
    simp only [if_pos hout, Op.fail]; rfl
  · have e : ¬ (nv.toInt < 0 ∨ nv.toInt > cfg.MAX_ARRAY_SIZE) := by omega
    rw [ExecuteOp_eq, hA]
    simp only [if_neg e, bind, Op.bind, Op.alloc, Store.alloc, Op.eval, Executor.setStack,
      ValueStack.Push, hl, if_false, if_true, RefValue.FromInt64]
    rfl
  · have e : ¬ (nv.toInt < 0 ∨ nv.toInt > cfg.MAX_ARRAY_SIZE) := by omega
    have e2 : (NEWSTRUCT = NEWARRAY) = False := by
      apply eq_false; decide
    rw [ExecuteOp_eq, hS]
    simp only [if_neg e, bind, Op.bind, Op.alloc, Store.alloc, Op.eval, Executor.setStack,
      ValueStack.Push, hl, if_false, e2, RefValue.FromInt64]
    rfl
  · rw [ExecuteOp_eq, hP]
    simp only [if_pos hneg, Op.fail]; rfl
  · have e : ¬ (nv.toInt < 0) := by omega
    have hk : data.length < nv.toInt.toNat := by omega
    rw [ExecuteOp_eq, hP]
    simp only [if_neg e, bind, Op.bind, Op.eval, Executor.setStack,
      popMany_underflow data self.EvalStack.limit _ hk]
    rfl
  · subst hd
    rw [hv] at hn2
    exact PACK_ok cfg self vn vals rest hstack hn2 (by simp at hl; omega)

/-- `NEWARRAY` with the count 3. -/
theorem NEWARRAY_NEWSTRUCT_PACK_count_witness :
    Executor.ExecuteOp testConfig (testExecutor [NEWARRAY] [.integer 3]) NEWARRAY =
      .ret .NONE none
        { testExecutor [NEWARRAY] [.array 0] with
          store := [.list [.integer 0, .integer 0, .integer 0]] } :=
  ((NEWARRAY_NEWSTRUCT_PACK_count testConfig (testExecutor [NEWARRAY] [.integer 3])
    (.integer 3) [] (.small 3) rfl rfl (by decide) (by decide)).2.1 (by decide)).1

/-- C27 (the code diverges): `PACK` makes no comparison with `MAX_ARRAY_SIZE`.
Whatever the array limit, and so also when it is less than the count, `PACK`
with the count `n` above `n` values, on a stack that is within its limit,
returns `NONE` with an array of the `n` values on the stack; `NEWARRAY` and
`NEWSTRUCT` with a count above the array limit return `FAULT`. -/
theorem PACK_without_MAX_ARRAY_SIZE_check (cfg : Config) (self : Executor)
    (vals rest : List RefValue) (k : Nat) :
    Executor.ExecuteOp cfg
        { self with EvalStack :=
          ⟨.integer vals.length :: (vals ++ rest), vals.length + rest.length + 1 + k⟩ } PACK =
      .ret .NONE none
        { self with
          EvalStack := ⟨.array self.store.length :: rest, vals.length + rest.length + 1 + k⟩
          store := self.store ++ [.list vals] } ∧
    Executor.ExecuteOp cfg
        { self with EvalStack :=
          ⟨.integer (cfg.MAX_ARRAY_SIZE + 1 + k) :: rest, rest.length + 1⟩ } NEWARRAY =
      .ret .FAULT (some .ERR_BAD_VALUE)
        { self with EvalStack := ⟨rest, rest.length + 1⟩ } ∧
    Executor.ExecuteOp cfg
        { self with EvalStack :=
          ⟨.integer (cfg.MAX_ARRAY_SIZE + 1 + k) :: rest, rest.length + 1⟩ } NEWSTRUCT =
      .ret .FAULT (some .ERR_BAD_VALUE)
        { self with EvalStack := ⟨rest, rest.length + 1⟩ } := by
  refine ⟨?_, ?_, ?_⟩
  · have h := PACK_ok cfg
      { self with EvalStack :=
        ⟨.integer vals.length :: (vals ++ rest), vals.length + rest.length + 1 + k⟩ }
      (.integer vals.length) vals rest rfl rfl (by simp; omega)
    rw [h]
    rfl
  · have hA := NEW_popped cfg NEWARRAY (Or.inl rfl)
      { self with EvalStack :=
        ⟨.integer (cfg.MAX_ARRAY_SIZE + 1 + k) :: rest, rest.length + 1⟩ }
      (.integer (cfg.MAX_ARRAY_SIZE + 1 + k)) rest (cfg.MAX_ARRAY_SIZE + 1 + k) rfl rfl
    have hout : cfg.MAX_ARRAY_SIZE + 1 + (k : Int) < 0 ∨
        cfg.MAX_ARRAY_SIZE + 1 + (k : Int) > cfg.MAX_ARRAY_SIZE := Or.inr (by omega)
    rw [ExecuteOp_eq, hA]
    simp only [if_pos hout, Op.fail]; rfl
  · have hS := NEW_popped cfg NEWSTRUCT (Or.inr rfl)
      { self with EvalStack :=
        ⟨.integer (cfg.MAX_ARRAY_SIZE + 1 + k) :: rest, rest.length + 1⟩ }
      (.integer (cfg.MAX_ARRAY_SIZE + 1 + k)) rest (cfg.MAX_ARRAY_SIZE + 1 + k) rfl rfl
    have hout : cfg.MAX_ARRAY_SIZE + 1 + (k : Int) < 0 ∨
        cfg.MAX_ARRAY_SIZE + 1 + (k : Int) > cfg.MAX_ARRAY_SIZE := Or.inr (by omega)
    rw [ExecuteOp_eq, hS]
    simp only [if_pos hout, Op.fail]; rfl

end neovm

namespace neovm
open types errors constants common

/-- The entry that `MapValue.Set` assigns is the one found under its key. -/
theorem lookup_assign_same (data : List (List Byte × RefValue)) (key : List Byte)
    (v : RefValue) : MapValue.lookup (MapRef.assign data key v) key = some v := by
  induction data with
  | nil => simp [MapRef.assign, MapValue.lookup]
  | cons e rest ih =>
    obtain ⟨k, w⟩ := e
    by_cases h : k = key
    · simp [MapRef.assign, MapValue.lookup, h]
    · simp [MapRef.assign, MapValue.lookup, h, ih]

/-- The entries under other keys are as they were before `MapValue.Set`. -/
theorem lookup_assign_other (data : List (List Byte × RefValue)) (key k2 : List Byte)
    (v : RefValue) (hne : k2 ≠ key) :
    MapValue.lookup (MapRef.assign data key v) k2 = MapValue.lookup data k2 := by
  induction data with
  | nil =>
    have : ¬ key = k2 := fun h => hne h.symm
    simp [MapRef.assign, MapValue.lookup, this]
  | cons e rest ih =>
    obtain ⟨k, w⟩ := e
    by_cases h : k = key
    · subst h
      have : ¬ k = k2 := fun h => hne h.symm
      simp [MapRef.assign, MapValue.lookup, this]
    · by_cases h2 : k = k2
      · subst h2
        simp [MapRef.assign, MapValue.lookup, h]
      · simp [MapRef.assign, MapValue.lookup, h, h2, ih]

/-- The map written at an address is the map read there afterwards. -/
theorem map?_set (st : Store) (p : Nat) (old new : List (List Byte × RefValue))
    (h : st.map? p = some old) : Store.map? (st.set p (.map new)) p = some new := by
  have hlt : p < st.length := by
    by_contra hn
    have : st[p]? = none := List.getElem?_eq_none (by omega)
    simp [Store.map?, this] at h
  simp [Store.map?, List.getElem?_set, hlt]

/-- `SETITEM` on a map stores the value under the key of the index. -/
theorem SETITEM_map (cfg : Config) (self : Executor) (p : Nat) (vk vv : RefValue)
    (rest : List RefValue) (data : List (List Byte × RefValue)) (key : List Byte)
    (hstack : self.EvalStack.data = vv :: vk :: .map p :: rest)
    (hp : self.store.map? p = some data) (hk : vk.GetMapKey = .ok key) :
    self.ExecuteOp cfg SETITEM =
      .ret .NONE none
        { self.setStack rest with
          store := self.store.set p (.map (MapRef.assign data key vv)) } := by
  have hd : dispatch cfg SETITEM = opItems cfg SETITEM := rfl
  have h1 : Op.eval ValueStack.PopTriple self = .ok (.map p, vk, vv) (self.setStack rest) := by
    simp [Op.eval, ValueStack.PopTriple, bind, StackM.bind, ValueStack.Pop, hstack,
      Executor.setStack, pure]
  have h2 : Op.getMap p (self.setStack rest) = .ok data (self.setStack rest) := by
    simp [Op.getMap, Executor.setStack, hp]
  have hop : opItems cfg SETITEM = (do
    let (item, index, val) ← Op.eval ValueStack.PopTriple
    match item.AsArrayValue with
    | .ok p => do
      let data ← Op.getList p
      let ind ← opIndex cfg index data
      Op.setCell p (.list (data.set ind val))
    | .error _ =>
      match item.AsStructValue with
      | .ok p => do
        let data ← Op.getList p
        let ind ← opIndex cfg index data
        Op.setCell p (.list (data.set ind val))
      | .error _ =>
        match item.AsMapValue with
        | .ok p => do
          let data ← Op.getMap p
          let data2 ← Op.try (MapRef.Set data index val)
          Op.setCell p (.map data2)
        | .error _ => Op.fail .ERR_BAD_TYPE : Op Unit) := rfl
  rw [ExecuteOp_eq, hd, hop]
  simp only [bind, Op.bind, h1, RefValue.AsArrayValue, RefValue.AsStructValue,
    RefValue.AsMapValue, h2, MapRef.Set, hk, Op.try, Op.setCell]
  rfl

/-- `PICKITEM` on a map pushes the value under the key of the index, and
returns `FAULT` with `ERR_MAP_NOT_EXIST` when there is none. -/
theorem PICKITEM_map (cfg : Config) (self : Executor) (p : Nat) (vk : RefValue)
    (rest : List RefValue) (data : List (List Byte × RefValue)) (key : List Byte)
    (hstack : self.EvalStack.data = vk :: .map p :: rest)
    (hp : self.store.map? p = some data) (hk : vk.GetMapKey = .ok key)
    (hlim : rest.length < self.EvalStack.limit) :
    self.ExecuteOp cfg PICKITEM =
      match MapValue.lookup data key with
      | some v => .ret .NONE none (self.setStack (v :: rest))
      | none => .ret .FAULT (some .ERR_MAP_NOT_EXIST) (self.setStack rest) := by
  have hd : dispatch cfg PICKITEM = opItems cfg PICKITEM := rfl
  have h1 : Op.eval ValueStack.PopPair self = .ok (.map p, vk) (self.setStack rest) := by
    simp [Op.eval, ValueStack.PopPair, bind, StackM.bind, ValueStack.Pop, hstack,
      Executor.setStack, pure]
  have h2 : Op.getMap p (self.setStack rest) = .ok data (self.setStack rest) := by
    simp [Op.getMap, Executor.setStack, hp]
  have hop : opItems cfg PICKITEM = (do
    let (item, index) ← Op.eval ValueStack.PopPair
    let val ←
      match item.AsArrayValue with
      | .ok p => do
        let data ← Op.getList p
        let ind ← opIndex cfg index data
        match data.get? ind with
        | some v => pure v
        | none => Op.panic
      | .error _ =>
        match item.AsStructValue with
        | .ok p => do
          let data ← Op.getList p
          let ind ← opIndex cfg index data
          match data.get? ind with
          | some v => pure v
          | none => Op.panic
        | .error _ =>
          match item.AsMapValue with
          | .ok p => do
            let data ← Op.getMap p
            let r ← Op.try (MapRef.Get data index)
            match r with
            | some value => pure value
            | none => Op.fail .ERR_MAP_NOT_EXIST
          | .error _ => Op.fail .ERR_BAD_TYPE
    Op.eval (ValueStack.Push val) : Op Unit) := rfl
  rw [ExecuteOp_eq, hd, hop]
  simp only [bind, Op.bind, h1, RefValue.AsArrayValue, RefValue.AsStructValue,
    RefValue.AsMapValue, h2, MapRef.Get, hk, Op.try]
  cases hl : MapValue.lookup data key with
  | none => simp only [Op.fail]; rfl
  | some v =>
    simp only [pure, Op.bind, eval_Push (self.setStack rest) v hlim]
    rfl

/-- C28 (the code diverges): on the array "ccc", "bbb", "aaa", `PICKITEM` with
the index `2 ^ 64`, which is outside the signed 64-bit range, returns `NONE`
and pushes the element at position 0; with the index 0 it pushes the same
element, and with the index 3 it returns `FAULT`. -/
theorem PICKITEM_index_beyond_int64 :
    Executor.ExecuteOp testConfig
        { testExecutor [PICKITEM] [.bigint 18446744073709551616, .array 0] with
          store := [.list [.bytearray [99, 99, 99], .bytearray [98, 98, 98],
            .bytearray [97, 97, 97]]] } PICKITEM =
      .ret .NONE none
        { testExecutor [PICKITEM] [.bytearray [99, 99, 99]] with
          store := [.list [.bytearray [99, 99, 99], .bytearray [98, 98, 98],
            .bytearray [97, 97, 97]]] } ∧
    Executor.ExecuteOp testConfig
        { testExecutor [PICKITEM] [.integer 0, .array 0] with
          store := [.list [.bytearray [99, 99, 99], .bytearray [98, 98, 98],
            .bytearray [97, 97, 97]]] } PICKITEM =
      .ret .NONE none
        { testExecutor [PICKITEM] [.bytearray [99, 99, 99]] with
          store := [.list [.bytearray [99, 99, 99], .bytearray [98, 98, 98],
            .bytearray [97, 97, 97]]] } ∧
    Executor.ExecuteOp testConfig
        { testExecutor [PICKITEM] [.integer 3, .array 0] with
          store := [.list [.bytearray [99, 99, 99], .bytearray [98, 98, 98],
            .bytearray [97, 97, 97]]] } PICKITEM =
      .ret .FAULT (some .ERR_INDEX_OUT_OF_BOUND)
        { testExecutor [PICKITEM] [] with
          store := [.list [.bytearray [99, 99, 99], .bytearray [98, 98, 98],
            .bytearray [97, 97, 97]]] } :=
  ⟨by decide, by decide, by decide⟩

/-- C29: for a map and a key with a byte encoding, `SETITEM` stores the value
without a fault, whether or not the key is present, and leaves the entries
under all other keys unchanged; `PICKITEM` afterwards, with any key of the same
byte encoding, pushes the value stored; and `PICKITEM` with a key under which
the map holds nothing returns `FAULT` with `ERR_MAP_NOT_EXIST`. -/
theorem Map_SETITEM_PICKITEM (cfg : Config) (self : Executor) (p : Nat) (vk vv : RefValue)
    (rest : List RefValue) (data : List (List Byte × RefValue)) (key : List Byte)
    (hstack : self.EvalStack.data = vv :: vk :: .map p :: rest)
    (hp : self.store.map? p = some data) (hk : vk.GetMapKey = .ok key) :
    self.ExecuteOp cfg SETITEM =
        .ret .NONE none
          { self.setStack rest with
            store := self.store.set p (.map (MapRef.assign data key vv)) } ∧
    (∀ k2 : List Byte, k2 ≠ key →
      MapValue.lookup (MapRef.assign data key vv) k2 = MapValue.lookup data k2) ∧
    (∀ (vk2 : RefValue) (rest2 : List RefValue), vk2.AsBytes = vk.AsBytes →
      rest2.length < self.EvalStack.limit →
      Executor.ExecuteOp cfg
          { self.setStack (vk2 :: .map p :: rest2) with
            store := self.store.set p (.map (MapRef.assign data key vv)) } PICKITEM =
        .ret .NONE none
          { self.setStack (vv :: rest2) with
            store := self.store.set p (.map (MapRef.assign data key vv)) }) ∧
    (∀ (vk3 : RefValue) (key3 : List Byte) (rest3 : List RefValue),
      vk3.GetMapKey = .ok key3 → MapValue.lookup data key3 = none →
      rest3.length < self.EvalStack.limit →
      Executor.ExecuteOp cfg (self.setStack (vk3 :: .map p :: rest3)) PICKITEM =
        .ret .FAULT (some .ERR_MAP_NOT_EXIST) (self.setStack rest3)) := by
  refine ⟨SETITEM_map cfg self p vk vv rest data key hstack hp hk,
    fun k2 hne => lookup_assign_other data key k2 vv hne,
    fun vk2 rest2 hb hlim => ?_, fun vk3 key3 rest3 hk3 hl hlim => ?_⟩
  · have hk2 : vk2.GetMapKey = .ok key := by
      unfold RefValue.GetMapKey at hk ⊢
      rw [hb]
      exact hk
    have h := PICKITEM_map cfg
      { self.setStack (vk2 :: .map p :: rest2) with
        store := self.store.set p (.map (MapRef.assign data key vv)) } p vk2 rest2
      (MapRef.assign data key vv) key rfl (map?_set self.store p data _ hp) hk2 hlim
    rw [h, lookup_assign_same]
    rfl
  · have h := PICKITEM_map cfg (self.setStack (vk3 :: .map p :: rest3)) p vk3 rest3 data key3
      rfl hp hk3 hlim
    rw [h, hl]
    rfl

/-- C29 on an empty map: after `SETITEM` with the key Integer 5 and the value
Integer 7, `PICKITEM` with the key ByteArray `[0x05]` pushes Integer 7. -/
theorem Map_SETITEM_PICKITEM_witness :
    Executor.ExecuteOp testConfig
        { testExecutor [SETITEM, PICKITEM] [.bytearray [5], .map 0] with
          store := [.map [([5], .integer 7)]] } PICKITEM =
      .ret .NONE none
        { testExecutor [SETITEM, PICKITEM] [.integer 7] with
          store := [.map [([5], .integer 7)]] } :=
  (Map_SETITEM_PICKITEM testConfig
    { testExecutor [SETITEM, PICKITEM] [.integer 7, .integer 5, .map 0] with
      store := [.map []] } 0 (.integer 5) (.integer 7) [] [] [5] rfl rfl rfl).2.2.1
    (.bytearray [5]) [] rfl (by decide)

end neovm

namespace types
open errors constants common

/-- C30: `GetMapKey` depends only on the byte encoding of a value: two values
with equal `AsBytes` give the same map key and address the same map entry;
SmallInteger 5, a BigInteger-represented 5 and ByteArray `[0x05]` all give the
key `[0x05]`; and `GetMapKey` fails for Array, Struct, Map and Interop
values. -/
theorem GetMapKey_by_bytes :
    (∀ a b : RefValue, a.AsBytes = b.AsBytes → a.GetMapKey = b.GetMapKey) ∧
    (∀ (a : RefValue) (bs : List Byte), a.AsBytes = .ok bs → a.GetMapKey = .ok bs) ∧
    (∀ (data : List (List Byte × RefValue)) (a b : RefValue), a.AsBytes = b.AsBytes →
      MapRef.Get data a = MapRef.Get data b ∧
      ∀ v : RefValue, MapRef.Set data a v = MapRef.Set data b v) ∧
    (RefValue.integer 5).GetMapKey = .ok [5] ∧
    (RefValue.bigint 5).GetMapKey = .ok [5] ∧
    (RefValue.bytearray [5]).GetMapKey = .ok [5] ∧
    (∀ p : Nat, (RefValue.array p).GetMapKey = .error .ERR_BAD_TYPE ∧
      (RefValue.struct p).GetMapKey = .error .ERR_BAD_TYPE ∧
      (RefValue.map p).GetMapKey = .error .ERR_BAD_TYPE) ∧
    (∀ h : Option Nat, (RefValue.interop h).GetMapKey = .error .ERR_BAD_TYPE) := by
  refine ⟨fun a b h => ?_, fun a bs h => ?_, fun data a b h => ⟨?_, fun v => ?_⟩, rfl,
    rfl, rfl, fun p => ⟨rfl, rfl, rfl⟩, fun h => rfl⟩
  · unfold RefValue.GetMapKey; rw [h]
  · unfold RefValue.GetMapKey; rw [h]
  · unfold MapRef.Get RefValue.GetMapKey; rw [h]
  · unfold MapRef.Set RefValue.GetMapKey; rw [h]

/-- C30 at SmallInteger 5 and ByteArray `[0x05]`: the same map key. -/
theorem GetMapKey_by_bytes_witness :
    (RefValue.integer 5).GetMapKey = (RefValue.bytearray [5]).GetMapKey :=
  GetMapKey_by_bytes.1 (.integer 5) (.bytearray [5]) rfl

end types

namespace types
open errors constants common

/-- C33 (the code diverges): on the value of `TestVmValue_BuildParamToNative`,
the array of the struct of `2^64 − 1`, false and "hello", the call of
`BuildParamToNative` panics, and so it does on a Map and on an Interop value;
with the integer 5 in the place of `2^64 − 1` it returns nil and appends
`0101` `0105` `00` `0568656c6c6f`. -/
theorem BuildParamToNative_panics :
    buildParamTestValue.BuildParamToNative [] = .abort ∧
    (VmValue.bigint 18446744073709551615).BuildParamToNative [] = .abort ∧
    (VmValue.map [(bytesHello, .bytearray bytesHello)]).BuildParamToNative [] = .abort ∧
    (VmValue.interop none).BuildParamToNative [] = .abort ∧
    (VmValue.array [.struct [.integer 5, .bool 0, .bytearray bytesHello]]).BuildParamToNative
        [] =
      .ret none [0x01, 0x01, 0x01, 0x05, 0x00, 0x05, 0x68, 0x65, 0x6c, 0x6c, 0x6f] := by
  refine ⟨by decide, by decide, by decide, by decide, by decide⟩

/-- C36 (the code diverges): for the BigInteger `2^63`, and for the ByteArray
of its encoding, `AsInt64` returns the number 0 and the nil error; for
`2^63 − 1` it returns the number itself. -/
theorem AsInt64_beyond_int64_returns_zero :
    (RefValue.bigint 9223372036854775808).AsInt64 testLimits = .ok 0 ∧
    (RefValue.bytearray [0, 0, 0, 0, 0, 0, 0, 0x80, 0]).AsInt64 testLimits = .ok 0 ∧
    (RefValue.bigint (-9223372036854775809)).AsInt64 testLimits = .ok 0 ∧
    (RefValue.bigint 9223372036854775807).AsInt64 testLimits = .ok 9223372036854775807 :=
  ⟨rfl, rfl, rfl, rfl⟩

end types

namespace neovm
open types errors constants common

/-- C37 (the code diverges): `REMOVE` on the map with the one entry 5 ↦ 7 and
the key 5 returns `FAULT` with the nil error and leaves the entry in the map;
with the absent key 6 it returns `FAULT` as well. -/
theorem REMOVE_map_faults :
    Executor.ExecuteOp testConfig
        { testExecutor [REMOVE] [.integer 5, .map 0] with
          store := [.map [([5], .integer 7)]] } REMOVE =
      .ret .FAULT none
        { testExecutor [REMOVE] [] with store := [.map [([5], .integer 7)]] } ∧
    Executor.ExecuteOp testConfig
        { testExecutor [REMOVE] [.integer 6, .map 0] with
          store := [.map [([5], .integer 7)]] } REMOVE =
      .ret .FAULT none
        { testExecutor [REMOVE] [] with store := [.map [([5], .integer 7)]] } :=
  ⟨by decide, by decide⟩

end neovm

namespace kbucket

/-- The loop of `Split` sorts the peers into the two lists in their order. -/
theorem splitLoop_eq {KadId : Type} (CommonPrefixLen : KadId → KadId → Int) (cpl : Int)
    (target : KadId) (rest : List (KPId KadId)) :
    ∀ kept out : List (KPId KadId),
      Bucket.splitLoop CommonPrefixLen cpl target rest kept out =
        (kept ++ rest.filter (fun p => !decide (CommonPrefixLen p.KId target > cpl)),
          out ++ rest.filter (fun p => decide (CommonPrefixLen p.KId target > cpl))) := by
  induction rest with
  | nil => intro kept out; simp [Bucket.splitLoop]
  | cons p rest ih =>
    intro kept out
    by_cases h : CommonPrefixLen p.KId target > cpl
    · have h1 : decide (CommonPrefixLen p.KId target > cpl) = true := decide_eq_true h
      simp only [Bucket.splitLoop, if_pos h, ih, List.filter_cons, h1, Bool.not_true,
        List.append_assoc, List.singleton_append]
      rfl
    · have h1 : decide (CommonPrefixLen p.KId target > cpl) = false := decide_eq_false h
      simp only [Bucket.splitLoop, if_neg h, ih, List.filter_cons, h1, Bool.not_false,
        List.append_assoc, List.singleton_append]
      rfl

/-- C35: `Bucket.Split(cpl, target)` partitions the bucket: the returned
bucket holds exactly the former peers of the receiver whose common prefix with
the target is longer than `cpl`, the receiver keeps exactly the remaining
peers, both in their original relative order, and the two together are the
former peers, none lost and none twice. -/
theorem Split_partitions {KadId : Type} (CommonPrefixLen : KadId → KadId → Int)
    (b : Bucket KadId) (cpl : Int) (target : KadId) :
    (Bucket.Split CommonPrefixLen b cpl target).2 =
        b.filter (fun p => decide (CommonPrefixLen p.KId target > cpl)) ∧
      (Bucket.Split CommonPrefixLen b cpl target).1 =
        b.filter (fun p => !decide (CommonPrefixLen p.KId target > cpl)) ∧
      List.Sublist (Bucket.Split CommonPrefixLen b cpl target).2 b ∧
      List.Sublist (Bucket.Split CommonPrefixLen b cpl target).1 b ∧
      List.Perm ((Bucket.Split CommonPrefixLen b cpl target).2 ++
        (Bucket.Split CommonPrefixLen b cpl target).1) b := by
  have h := splitLoop_eq CommonPrefixLen cpl target b [] []
  simp only [List.nil_append] at h
  unfold Bucket.Split
  rw [h]
  refine ⟨rfl, rfl, List.filter_sublist _, List.filter_sublist _, ?_⟩
  exact List.filter_append_perm
    (fun p : KPId KadId => decide (CommonPrefixLen p.KId target > cpl)) b

/-- C39 (the code diverges): on the bucket with the one peer of identifier 7,
`Remove(7)` returns `true` and the bucket is as before: `Has(7)` is still true
and `Len()` is still 1. -/
theorem Remove_keeps_peer :
    Bucket.Remove ([⟨7, 1⟩] : Bucket Nat) 7 = (true, [⟨7, 1⟩]) ∧
      Bucket.Has (Bucket.Remove ([⟨7, 1⟩] : Bucket Nat) 7).2 7 = true ∧
      Bucket.Len (Bucket.Remove ([⟨7, 1⟩] : Bucket Nat) 7).2 = 1 ∧
      Bucket.Len ([⟨7, 1⟩] : Bucket Nat) = 1 := by
  decide

end kbucket

namespace shard_stake

/-- The loop of `isUserStakePeerEmpty` returns `true` exactly when some entry
has a non-zero amount. -/
theorem stakeLoop_iff (peers : List (Nat × UserPeerStakeInfo)) :
    stakeLoop peers = true ↔
      ∃ e ∈ peers, e.2.StakeAmount ≠ 0 ∨ e.2.UnfreezeAmount ≠ 0 := by
  induction peers with
  | nil => simp [stakeLoop]
  | cons e rest ih =>
    obtain ⟨k, s⟩ := e
    by_cases h : s.StakeAmount ≠ 0 ∨ s.UnfreezeAmount ≠ 0
    · simp only [stakeLoop, if_pos h, true_iff]
      exact ⟨(k, s), List.mem_cons_self _ _, h⟩
    · simp only [stakeLoop, if_neg h, ih, List.mem_cons]
      constructor
      · rintro ⟨e, he, hx⟩
        exact ⟨e, Or.inr he, hx⟩
      · rintro ⟨e, he | he, hx⟩
        · subst he
          exact absurd hx h
        · exact ⟨e, he, hx⟩

/-- C40 (the claim as written fails): `isUserStakePeerEmpty` returns `false`
for the nil map, for the empty map and for a peer with both amounts zero, and
`true` for a peer with the stake 5. -/
theorem isUserStakePeerEmpty_inverted :
    isUserStakePeerEmpty ⟨none⟩ = false ∧
      isUserStakePeerEmpty ⟨some []⟩ = false ∧
      isUserStakePeerEmpty ⟨some [(1, ⟨0, 0⟩)]⟩ = false ∧
      isUserStakePeerEmpty ⟨some [(1, ⟨5, 0⟩)]⟩ = true ∧
      isUserStakePeerEmpty ⟨some [(1, ⟨0, 0⟩), (2, ⟨0, 3⟩)]⟩ = true := by
  decide

/-- C40 (amended): `isUserStakePeerEmpty(info)` returns `true` exactly when
`info` holds a stake, that is, when some peer entry has a non-zero
`StakeAmount` or `UnfreezeAmount`; it returns `false` when the `Peers` map is
nil or empty and when every entry has both amounts zero. -/
theorem isUserStakePeerEmpty_true_iff_stake (info : UserStakeInfo) :
    isUserStakePeerEmpty info = true ↔
      ∃ peers, info.Peers = some peers ∧
        ∃ e ∈ peers, e.2.StakeAmount ≠ 0 ∨ e.2.UnfreezeAmount ≠ 0 := by
  obtain ⟨peers⟩ := info
  cases peers with
  | none => simp [isUserStakePeerEmpty]
  | some ps =>
    cases ps with
    | nil => simp [isUserStakePeerEmpty]
    | cons e rest =>
      have h := stakeLoop_iff (e :: rest)
      simp only [isUserStakePeerEmpty, List.length_cons, Nat.succ_ne_zero, if_false,
        Option.some.injEq, exists_eq_left']
      exact h

end shard_stake

namespace neovm
open types errors constants common

/-- `Remove(n)` for a depth inside the stack takes out the value at that
depth. -/
theorem eval_Remove (m : Executor) (n : Int) (x : RefValue)
    (h0 : 0 ≤ n) (hx : m.EvalStack.data.get? n.toNat = some x) :
    Op.eval (ValueStack.Remove n) m =
      .ok x (m.setStack (m.EvalStack.data.eraseIdx n.toNat)) := by
  have hlt : n.toNat < m.EvalStack.data.length := by
    by_contra hn
    rw [List.get?_eq_none.mpr (by omega)] at hx
    exact Option.noConfusion hx
  have hc : ¬ (n < 0 ∨ n ≥ (m.EvalStack.data.length : Int)) := by omega
  simp only [Op.eval, ValueStack.Remove, if_neg hc, hx, Executor.setStack]

/-- `Remove(n)` for a depth outside the stack fails and leaves the stack. -/
theorem eval_Remove_out (m : Executor) (n : Int)
    (hc : n < 0 ∨ n ≥ (m.EvalStack.data.length : Int)) :
    (Op.eval (ValueStack.Remove n) m : Outcome RefValue) =
      .fault (some .ERR_INDEX_OUT_OF_BOUND) m := by
  simp only [Op.eval, ValueStack.Remove, if_pos hc]

/-- `ROLL` after the depth has been popped. -/
theorem ROLL_popped (cfg : Config) (self : Executor) (vn : RefValue) (data : List RefValue)
    (n : Int) (hstack : self.EvalStack.data = vn :: data)
    (hn : vn.AsInt64 cfg.lim = .ok n) :
    dispatch cfg ROLL self =
      (do
        let val ← Op.eval (ValueStack.Remove n)
        Op.eval (ValueStack.Push val) : Op Unit) (self.setStack data) := by
  have hd : dispatch cfg ROLL = opStack cfg ROLL := rfl
  have hop : opStack cfg ROLL = (do
      let n ← Op.eval (ValueStack.PopAsInt64 cfg.lim)
      let val ← Op.eval (ValueStack.Remove n)
      Op.eval (ValueStack.Push val) : Op Unit) := rfl
  have h1 := eval_PopAsInt64 cfg.lim self vn data n hstack hn
  rw [hd, hop]
  simp only [bind, Op.bind, h1]

/-- `ROLL` pops an integer `n`, here one in the signed 64-bit range, and moves
the item at zero-based depth `n` of the remaining stack to the top, keeping the order of all other items and
the size of the stack; it returns `FAULT` when `n` is negative or not less than
the remaining depth. -/
theorem ROLL_moves_to_top (cfg : Config) (self : Executor) (vn : RefValue)
    (data : List RefValue) (nv : IntValue)
    (hstack : self.EvalStack.data = vn :: data)
    (hn : vn.AsIntValue cfg.lim = .ok nv) (hnr : IsInt64 nv.toInt = true)
    (hlim : self.EvalStack.data.length ≤ self.EvalStack.limit) :
    (∀ x : RefValue, 0 ≤ nv.toInt → data.get? nv.toInt.toNat = some x →
      self.ExecuteOp cfg ROLL =
          .ret .NONE none (self.setStack (x :: data.eraseIdx nv.toInt.toNat)) ∧
        data.eraseIdx nv.toInt.toNat =
          data.take nv.toInt.toNat ++ data.drop (nv.toInt.toNat + 1) ∧
        (x :: data.eraseIdx nv.toInt.toNat).length = data.length) ∧
    ((nv.toInt < 0 ∨ nv.toInt ≥ data.length) →
      self.ExecuteOp cfg ROLL =
        .ret .FAULT (some .ERR_INDEX_OUT_OF_BOUND) (self.setStack data)) := by
  have hn2 := AsInt64_of_IsInt64 cfg.lim vn nv hn hnr
  have hP := ROLL_popped cfg self vn data nv.toInt hstack hn2
  have hl : data.length ≤ self.EvalStack.limit := by
    rw [hstack] at hlim
    simp at hlim
    omega
  refine ⟨fun x h0 hx => ?_, fun hout => ?_⟩
  · have hlt : nv.toInt.toNat < data.length := by
      by_contra hc
      rw [List.get?_eq_none.mpr (by omega)] at hx
      exact Option.noConfusion hx
    have hlen : (data.eraseIdx nv.toInt.toNat).length = data.length - 1 :=
      List.length_eraseIdx_of_lt hlt
    have h1 := eval_Remove (self.setStack data) nv.toInt x h0 hx
    have h2 := eval_Push (self.setStack (data.eraseIdx nv.toInt.toNat)) x
      (by simp only [Executor.setStack]; omega)
    refine ⟨?_, List.eraseIdx_eq_take_drop_succ _ _, ?_⟩
    · rw [ExecuteOp_eq, hP]
      simp only [bind, Op.bind]
      rw [h1]
      simp only []
      erw [h2]
      rfl
    · simp only [List.length_cons, hlen]
      omega
  · have h1 := eval_Remove_out (self.setStack data) nv.toInt hout
    rw [ExecuteOp_eq, hP]
    simp only [bind, Op.bind, h1]
    rfl

/-- The test vector: with 3, 2 and the depth 1 pushed, `ROLL` gives 2, 3. -/
theorem ROLL_moves_to_top_witness :
    Executor.ExecuteOp testConfig
        (testExecutor [ROLL] [.integer 1, .integer 2, .integer 3]) ROLL =
      .ret .NONE none
        ((testExecutor [ROLL] [.integer 1, .integer 2, .integer 3]).setStack
          [.integer 3, .integer 2]) :=
  ((ROLL_moves_to_top testConfig (testExecutor [ROLL] [.integer 1, .integer 2, .integer 3])
    (.integer 1) [.integer 2, .integer 3] (.small 1) rfl rfl (by decide) (by decide)).1
    (.integer 3) (by decide) rfl).1

/-- C34 (the code diverges): on the stack 2, 3 (2 on top) `ROLL` with the
depth `2 ^ 64`, which is not less than the remaining depth 2, returns `NONE`
and leaves 2, 3, as it does with the depth 0; with the depth 1 it gives 3, 2,
and with the depth 2 it returns `FAULT`. -/
theorem ROLL_depth_beyond_int64 :
    Executor.ExecuteOp testConfig
        (testExecutor [ROLL] [.bigint 18446744073709551616, .integer 2, .integer 3]) ROLL =
      .ret .NONE none (testExecutor [ROLL] [.integer 2, .integer 3]) ∧
    Executor.ExecuteOp testConfig
        (testExecutor [ROLL] [.integer 0, .integer 2, .integer 3]) ROLL =
      .ret .NONE none (testExecutor [ROLL] [.integer 2, .integer 3]) ∧
    Executor.ExecuteOp testConfig
        (testExecutor [ROLL] [.integer 1, .integer 2, .integer 3]) ROLL =
      .ret .NONE none (testExecutor [ROLL] [.integer 3, .integer 2]) ∧
    Executor.ExecuteOp testConfig
        (testExecutor [ROLL] [.integer 2, .integer 2, .integer 3]) ROLL =
      .ret .FAULT (some .ERR_INDEX_OUT_OF_BOUND) (testExecutor [ROLL] [.integer 2, .integer 3]) :=
  ⟨by decide, by decide, by decide, by decide⟩

/-- The slice written at an address is the slice read there afterwards. -/
theorem list?_set (st : Store) (p : Nat) (old new : List RefValue)
    (h : st.list? p = some old) : Store.list? (st.set p (.list new)) p = some new := by
  have hlt : p < st.length := by
    by_contra hn
    have : st[p]? = none := List.getElem?_eq_none (by omega)
    simp [Store.list?, this] at h
  simp [Store.list?, List.getElem?_set, hlt]

/-- The index check of `PICKITEM` and `SETITEM`. -/
theorem opIndex_eq (cfg : Config) (index : RefValue) (data : List RefValue) (i : Int)
    (m : Executor) (hi : index.AsInt64 cfg.lim = .ok i) :
    opIndex cfg index data m =
      if i < 0 ∨ i ≥ (data.length : Int) then .fault (some .ERR_INDEX_OUT_OF_BOUND) m
      else .ok i.toNat m := by
  unfold opIndex
  simp only [bind, Op.bind, Op.try, hi]
  split <;> rfl

/-- `PICKITEM` on an Array or a Struct after the operands have been popped and
the index has been read. -/
theorem PICKITEM_list (cfg : Config) (self : Executor) (c : RefValue) (p : Nat)
    (hc : c = .array p ∨ c = .struct p) (vi : RefValue) (rest : List RefValue)
    (data : List RefValue) (i : Int)
    (hstack : self.EvalStack.data = vi :: c :: rest)
    (hp : self.store.list? p = some data) (hi : vi.AsInt64 cfg.lim = .ok i)
    (hlim : rest.length < self.EvalStack.limit) :
    (∀ x : RefValue, 0 ≤ i → data.get? i.toNat = some x →
      self.ExecuteOp cfg PICKITEM = .ret .NONE none (self.setStack (x :: rest))) ∧
    ((i < 0 ∨ i ≥ (data.length : Int)) →
      self.ExecuteOp cfg PICKITEM =
        .ret .FAULT (some .ERR_INDEX_OUT_OF_BOUND) (self.setStack rest)) := by
  have hd : dispatch cfg PICKITEM = opItems cfg PICKITEM := rfl
  have h1 : Op.eval ValueStack.PopPair self = .ok (c, vi) (self.setStack rest) := by
    simp [Op.eval, ValueStack.PopPair, bind, StackM.bind, ValueStack.Pop, hstack,
      Executor.setStack, pure]
  have h2 : Op.getList p (self.setStack rest) = .ok data (self.setStack rest) := by
    simp [Op.getList, Executor.setStack, hp]
  have h3 := opIndex_eq cfg vi data i (self.setStack rest) hi
  have hop : opItems cfg PICKITEM = (do
    let (item, index) ← Op.eval ValueStack.PopPair
    let val ←
      match item.AsArrayValue with
      | .ok p => do
        let data ← Op.getList p
        let ind ← opIndex cfg index data
        match data.get? ind with
        | some v => pure v
        | none => Op.panic
      | .error _ =>
        match item.AsStructValue with
        | .ok p => do
          let data ← Op.getList p
          let ind ← opIndex cfg index data
          match data.get? ind with
          | some v => pure v
          | none => Op.panic
        | .error _ =>
          match item.AsMapValue with
          | .ok p => do
            let data ← Op.getMap p
            let r ← Op.try (MapRef.Get data index)
            match r with
            | some value => pure value
            | none => Op.fail .ERR_MAP_NOT_EXIST
          | .error _ => Op.fail .ERR_BAD_TYPE
    Op.eval (ValueStack.Push val) : Op Unit) := rfl
  refine ⟨fun x h0 hx => ?_, fun hout => ?_⟩
  · have hlt : i.toNat < data.length := by
      by_contra hn
      rw [List.get?_eq_none.mpr (by omega)] at hx
      exact Option.noConfusion hx
    have hin : ¬ (i < 0 ∨ i ≥ (data.length : Int)) := by omega
    rw [if_neg hin] at h3
    have h4 := eval_Push (self.setStack rest) x hlim
    rw [ExecuteOp_eq, hd, hop]
    rcases hc with hc | hc <;> subst hc <;>
      simp only [bind, Op.bind, h1, RefValue.AsArrayValue, RefValue.AsStructValue, h2, h3, hx,
        pure, h4] <;> rfl
  · rw [if_pos hout] at h3
    rw [ExecuteOp_eq, hd, hop]
    rcases hc with hc | hc <;> subst hc <;>
      simp only [bind, Op.bind, h1, RefValue.AsArrayValue, RefValue.AsStructValue, h2, h3] <;>
      rfl

/-- `SETITEM` on an Array or a Struct with an index inside the bounds writes
the element in place. -/
theorem SETITEM_list (cfg : Config) (self : Executor) (c : RefValue) (p : Nat)
    (hc : c = .array p ∨ c = .struct p) (vi v : RefValue) (rest : List RefValue)
    (data : List RefValue) (i : Int)
    (hstack : self.EvalStack.data = v :: vi :: c :: rest)
    (hp : self.store.list? p = some data) (hi : vi.AsInt64 cfg.lim = .ok i)
    (hin : 0 ≤ i ∧ i < (data.length : Int)) :
    self.ExecuteOp cfg SETITEM =
      .ret .NONE none
        { self.setStack rest with
          store := self.store.set p (.list (data.set i.toNat v)) } := by
  have hd : dispatch cfg SETITEM = opItems cfg SETITEM := rfl
  have h1 : Op.eval ValueStack.PopTriple self = .ok (c, vi, v) (self.setStack rest) := by
    simp [Op.eval, ValueStack.PopTriple, bind, StackM.bind, ValueStack.Pop, hstack,
      Executor.setStack, pure]
  have h2 : Op.getList p (self.setStack rest) = .ok data (self.setStack rest) := by
    simp [Op.getList, Executor.setStack, hp]
  have h3 := opIndex_eq cfg vi data i (self.setStack rest) hi
  have hin2 : ¬ (i < 0 ∨ i ≥ (data.length : Int)) := by omega
  rw [if_neg hin2] at h3
  have hop : opItems cfg SETITEM = (do
    let (item, index, val) ← Op.eval ValueStack.PopTriple
    match item.AsArrayValue with
    | .ok p => do
      let data ← Op.getList p
      let ind ← opIndex cfg index data
      Op.setCell p (.list (data.set ind val))
    | .error _ =>
      match item.AsStructValue with
      | .ok p => do
        let data ← Op.getList p
        let ind ← opIndex cfg index data
        Op.setCell p (.list (data.set ind val))
      | .error _ =>
        match item.AsMapValue with
        | .ok p => do
          let data ← Op.getMap p
          let data2 ← Op.try (MapRef.Set data index val)
          Op.setCell p (.map data2)
        | .error _ => Op.fail .ERR_BAD_TYPE : Op Unit) := rfl
  rw [ExecuteOp_eq, hd, hop]
  rcases hc with hc | hc <;> subst hc <;>
    simp only [bind, Op.bind, h1, RefValue.AsArrayValue, RefValue.AsStructValue, h2, h3,
      Op.setCell] <;> rfl

/-- `DUP` pushes the value on top of the stack a second time. -/
theorem DUP_ok (cfg : Config) (self : Executor) (c : RefValue) (rest : List RefValue)
    (hstack : self.EvalStack.data = c :: rest)
    (hlim : rest.length + 1 < self.EvalStack.limit) :
    self.ExecuteOp cfg DUP = .ret .NONE none (self.setStack (c :: c :: rest)) := by
  have hd : dispatch cfg DUP = opStack cfg DUP := rfl
  have hop : opStack cfg DUP = (do
      let val ← Op.eval (ValueStack.Peek 0)
      Op.eval (ValueStack.Push val) : Op Unit) := rfl
  have h1 : Op.eval (ValueStack.Peek 0) self = .ok c self := by
    have h0 : ¬ ((rest.length : Int) + 1 ≤ 0) := by omega
    simp [Op.eval, ValueStack.Peek, hstack, h0]
  have h2 : Op.eval (ValueStack.Push c) self = .ok () (self.setStack (c :: c :: rest)) := by
    have := eval_Push self c (by rw [hstack]; simp; omega)
    rw [this, hstack]
  rw [ExecuteOp_eq, hd, hop]
  simp only [bind, Op.bind, h1, h2]
  rfl

/-- `REMOVE` on an Array after the operands have been popped and the index has
been read. -/
theorem REMOVE_array_popped (cfg : Config) (self : Executor) (p : Nat) (vi : RefValue)
    (rest data : List RefValue) (i : Int)
    (hstack : self.EvalStack.data = vi :: .array p :: rest)
    (hp : self.store.list? p = some data) (hi : vi.AsInt64 cfg.lim = .ok i) :
    dispatch cfg REMOVE self =
      (if i < 0 then Op.fail .ErrRemoveIndex
       else do
        let data2 ← Op.try (cfg.RemoveAt data (wrapInt64 (i + 1)))
        Op.setCell p (.list data2) : Op Unit) (self.setStack rest) := by
  have hd : dispatch cfg REMOVE = opMap cfg REMOVE := rfl
  have h1 : Op.eval ValueStack.PopPair self = .ok (.array p, vi) (self.setStack rest) := by
    simp [Op.eval, ValueStack.PopPair, bind, StackM.bind, ValueStack.Pop, hstack,
      Executor.setStack, pure]
  have h2 : Op.getList p (self.setStack rest) = .ok data (self.setStack rest) := by
    simp [Op.getList, Executor.setStack, hp]
  have hop : opMap cfg REMOVE = (do
    let (item, index) ← Op.eval ValueStack.PopPair
    if item.valType = .mapType then
      match item.AsMapValue with
      | .ok _ => Op.faultNil
      | .error _ => Op.panic
    else if item.valType = .arrayType then do
      let p ← Op.try item.AsArrayValue
      let i ← Op.try (index.AsInt64 cfg.lim)
      if i < 0 then Op.fail .ErrRemoveIndex
      else do
        let data ← Op.getList p
        let data2 ← Op.try (cfg.RemoveAt data (wrapInt64 (i + 1)))
        Op.setCell p (.list data2)
    else pure () : Op Unit) := rfl
  have e1 : ¬ ((RefValue.array p).valType = NeoVmValueType.mapType) := by
    simp [RefValue.valType]
  have e2 : (RefValue.array p).valType = NeoVmValueType.arrayType := rfl
  rw [hd, hop]
  simp only [bind, Op.bind, h1, if_neg e1, if_pos e2, Op.try, RefValue.AsArrayValue, hi]
  by_cases h0 : i < 0
  · simp only [if_pos h0]
  · simp only [if_neg h0, Op.bind, h2]

/-- C32 (the code diverges): `REMOVE` on an Array reads the index `2 ^ 64`,
which is outside `[0, L)` for every length `L`, as the index 0: whatever
`RemoveAt` does, `REMOVE` with the index `2 ^ 64` returns what `REMOVE` with
the index 0 returns. On the Array 10, 20, 30 it returns `NONE` under both
readings of `RemoveAt`, leaving 20, 30 under the one-based reading and 10, 30
under the zero-based one. -/
theorem REMOVE_index_beyond_int64
    (f : List RefValue → Int → Except VmError (List RefValue)) (self : Executor) (p : Nat)
    (rest : List RefValue) :
    Executor.ExecuteOp { testConfig with RemoveAt := f }
        (self.setStack (.bigint 18446744073709551616 :: .array p :: rest)) REMOVE =
      Executor.ExecuteOp { testConfig with RemoveAt := f }
        (self.setStack (.integer 0 :: .array p :: rest)) REMOVE ∧
    Executor.ExecuteOp { testConfig with RemoveAt := ArrayValue.RemoveAtOneBased }
        { testExecutor [REMOVE] [.bigint 18446744073709551616, .array 0] with
          store := [.list [.integer 10, .integer 20, .integer 30]] } REMOVE =
      .ret .NONE none
        { testExecutor [REMOVE] [] with store := [.list [.integer 20, .integer 30]] } ∧
    Executor.ExecuteOp { testConfig with RemoveAt := ArrayValue.RemoveAtZeroBased }
        { testExecutor [REMOVE] [.bigint 18446744073709551616, .array 0] with
          store := [.list [.integer 10, .integer 20, .integer 30]] } REMOVE =
      .ret .NONE none
        { testExecutor [REMOVE] [] with store := [.list [.integer 10, .integer 30]] } := by
  refine ⟨?_, by decide, by decide⟩
  have hd : dispatch { testConfig with RemoveAt := f } REMOVE =
      opMap { testConfig with RemoveAt := f } REMOVE := rfl
  have hop : opMap { testConfig with RemoveAt := f } REMOVE = (do
    let (item, index) ← Op.eval ValueStack.PopPair
    if item.valType = .mapType then
      match item.AsMapValue with
      | .ok _ => Op.faultNil
      | .error _ => Op.panic
    else if item.valType = .arrayType then do
      let p ← Op.try item.AsArrayValue
      let i ← Op.try (index.AsInt64 testLimits)
      if i < 0 then Op.fail .ErrRemoveIndex
      else do
        let data ← Op.getList p
        let data2 ← Op.try (f data (wrapInt64 (i + 1)))
        Op.setCell p (.list data2)
    else pure () : Op Unit) := rfl
  have h1 : ∀ vi : RefValue, Op.eval ValueStack.PopPair
      (self.setStack (vi :: .array p :: rest)) = .ok (.array p, vi) (self.setStack rest) := by
    intro vi
    simp [Op.eval, ValueStack.PopPair, bind, StackM.bind, ValueStack.Pop,
      Executor.setStack, pure]
  have e1 : ¬ ((RefValue.array p).valType = NeoVmValueType.mapType) := by
    simp [RefValue.valType]
  have e2 : (RefValue.array p).valType = NeoVmValueType.arrayType := rfl
  have a1 : (RefValue.bigint 18446744073709551616).AsInt64 testLimits = .ok 0 := rfl
  have a2 : (RefValue.integer 0).AsInt64 testLimits = .ok 0 := rfl
  rw [ExecuteOp_eq, ExecuteOp_eq, hd, hop]
  simp only [bind, Op.bind, h1, if_neg e1, if_pos e2, Op.try, RefValue.AsArrayValue, a1, a2]

end neovm

namespace types
open errors constants common

/-- C38 (the claim as written fails): the elements Integer 1 and Boolean true
are Equal, and the Structs that hold them are not; two distinct Arrays that
both hold the one element 7 are not Equal, and the Structs that hold them
are. -/
theorem Equals_struct_not_elementwise :
    RefValue.Equals structEqualityStore 5 (.integer 1) (.bool 1) = some true ∧
      RefValue.Equals structEqualityStore 5 (.struct 0) (.struct 1) = some false ∧
      RefValue.Equals structEqualityStore 5 (.array 2) (.array 3) = some false ∧
      RefValue.Equals structEqualityStore 5 (.struct 4) (.struct 5) = some true := by
  decide

/-- C38 (amended): Struct equality is `reflect.DeepEqual` on the payloads and
does not agree with `Equals` on the elements: two distinct non-empty Structs of
the same length are Equal exactly when their elements are deeply equal
position by position. An Integer and a Boolean of the same number are Equal
and not deeply equal; a ByteArray of the empty slice and one of the nil slice
are Equal and not deeply equal; two distinct Arrays that hold the same
non-empty list of primitives are not Equal and are deeply equal. -/
theorem Equals_struct_deep (st : Store) (fuel : Nat) (p q : Nat) (xs ys : List RefValue)
    (hp : st.list? p = some xs) (hq : st.list? q = some ys) (hpq : p ≠ q) (hne : xs ≠ [])
    (hlen : xs.length = ys.length) :
    (RefValue.Equals st (fuel + 1) (.struct p) (.struct q) = some true ↔
      List.Forall₂ (fun x y => deepValueEqual st fuel x y = some true) xs ys) ∧
    (∀ i : Int, RefValue.Equals st fuel (.integer i) (.bool i) = some true ∧
      deepValueEqual st fuel (.integer i) (.bool i) = some false) ∧
    (RefValue.Equals st fuel (.bytearray []) .nilbytes = some true ∧
      deepValueEqual st fuel (.bytearray []) .nilbytes = some false) ∧
    (∀ (a b : Nat) (zs : List RefValue), a ≠ b → st.list? a = some zs → st.list? b = some zs →
      zs ≠ [] → (∀ z ∈ zs, z.isScalar = true) →
      RefValue.Equals st (fuel + 1) (.array a) (.array b) = some false ∧
        deepValueEqual st (fuel + 1) (.array a) (.array b) = some true) := by
  refine ⟨?_, fun i => ⟨?_, ?_⟩, ⟨?_, ?_⟩, fun a b zs hab ha hb hz hs => ⟨?_, ?_⟩⟩
  · rw [Equals_struct_eq st fuel p q xs ys hp hq, ← deepEqualList_true_iff]
    simp [deepEqualSlice, hlen, hpq, hne]
  · simp [RefValue.Equals, RefValue.AsBytes]
  · simp [deepValueEqual]
  · simp [RefValue.Equals, RefValue.AsBytes]
  · simp [deepValueEqual]
  · simp [RefValue.Equals, RefValue.AsBytes, RefValue.valType, hab]
  · simp [deepValueEqual, ha, hb, deepEqualSlice, hab, hz,
      deepEqualList_scalar st fuel zs zs hs hs rfl]

/-- C38 (amended), at the Structs of `structEqualityStore` at addresses 4 and
5, which hold the two Arrays at addresses 2 and 3: the Structs are Equal, the
Arrays are deeply equal, and the Arrays are not Equal. -/
theorem Equals_struct_deep_witness :
    (structEqualityStore.list? 4 = some [.array 2] ∧
      structEqualityStore.list? 5 = some [.array 3] ∧ 4 ≠ 5) ∧
    RefValue.Equals structEqualityStore 2 (.struct 4) (.struct 5) = some true ∧
    RefValue.Equals structEqualityStore 2 (.array 2) (.array 3) = some false :=
  ⟨⟨rfl, rfl, by decide⟩,
    (Equals_struct_deep structEqualityStore 1 4 5 [.array 2] [.array 3] rfl rfl (by decide)
      (by decide) rfl).1.mpr (.cons (by decide) .nil),
    ((Equals_struct_deep structEqualityStore 1 4 5 [.array 2] [.array 3] rfl rfl (by decide)
      (by decide) rfl).2.2.2 2 3 [.integer 7] (by decide) rfl rfl (by decide)
      (by decide)).1⟩

end types
